import Mathlib

/-!
S25FL164K SPI flash driver: model and properties.

A shallow embedding of `FLASH_S25FL164K.c` / `S25FL164K_defs.h`.

* Machine integers are naturals (or integers for `int32_t`) with explicit
  reduction modulo `2^16` / `2^32` where the C types truncate.
* The bus is explicit state: a device state `σ` stepped by a transition function
  `D`, together with the list of transactions performed so far.
* Every C loop is a recursion on a fuel argument; running out of fuel is `none`.
  A run that returns is `some _`.
* A store outside an array whose size the source fixes (`mod_data[SECTOR_SIZE]`) is
  undefined behaviour in C: such a run has no result, `none`.
* A `uint8_t *` is a function `Nat → Nat` (the bytes seen from the pointer) plus,
  where the code moves the pointer, an index into it.
-/

namespace S25FL164K

/-! ## Constants of `S25FL164K_defs.h` -/

abbrev SEND_FF : Nat := 0xFF
abbrev DUMMY_BYTE : Nat := 0x00
abbrev SECTOR_START_ADDR_MASK : Nat := 0x00FFF000
abbrev BLOCK_START_ADDR_MASK : Nat := 0x00FF0000
abbrev MAIN_FLASH_SIZE : Nat := 8388608
abbrev SECTOR_SIZE : Nat := 4 * 1024
abbrev BLOCK_SIZE : Nat := 64 * 1024
abbrev PAGE_SIZE : Nat := 256
abbrev READ_STATUS_REGISTER_1 : Nat := 0x05
abbrev WRITE_ENABLE : Nat := 0x06
abbrev WRITE_DISABLE : Nat := 0x04
abbrev PAGE_PROGRAM : Nat := 0x02
abbrev SECTOR_ERASE : Nat := 0x20
abbrev BLOCK_ERASE : Nat := 0xD8
abbrev CHIP_ERASE : Nat := 0xC7
abbrev READ_DATA : Nat := 0x03
abbrev SOFTWARE_RESET_ENABLE : Nat := 0x66
abbrev SOFTWARE_RESET : Nat := 0x99
abbrev PROGRAM_SEC_REG : Nat := 0x42
abbrev ERASE_SEC_REG : Nat := 0x44
abbrev READ_SEC_REG : Nat := 0x48
abbrev BUSY_BIT_MASK : Nat := 1

/-! ## Bus -/

/-- One bus transaction: the byte put on the wire, whether chip-select stays
asserted afterwards, and the byte the device returned. -/
structure Xfer where
  byte : Nat
  cont : Bool
  resp : Nat
deriving DecidableEq

/-- The bytes reachable from a `uint8_t *`. -/
abbrev Buf := Nat → Nat

/-- Driver-visible world: the device behind the bus and the transactions so far. -/
structure Bus (σ : Type) where
  dev : σ
  trace : List Xfer

/-- A device: from its state, the byte received and the chip-select hold flag it
gives the byte it answers and its next state. -/
abbrev Device (σ : Type) := σ → Nat → Bool → Nat × σ

section Driver

variable {σ : Type}

/-- Modelled from the spec: the bus primitive `SPI_Master` (declared in
`SPI_Master.h`, which is not among the sources) sends one byte, receives one byte
in the same clock phase and keeps chip-select asserted or releases it. The byte
sent is the low eight bits of the command word; of the `SPI_PUSHR_*` fields of the
word the model keeps the flag `cont`: bit 31 (`SPI_PUSHR_CONT_MASK`) is set. -/
def SPI_Master (D : Device σ) (byte : Nat) (cont : Bool) (st : Bus σ) : Nat × Bus σ :=
  let r := D st.dev (byte % 256) cont
  (r.1, ⟨r.2, st.trace ++ [⟨byte % 256, cont, r.1⟩]⟩)

/-- The macro `SPI_CMD_FLASH(byte, cs)`: the command word is the argument ORed with
the chip-select and transfer-attribute fields and with `SPI_PUSHR_CONT_MASK`, so
chip-select stays active whatever the argument. -/
def SPI_CMD_FLASH (D : Device σ) (byte : Nat) (st : Bus σ) : Nat × Bus σ :=
  SPI_Master D byte true st

/-- The macro `SPI_CMD_LAST_FLASH(byte, cs)`: the command word is the whole argument
ORed with the chip-select and transfer-attribute fields, without
`SPI_PUSHR_CONT_MASK`. Bit 31 of the word is therefore bit 31 of the argument, a
32-bit value: chip-select goes inactive unless the argument itself has that bit
set. -/
def SPI_CMD_LAST_FLASH (D : Device σ) (byte : Nat) (st : Bus σ) : Nat × Bus σ :=
  SPI_Master D byte (decide (2 ^ 31 ≤ byte % 2 ^ 32)) st

/-- The function `S25FL164K_Read_BUSY_Bit`: the result is a `uint8_t`. -/
def S25FL164K_Read_BUSY_Bit (D : Device σ) (st : Bus σ) : Nat × Bus σ :=
  let st1 := (SPI_CMD_FLASH D READ_STATUS_REGISTER_1 st).2
  let r := SPI_CMD_LAST_FLASH D BUSY_BIT_MASK st1
  let busy := r.1 % 256
  let busy := busy &&& BUSY_BIT_MASK
  (busy, r.2)

/-- The statement `while(S25FL164K_Read_BUSY_Bit());`. -/
def wait_while_busy (D : Device σ) : Nat → Bus σ → Option (Bus σ)
  | 0, _ => none
  | fuel + 1, st =>
    let r := S25FL164K_Read_BUSY_Bit D st
    if r.1 ≠ 0 then wait_while_busy D fuel r.2 else some r.2

/-- The function `S25FL164K_Write_Enable`. -/
def S25FL164K_Write_Enable (D : Device σ) (fuel : Nat) (st : Bus σ) : Option (Bus σ) :=
  (wait_while_busy D fuel st).bind fun st =>
  some (SPI_CMD_LAST_FLASH D WRITE_ENABLE st).2

/-- The function `S25FL164K_Write_Disable`. -/
def S25FL164K_Write_Disable (D : Device σ) (fuel : Nat) (st : Bus σ) : Option (Bus σ) :=
  (wait_while_busy D fuel st).bind fun st =>
  some (SPI_CMD_LAST_FLASH D WRITE_DISABLE st).2

/-- The loop `for(uint16_t i = 1U; i < (byte_count); i++) { SPI_CMD_FLASH(*buff); buff = buff + 1U; }`
of `S25FL164K_Page_Program` and `S25FL164K_Write_Sec_Reg`. `p` is the distance the
pointer `buff` has moved; the result carries the final `p`. -/
def send_loop (D : Device σ) : Nat → Nat → Nat → Buf → Nat → Bus σ → Option (Nat × Bus σ)
  | 0, _, _, _, _, _ => none
  | fuel + 1, i, byte_count, buff, p, st =>
    if i < byte_count then
      send_loop D fuel ((i + 1) % 65536) byte_count buff (p + 1) (SPI_CMD_FLASH D (buff p) st).2
    else some (p, st)

/-- The loop `for(uint16_t i = 1U; i < (byte_count); i++) { *buff = SPI_CMD_FLASH(SEND_FF); buff = buff + 1U; }`
of `S25FL164K_Read_Data` and `S25FL164K_Read_Sec_Reg`. The counter is 16 bits wide
whatever the width of `byte_count`. -/
def recv_loop (D : Device σ) : Nat → Nat → Nat → Buf → Nat → Bus σ → Option (Buf × Nat × Bus σ)
  | 0, _, _, _, _, _ => none
  | fuel + 1, i, byte_count, buff, p, st =>
    if i < byte_count then
      let r := SPI_CMD_FLASH D SEND_FF st
      recv_loop D fuel ((i + 1) % 65536) byte_count (Function.update buff p (r.1 % 256)) (p + 1) r.2
    else some (buff, p, st)

/-- The function `S25FL164K_Page_Program(address, buff, byte_count)`; `byte_count` is a `uint16_t`.
The argument `*buff` of the last macro is a `uint8_t`. -/
def S25FL164K_Page_Program (D : Device σ) (fuel : Nat) (address : Nat) (buff : Buf)
    (byte_count : Nat) (st : Bus σ) : Option (Bus σ) :=
  let byte_count := byte_count % 65536
  (S25FL164K_Write_Enable D fuel st).bind fun st =>
  (wait_while_busy D fuel st).bind fun st =>
  let st := (SPI_CMD_FLASH D PAGE_PROGRAM st).2
  let st := (SPI_CMD_FLASH D (address >>> 16) st).2
  let st := (SPI_CMD_FLASH D (address >>> 8) st).2
  let st := (SPI_CMD_FLASH D address st).2
  (send_loop D fuel 1 byte_count buff 0 st).bind fun r =>
  some (SPI_CMD_LAST_FLASH D (buff r.1 % 256) r.2).2

/-- The function `S25FL164K_Read_Data(address, buff, byte_count)`; `byte_count` is a `uint32_t`.
Returns the buffer as left by the stores through `buff`. -/
def S25FL164K_Read_Data (D : Device σ) (fuel : Nat) (address : Nat) (buff : Buf)
    (byte_count : Nat) (st : Bus σ) : Option (Buf × Bus σ) :=
  let byte_count := byte_count % 2 ^ 32
  let st := (SPI_CMD_FLASH D READ_DATA st).2
  let st := (SPI_CMD_FLASH D (address >>> 16) st).2
  let st := (SPI_CMD_FLASH D (address >>> 8) st).2
  let st := (SPI_CMD_FLASH D address st).2
  (recv_loop D fuel 1 byte_count buff 0 st).bind fun r =>
  let l := SPI_CMD_LAST_FLASH D SEND_FF r.2.2
  some (Function.update r.1 r.2.1 (l.1 % 256), l.2)

/-- The function `S25FL164K_Erase_Sector`. -/
def S25FL164K_Erase_Sector (D : Device σ) (fuel : Nat) (address : Nat) (st : Bus σ) :
    Option (Bus σ) :=
  (S25FL164K_Write_Enable D fuel st).bind fun st =>
  (wait_while_busy D fuel st).bind fun st =>
  let address := address &&& SECTOR_START_ADDR_MASK
  let st := (SPI_CMD_FLASH D SECTOR_ERASE st).2
  let st := (SPI_CMD_FLASH D (address >>> 16) st).2
  let st := (SPI_CMD_FLASH D (address >>> 8) st).2
  some (SPI_CMD_LAST_FLASH D address st).2

/-- The function `S25FL164K_Erase_Block`. -/
def S25FL164K_Erase_Block (D : Device σ) (fuel : Nat) (address : Nat) (st : Bus σ) :
    Option (Bus σ) :=
  (S25FL164K_Write_Enable D fuel st).bind fun st =>
  (wait_while_busy D fuel st).bind fun st =>
  let address := address &&& BLOCK_START_ADDR_MASK
  let st := (SPI_CMD_FLASH D BLOCK_ERASE st).2
  let st := (SPI_CMD_FLASH D (address >>> 16) st).2
  let st := (SPI_CMD_FLASH D (address >>> 8) st).2
  some (SPI_CMD_LAST_FLASH D address st).2

/-- The function `S25FL164K_Erase_Chip`. -/
def S25FL164K_Erase_Chip (D : Device σ) (fuel : Nat) (st : Bus σ) : Option (Bus σ) :=
  (S25FL164K_Write_Enable D fuel st).bind fun st =>
  (wait_while_busy D fuel st).bind fun st =>
  some (SPI_CMD_LAST_FLASH D CHIP_ERASE st).2

/-- The function `S25FL164K_Erase_Sec_Reg`. The address goes into the last macro as
passed, all 32 bits of it. -/
def S25FL164K_Erase_Sec_Reg (D : Device σ) (fuel : Nat) (address : Nat) (st : Bus σ) :
    Option (Bus σ) :=
  (S25FL164K_Write_Enable D fuel st).bind fun st =>
  (wait_while_busy D fuel st).bind fun st =>
  let st := (SPI_CMD_FLASH D ERASE_SEC_REG st).2
  let st := (SPI_CMD_FLASH D (address >>> 16) st).2
  let st := (SPI_CMD_FLASH D (address >>> 8) st).2
  some (SPI_CMD_LAST_FLASH D address st).2

/-- The function `S25FL164K_Write_Sec_Reg(address, buff, byte_count)`; `byte_count` is a `uint16_t`.
The argument `*buff` of the last macro is a `uint8_t`. -/
def S25FL164K_Write_Sec_Reg (D : Device σ) (fuel : Nat) (address : Nat) (buff : Buf)
    (byte_count : Nat) (st : Bus σ) : Option (Bus σ) :=
  let byte_count := byte_count % 65536
  (S25FL164K_Write_Enable D fuel st).bind fun st =>
  (wait_while_busy D fuel st).bind fun st =>
  let st := (SPI_CMD_FLASH D PROGRAM_SEC_REG st).2
  let st := (SPI_CMD_FLASH D (address >>> 16) st).2
  let st := (SPI_CMD_FLASH D (address >>> 8) st).2
  let st := (SPI_CMD_FLASH D address st).2
  (send_loop D fuel 1 byte_count buff 0 st).bind fun r =>
  some (SPI_CMD_LAST_FLASH D (buff r.1 % 256) r.2).2

/-- The function `S25FL164K_Read_Sec_Reg(address, buff, byte_count)`; `byte_count` is a `uint16_t`. -/
def S25FL164K_Read_Sec_Reg (D : Device σ) (fuel : Nat) (address : Nat) (buff : Buf)
    (byte_count : Nat) (st : Bus σ) : Option (Buf × Bus σ) :=
  let byte_count := byte_count % 65536
  let st := (SPI_CMD_FLASH D READ_SEC_REG st).2
  let st := (SPI_CMD_FLASH D (address >>> 16) st).2
  let st := (SPI_CMD_FLASH D (address >>> 8) st).2
  let st := (SPI_CMD_FLASH D address st).2
  let st := (SPI_CMD_FLASH D DUMMY_BYTE st).2
  (recv_loop D fuel 1 byte_count buff 0 st).bind fun r =>
  let l := SPI_CMD_LAST_FLASH D SEND_FF r.2.2
  some (Function.update r.1 r.2.1 (l.1 % 256), l.2)

/-- The function `S25FL164K_Software_Reset`. -/
def S25FL164K_Software_Reset (D : Device σ) (st : Bus σ) : Bus σ :=
  let st := (SPI_CMD_FLASH D SOFTWARE_RESET_ENABLE st).2
  (SPI_CMD_LAST_FLASH D SOFTWARE_RESET st).2

end Driver

/-! ## Translation layer -/

/-- The conversion `int32_t count = byte_count;` of a `uint32_t` (two's complement). -/
def toInt32 (n : Nat) : Int :=
  if n % 2 ^ 32 < 2 ^ 31 then ((n % 2 ^ 32 : Nat) : Int) else ((n % 2 ^ 32 : Nat) : Int) - 2 ^ 32

section WriteData

variable {S : Type}

/-- The `while(count > 0)` loop of `S25FL164K_Write_Data`, with the callee
`S25FL164K_Page_Program` as a parameter acting on a state `S`.
`partial_page_size` and `tr_size` are `uint16_t`, `address` is `uint32_t`, `count`
is `int32_t` (it is positive when `partial_page_size <= 256` is subtracted, so the
subtraction cannot overflow). The pointer `buff` is handed on as received. -/
def Write_Data_loop (Page_Program : Nat → Buf → Nat → S → Option S) :
    Nat → Nat → Buf → Int → S → Option S
  | 0, _, _, _, _ => none
  | fuel + 1, address, buff, count, st =>
    if count > 0 then
      let partial_page_size : Nat := (PAGE_SIZE - (address &&& (PAGE_SIZE - 1))) % 65536
      let tr_size : Nat :=
        ((if count > (partial_page_size : Int) then (partial_page_size : Int) else count) % 65536).toNat
      (Page_Program address buff tr_size st).bind fun st =>
      Write_Data_loop Page_Program fuel ((address + partial_page_size) % 2 ^ 32) buff
        (count - (partial_page_size : Int)) st
    else some st

/-- The function `S25FL164K_Write_Data(address, buff, byte_count)` over an arbitrary callee. -/
def S25FL164K_Write_Data_with (Page_Program : Nat → Buf → Nat → S → Option S) (fuel : Nat)
    (address : Nat) (buff : Buf) (byte_count : Nat) (st : S) : Option S :=
  let count : Int := toInt32 byte_count
  Write_Data_loop Page_Program fuel address buff count st

end WriteData

section Translation

variable {σ : Type}

/-- The function `S25FL164K_Write_Data` on the bus: the callee is `S25FL164K_Page_Program`. -/
def S25FL164K_Write_Data (D : Device σ) (fuel : Nat) (address : Nat) (buff : Buf)
    (byte_count : Nat) (st : Bus σ) : Option (Bus σ) :=
  S25FL164K_Write_Data_with (S25FL164K_Page_Program D fuel) fuel address buff byte_count st

/-- The loop `for(uint32_t i = 0U; i < byte_count; i++) { mod_data[offset] = *(buff + i); offset = offset + 1U; }`
of `S25FL164K_Modify_Sector_Data`. The target is the array
`static uint8_t mod_data[SECTOR_SIZE]`: a store at an index from `SECTOR_SIZE` on is
outside it and the run has no result. -/
def patch_loop : Nat → Nat → Nat → Buf → Nat → Buf → Option (Buf × Nat)
  | 0, _, _, _, _, _ => none
  | fuel + 1, i, byte_count, mod_data, offset, buff =>
    if i < byte_count then
      if offset < SECTOR_SIZE then
        patch_loop fuel ((i + 1) % 2 ^ 32) byte_count (Function.update mod_data offset (buff i))
          ((offset + 1) % 2 ^ 32) buff
      else none
    else some (mod_data, offset)

/-- The function `S25FL164K_Modify_Sector_Data(address, buff, byte_count)`. The static array
`mod_data`, of `SECTOR_SIZE` bytes, is passed in with its contents on entry and
returned with its contents on exit; only indices below `SECTOR_SIZE` exist. The
sector read stores at indices `0 .. SECTOR_SIZE - 1`; the patch loop has no result
when it runs past the end of the array. -/
def S25FL164K_Modify_Sector_Data (D : Device σ) (fuel : Nat) (mod_data : Buf) (address : Nat)
    (buff : Buf) (byte_count : Nat) (st : Bus σ) : Option (Buf × Bus σ) :=
  let sector_address := address &&& SECTOR_START_ADDR_MASK
  (S25FL164K_Read_Data D fuel sector_address mod_data SECTOR_SIZE st).bind fun r =>
  let offset := address - sector_address
  (patch_loop fuel 0 (byte_count % 2 ^ 32) r.1 offset buff).bind fun m =>
  (S25FL164K_Erase_Sector D fuel sector_address r.2).bind fun st =>
  (S25FL164K_Write_Data D fuel sector_address m.1 SECTOR_SIZE st).bind fun st =>
  some (m.1, st)

end Translation

/-! ## The Page_Program calls of a write -/

/-- The arguments of one `S25FL164K_Page_Program` call. -/
structure ProgramCall where
  address : Nat
  buff : Buf
  byte_count : Nat

/-- A callee that only notes down its arguments. -/
def record_call (address : Nat) (buff : Buf) (byte_count : Nat) (log : List ProgramCall) :
    Option (List ProgramCall) :=
  some (log ++ [⟨address, buff, byte_count⟩])

/-- The `S25FL164K_Page_Program` calls `S25FL164K_Write_Data` issues, in issue order. -/
def Write_Data_calls (fuel : Nat) (address : Nat) (buff : Buf) (byte_count : Nat) :
    Option (List ProgramCall) :=
  S25FL164K_Write_Data_with record_call fuel address buff byte_count []

/-- The bytes a `S25FL164K_Page_Program` call is handed: `buff[0 .. byte_count)`. -/
def ProgramCall.bytes (c : ProgramCall) : List Nat :=
  (List.range c.byte_count).map c.buff

/-! ## A flash device behind the bus -/

/-- Modelled from the spec: the flash device itself, which is hardware outside the
sources. The state is the array contents `mem`, the opcode `op` of the command in
progress, the number `n` of bytes of that command already received (`0` when
chip-select is inactive, at most `4`), and the address `addr` shifted in so far or
currently pointed at. -/
structure Flash where
  mem : Nat → Nat
  op : Nat
  n : Nat
  addr : Nat

/-- Modelled from the spec: what the flash device does with one byte while
chip-select is active. Opcodes and the 3-byte most-significant-first address are
those of section 6; a read answers the addressed byte and moves on; a program ANDs
the byte into the addressed cell ("programming may only clear bits") and moves on
inside the page; an erase sets its sector, block or the whole array to `0xFF`. The
status register always answers "not busy". -/
def Flash.receive (s : Flash) (b : Nat) : Nat × Flash :=
  if s.n = 0 then
    (0, ⟨if b = CHIP_ERASE then fun _ => 0xFF else s.mem, b, 1, 0⟩)
  else if s.n < 4 then
    if s.op = READ_DATA ∨ s.op = PAGE_PROGRAM ∨ s.op = SECTOR_ERASE ∨ s.op = BLOCK_ERASE then
      let a := s.addr * 256 + b
      let mem : Nat → Nat :=
        if s.n = 3 ∧ s.op = SECTOR_ERASE then
          fun x => if x / SECTOR_SIZE = a / SECTOR_SIZE then 0xFF else s.mem x
        else if s.n = 3 ∧ s.op = BLOCK_ERASE then
          fun x => if x / BLOCK_SIZE = a / BLOCK_SIZE then 0xFF else s.mem x
        else s.mem
      (0, ⟨mem, s.op, s.n + 1, a⟩)
    else (0, ⟨s.mem, s.op, s.n + 1, s.addr⟩)
  else if s.op = READ_DATA then
    (s.mem s.addr, ⟨s.mem, s.op, s.n, (s.addr + 1) % MAIN_FLASH_SIZE⟩)
  else if s.op = PAGE_PROGRAM then
    (0, ⟨Function.update s.mem s.addr (s.mem s.addr &&& b), s.op, s.n,
      s.addr / PAGE_SIZE * PAGE_SIZE + (s.addr + 1) % PAGE_SIZE⟩)
  else (0, s)

/-- Modelled from the spec: the flash device as a bus device. Releasing chip-select
ends the command in progress. -/
def flash : Device Flash := fun s b cont =>
  let r := s.receive b
  (r.1, if cont then r.2 else ⟨r.2.mem, r.2.op, 0, r.2.addr⟩)

/-- A flash device with the given contents and no command in progress. -/
def Flash.holding (mem : Nat → Nat) : Bus Flash := ⟨⟨mem, 0, 0, 0⟩, []⟩

/-- A buffer holding the listed bytes. -/
def bufOf (l : List Nat) : Buf := fun k => l.getD k 0

/-! ## Describing bus traffic -/

section TraceVocabulary

variable {σ : Type}

/-- What is visible on the wire of one transaction: the byte and the hold flag. -/
def Xfer.wire (x : Xfer) : Nat × Bool := (x.byte, x.cont)

/-- Performing a list of transactions `(byte, hold)` one after the other. -/
def emit (D : Device σ) : List (Nat × Bool) → Bus σ → Bus σ
  | [], st => st
  | c :: rest, st => emit D rest (SPI_Master D c.1 c.2 st).2

/-- The status bit a poll would return from device state `s`. -/
def busy_at (D : Device σ) (s : σ) : Nat :=
  (S25FL164K_Read_BUSY_Bit D ⟨s, []⟩).1

/-- A device reporting not-busy: a poll from the entry state `s0`, and a poll after
any transaction that released chip-select, returns a clear busy bit. -/
def NeverBusy (D : Device σ) (s0 : σ) : Prop :=
  busy_at D s0 = 0 ∧ ∀ s b, busy_at D (D s b false).2 = 0

/-- The transactions every state-changing command starts with on a device that is
not busy: status poll, write enable, status poll. -/
def entry_cmds : List (Nat × Bool) :=
  [(READ_STATUS_REGISTER_1, true), (BUSY_BIT_MASK, false), (WRITE_ENABLE, false),
   (READ_STATUS_REGISTER_1, true), (BUSY_BIT_MASK, false)]

/-- A device that answers `0` to everything. -/
def quiet : Device Unit := fun _ _ _ => (0, ())

end TraceVocabulary

/-! ## Busy gating -/

/-- The opcodes that change device state: write enable, write disable, page program,
sector erase, block erase, chip erase, program and erase security register. -/
def mutating (b : Nat) : Prop :=
  b = WRITE_ENABLE ∨ b = WRITE_DISABLE ∨ b = PAGE_PROGRAM ∨ b = SECTOR_ERASE ∨
  b = BLOCK_ERASE ∨ b = CHIP_ERASE ∨ b = PROGRAM_SEC_REG ∨ b = ERASE_SEC_REG

instance : DecidablePred mutating := fun b => by
  unfold mutating
  infer_instance

/-- Transaction number `i` of `t` is the first byte of a command (an opcode): it is
the first transaction of all or follows one that released chip-select. -/
def opcode_at (t : List Xfer) (i : Nat) : Prop :=
  i = 0 ∨ ∃ y, t[i - 1]? = some y ∧ y.cont = false

/-- Busy gating of a bus trace: every state-changing opcode is immediately preceded
by a complete read-status command, opcode `0x05` held and one more byte released,
whose answer had bit 0 clear. -/
def BusyGated (t : List Xfer) : Prop :=
  ∀ i x, t[i]? = some x → opcode_at t i → mutating x.byte →
    2 ≤ i ∧ opcode_at t (i - 2) ∧
    ∃ p q, t[i - 2]? = some p ∧ t[i - 1]? = some q ∧
      p.byte = READ_STATUS_REGISTER_1 ∧ p.cont = true ∧ q.cont = false ∧ q.resp % 2 = 0

/-- A monitor reading a trace from left to right. `idle`: chip-select released, no
fresh not-busy observation. `polling`: the opcode `0x05` was just sent. `ready`:
chip-select released by a read-status command that answered not-busy. `inside`:
inside any other command. `broken`: a state-changing opcode was sent out of a state
other than `ready`. -/
inductive Gate where
  | idle
  | polling
  | ready
  | inside
  | broken
deriving DecidableEq

/-- One step of the monitor. -/
def Gate.step (g : Gate) (x : Xfer) : Gate :=
  match g with
  | .broken => .broken
  | .polling => if x.cont then .inside else if x.resp % 2 = 0 then .ready else .idle
  | .inside => if x.cont then .inside else .idle
  | .idle =>
    if mutating x.byte then .broken
    else if x.cont then (if x.byte = READ_STATUS_REGISTER_1 then .polling else .inside)
    else .idle
  | .ready =>
    if x.cont then (if x.byte = READ_STATUS_REGISTER_1 then .polling else .inside) else .idle

/-- The monitor state after a trace. -/
def Gate.run (g : Gate) (t : List Xfer) : Gate := t.foldl Gate.step g

/-- Chip-select is released and the monitor has not failed. -/
def Gate.free (g : Gate) : Prop := g = .idle ∨ g = .ready

/-- A trace segment that, read from a state with chip-select released, leaves the
monitor with chip-select released and not failed. -/
def Passes (seg : List Xfer) : Prop := ∀ g : Gate, g.free → (g.run seg).free

/-- A trace segment that ends with a not-busy observation. -/
def Arms (seg : List Xfer) : Prop := ∀ g : Gate, g.free → g.run seg = .ready

/-- A trace segment that is one command issued right after a not-busy observation. -/
def Closes (seg : List Xfer) : Prop := Gate.run .ready seg = .idle

/-- The state-changing entry points of the driver, with their arguments. -/
inductive Op where
  | Write_Enable
  | Write_Disable
  | Page_Program (address : Nat) (buff : Buf) (byte_count : Nat)
  | Erase_Sector (address : Nat)
  | Erase_Block (address : Nat)
  | Erase_Chip
  | Erase_Sec_Reg (address : Nat)
  | Write_Sec_Reg (address : Nat) (buff : Buf) (byte_count : Nat)
  | Write_Data (address : Nat) (buff : Buf) (byte_count : Nat)
  | Modify_Sector_Data (mod_data : Buf) (address : Nat) (buff : Buf) (byte_count : Nat)

/-- Running an entry point on the bus. -/
def Op.run {σ : Type} (D : Device σ) (fuel : Nat) : Op → Bus σ → Option (Bus σ)
  | .Write_Enable, st => S25FL164K_Write_Enable D fuel st
  | .Write_Disable, st => S25FL164K_Write_Disable D fuel st
  | .Page_Program a b n, st => S25FL164K_Page_Program D fuel a b n st
  | .Erase_Sector a, st => S25FL164K_Erase_Sector D fuel a st
  | .Erase_Block a, st => S25FL164K_Erase_Block D fuel a st
  | .Erase_Chip, st => S25FL164K_Erase_Chip D fuel st
  | .Erase_Sec_Reg a, st => S25FL164K_Erase_Sec_Reg D fuel a st
  | .Write_Sec_Reg a b n, st => S25FL164K_Write_Sec_Reg D fuel a b n st
  | .Write_Data a b n, st => S25FL164K_Write_Data D fuel a b n st
  | .Modify_Sector_Data m a b n, st =>
    (S25FL164K_Modify_Sector_Data D fuel m a b n st).map fun r => r.2

/-- The sector image a patch asks for: byte `j` of the sector of `address`, taken
from the patch `buff[0 .. byte_count)` where the patch covers it and from the array
contents `m` elsewhere. -/
def patched_image (m : Nat → Nat) (address : Nat) (buff : Buf) (byte_count : Nat) (j : Nat) : Nat :=
  if address % SECTOR_SIZE ≤ j ∧ j < address % SECTOR_SIZE + byte_count then
    buff (j - address % SECTOR_SIZE)
  else m (address - address % SECTOR_SIZE + j) % 256

/-- Sample array contents: `0x11` at `0x2100`, erased (`0xFF`) everywhere else. -/
def sample_contents : Nat → Nat := fun a => if a = 0x2100 then 0x11 else 0xFF

/-! ## Frames and stores -/

section FrameVocabulary

variable {σ : Type}

/-- The transactions a list of `(byte, hold)` pairs turns into on a device that
starts in state `s`, each with the answer the device gives. -/
def emit_seg (D : Device σ) : List (Nat × Bool) → σ → List Xfer
  | [], _ => []
  | c :: rest, s =>
    ⟨c.1 % 256, c.2, (D s (c.1 % 256) c.2).1⟩ :: emit_seg D rest (D s (c.1 % 256) c.2).2

/-- Performing a list of stores `(index, value)` into a buffer, in order. -/
def stores (buff : Buf) (ws : List (Nat × Nat)) : Buf :=
  ws.foldl (fun m w => Function.update m w.1 w.2) buff

/-- The three address bytes on the wire, most significant first; `hold` is the
chip-select flag of the last one. -/
def wire_address (a : Nat) (hold : Bool) : List (Nat × Bool) :=
  [(a / 2 ^ 16 % 256, true), (a / 2 ^ 8 % 256, true), (a % 256, hold)]

/-- The wire image of `entry_cmds`: status poll, write enable, status poll. -/
def wire_entry : List (Nat × Bool) :=
  [(0x05, true), (0x01, false), (0x06, false), (0x05, true), (0x01, false)]

/-- The `n` data transactions of a command, carrying `data k`, only the last one
releasing chip-select. -/
def wire_data (data : Nat → Nat) (n : Nat) : List (Nat × Bool) :=
  (List.range n).map fun k => (data k % 256, decide (k + 1 < n))

/-- The arguments of the `n` data transactions of a command, carrying `data k`,
only the last one releasing chip-select. -/
def data_cmds (data : Nat → Nat) (n : Nat) : List (Nat × Bool) :=
  (List.range n).map fun k => (data k, decide (k + 1 < n))

/-- The arguments of the opcode and address transactions of a command. -/
def header_cmds (op a : Nat) : List (Nat × Bool) :=
  [(op, true), (a >>> 16, true), (a >>> 8, true), (a, true)]

/-- The wire image of `S25FL164K_Read_Data(a, ., n)` for `n >= 1`. -/
def wire_Read_Data (a n : Nat) : List (Nat × Bool) :=
  (0x03, true) :: wire_address a true ++ wire_data (fun _ => 0xFF) n

/-- The wire image of `S25FL164K_Erase_Sector(a)` on a device reporting not-busy. -/
def wire_Erase_Sector (a : Nat) : List (Nat × Bool) :=
  wire_entry ++ (0x20, true) :: wire_address (a &&& 0xFFF000) false

/-- The wire image of `S25FL164K_Page_Program(a, buff, n)` for `n >= 1` on a device
reporting not-busy. -/
def wire_Page_Program (a : Nat) (buff : Buf) (n : Nat) : List (Nat × Bool) :=
  wire_entry ++ (0x02, true) :: wire_address a true ++ wire_data buff n

/-- The statements every state-changing command begins with: the call
`S25FL164K_Write_Enable();` and the busy wait after it. -/
def enable_and_wait (D : Device σ) (fuel : Nat) (st : Bus σ) : Option (Bus σ) :=
  (S25FL164K_Write_Enable D fuel st).bind fun st => wait_while_busy D fuel st

/-- A device that answers `1` to everything: its busy bit never clears. -/
def stuck : Device Unit := fun _ _ _ => (1, ())

/-- A device that is busy for one status poll: it answers `1` up to and including
the first transaction that releases chip-select, and `0` from then on. -/
def busy_once : Device Bool := fun s _ cont => (if s then 0 else 1, s || !cont)

end FrameVocabulary

/-! ## Chip-select framing -/

/-- The entry points of the command layer, with their arguments. -/
inductive Command where
  | Write_Enable
  | Write_Disable
  | Read_BUSY_Bit
  | Page_Program (address : Nat) (buff : Buf) (byte_count : Nat)
  | Read_Data (address : Nat) (buff : Buf) (byte_count : Nat)
  | Erase_Sector (address : Nat)
  | Erase_Block (address : Nat)
  | Erase_Chip
  | Erase_Sec_Reg (address : Nat)
  | Write_Sec_Reg (address : Nat) (buff : Buf) (byte_count : Nat)
  | Read_Sec_Reg (address : Nat) (buff : Buf) (byte_count : Nat)
  | Software_Reset

/-- Running a command-layer entry point on the bus. -/
def Command.run {σ : Type} (D : Device σ) (fuel : Nat) : Command → Bus σ → Option (Bus σ)
  | .Write_Enable, st => S25FL164K_Write_Enable D fuel st
  | .Write_Disable, st => S25FL164K_Write_Disable D fuel st
  | .Read_BUSY_Bit, st => some (S25FL164K_Read_BUSY_Bit D st).2
  | .Page_Program a b n, st => S25FL164K_Page_Program D fuel a b n st
  | .Read_Data a b n, st => (S25FL164K_Read_Data D fuel a b n st).map fun r => r.2
  | .Erase_Sector a, st => S25FL164K_Erase_Sector D fuel a st
  | .Erase_Block a, st => S25FL164K_Erase_Block D fuel a st
  | .Erase_Chip, st => S25FL164K_Erase_Chip D fuel st
  | .Erase_Sec_Reg a, st => S25FL164K_Erase_Sec_Reg D fuel a st
  | .Write_Sec_Reg a b n, st => S25FL164K_Write_Sec_Reg D fuel a b n st
  | .Read_Sec_Reg a b n, st => (S25FL164K_Read_Sec_Reg D fuel a b n st).map fun r => r.2
  | .Software_Reset, st => some (S25FL164K_Software_Reset D st)

/-- The opcode a command-layer entry point sends for itself. -/
def Command.opcode : Command → Nat
  | .Write_Enable => WRITE_ENABLE
  | .Write_Disable => WRITE_DISABLE
  | .Read_BUSY_Bit => READ_STATUS_REGISTER_1
  | .Page_Program _ _ _ => PAGE_PROGRAM
  | .Read_Data _ _ _ => READ_DATA
  | .Erase_Sector _ => SECTOR_ERASE
  | .Erase_Block _ => BLOCK_ERASE
  | .Erase_Chip => CHIP_ERASE
  | .Erase_Sec_Reg _ => ERASE_SEC_REG
  | .Write_Sec_Reg _ _ _ => PROGRAM_SEC_REG
  | .Read_Sec_Reg _ _ _ => READ_SEC_REG
  | .Software_Reset => SOFTWARE_RESET_ENABLE

/-- The number of transactions of the command an entry point sends for itself:
opcode, address bytes, dummy byte and data transactions. The counts are the
parameters as the C types hold them. -/
def Command.frame_length : Command → Nat
  | .Write_Enable => 1
  | .Write_Disable => 1
  | .Read_BUSY_Bit => 2
  | .Page_Program _ _ n => 4 + max 1 (n % 65536)
  | .Read_Data _ _ n => 4 + max 1 (n % 2 ^ 32)
  | .Erase_Sector _ => 4
  | .Erase_Block _ => 4
  | .Erase_Chip => 1
  | .Erase_Sec_Reg _ => 4
  | .Write_Sec_Reg _ _ n => 4 + max 1 (n % 65536)
  | .Read_Sec_Reg _ _ n => 5 + max 1 (n % 65536)
  | .Software_Reset => 2

/-- Whether an entry point waits for the busy bit before its own command. -/
def Command.waits : Command → Bool
  | .Read_BUSY_Bit => false
  | .Read_Data _ _ _ => false
  | .Read_Sec_Reg _ _ _ => false
  | .Software_Reset => false
  | _ => true

/-- One command on the wire: `len` transactions, the first carrying `op`, every one
but the last holding chip-select and the last one releasing it. -/
def Framed (op len : Nat) (w : List (Nat × Bool)) : Prop :=
  w.length = len ∧ w.head?.map Prod.fst = some op ∧
    ∀ i c, w[i]? = some c → (c.2 = true ↔ i + 1 < len)

/-- A read-status command: opcode `0x05` held, one more byte released. -/
def IsPoll (f : List Xfer) : Prop := ∃ a r, f = [⟨0x05, true, a⟩, ⟨0x01, false, r⟩]

/-- A write-enable command: the single byte `0x06`, released. -/
def IsEnable (f : List Xfer) : Prop := ∃ r, f = [⟨0x06, false, r⟩]

/-- What precedes the command of an entry point that waits: a sequence of complete
read-status and write-enable commands. -/
def Preamble (pre : List Xfer) : Prop :=
  ∃ fs : List (List Xfer), pre = fs.flatten ∧ ∀ f ∈ fs, IsPoll f ∨ IsEnable f

/-! ## The scratch buffer -/

/-- The offset of `address` inside its sector, as `S25FL164K_Modify_Sector_Data`
computes it. -/
def sector_offset (address : Nat) : Nat := address - (address &&& SECTOR_START_ADDR_MASK)

/-- The stores the patch loop of `S25FL164K_Modify_Sector_Data` performs, in order:
`mod_data[off + i] = buff[i]` for `i = 0 .. byte_count - 1`. -/
def patch_stores (off : Nat) (buff : Buf) (byte_count : Nat) : List (Nat × Nat) :=
  (List.range byte_count).map fun i => (off + i, buff i)

/-- The arguments of the transactions of one `S25FL164K_Page_Program` call on a
device reporting not-busy: the entry transactions, opcode and address, the data. -/
def call_cmds (c : ProgramCall) : List (Nat × Bool) :=
  entry_cmds ++ header_cmds PAGE_PROGRAM c.address ++ data_cmds c.buff c.byte_count

/-! # Theorems -/

section BusLemmas

variable {σ : Type}

theorem emit_append (D : Device σ) (l1 l2 : List (Nat × Bool)) (st : Bus σ) :
    emit D (l1 ++ l2) st = emit D l2 (emit D l1 st) := by
  induction l1 generalizing st with
  | nil => rfl
  | cons c l ih => simp [emit, ih]

theorem emit_trace (D : Device σ) (l : List (Nat × Bool)) (st : Bus σ) :
    ∃ seg, (emit D l st).trace = st.trace ++ seg ∧
      seg.map Xfer.wire = l.map fun c => (c.1 % 256, c.2) := by
  induction l generalizing st with
  | nil => exact ⟨[], by simp [emit]⟩
  | cons c l ih =>
    obtain ⟨seg, h1, h2⟩ := ih (SPI_Master D c.1 c.2 st).2
    refine ⟨⟨c.1 % 256, c.2, (D st.dev (c.1 % 256) c.2).1⟩ :: seg, ?_, ?_⟩
    · rw [emit, h1]; simp [SPI_Master]
    · simp [h2, Xfer.wire]

theorem spi_master_mod (D : Device σ) (x : Nat) (c : Bool) (st : Bus σ) :
    SPI_Master D (x % 256) c st = SPI_Master D x c st := by
  simp [SPI_Master]

theorem last_release (D : Device σ) (b : Nat) (st : Bus σ) (hb : b % 2 ^ 32 < 2 ^ 31) :
    SPI_CMD_LAST_FLASH D b st = SPI_Master D b false st := by
  unfold SPI_CMD_LAST_FLASH
  rw [decide_eq_false (by omega)]

theorem last_hold (D : Device σ) (b : Nat) (st : Bus σ) (hb : 2 ^ 31 ≤ b % 2 ^ 32) :
    SPI_CMD_LAST_FLASH D b st = SPI_Master D b true st := by
  unfold SPI_CMD_LAST_FLASH
  rw [decide_eq_true hb]

theorem last_byte (D : Device σ) (x : Nat) (st : Bus σ) :
    SPI_CMD_LAST_FLASH D (x % 256) st = SPI_Master D x false st := by
  rw [last_release D (x % 256) st (by omega), spi_master_mod]

theorem sector_mask_small (a : Nat) : (a &&& SECTOR_START_ADDR_MASK) % 2 ^ 32 < 2 ^ 31 := by
  have h : a &&& SECTOR_START_ADDR_MASK ≤ SECTOR_START_ADDR_MASK := Nat.and_le_right
  have hm : SECTOR_START_ADDR_MASK = 0xFFF000 := rfl
  omega

theorem block_mask_small (a : Nat) : (a &&& BLOCK_START_ADDR_MASK) % 2 ^ 32 < 2 ^ 31 := by
  have h : a &&& BLOCK_START_ADDR_MASK ≤ BLOCK_START_ADDR_MASK := Nat.and_le_right
  have hm : BLOCK_START_ADDR_MASK = 0xFF0000 := rfl
  omega

theorem last_sector (D : Device σ) (a : Nat) (st : Bus σ) :
    SPI_CMD_LAST_FLASH D (a &&& SECTOR_START_ADDR_MASK) st =
      SPI_Master D (a &&& SECTOR_START_ADDR_MASK) false st :=
  last_release D _ st (sector_mask_small a)

theorem last_block (D : Device σ) (a : Nat) (st : Bus σ) :
    SPI_CMD_LAST_FLASH D (a &&& BLOCK_START_ADDR_MASK) st =
      SPI_Master D (a &&& BLOCK_START_ADDR_MASK) false st :=
  last_release D _ st (block_mask_small a)

theorem last_status (D : Device σ) (st : Bus σ) :
    SPI_CMD_LAST_FLASH D BUSY_BIT_MASK st = SPI_Master D BUSY_BIT_MASK false st :=
  last_release D _ st (by decide)

theorem last_enable (D : Device σ) (st : Bus σ) :
    SPI_CMD_LAST_FLASH D WRITE_ENABLE st = SPI_Master D WRITE_ENABLE false st :=
  last_release D _ st (by decide)

theorem last_disable (D : Device σ) (st : Bus σ) :
    SPI_CMD_LAST_FLASH D WRITE_DISABLE st = SPI_Master D WRITE_DISABLE false st :=
  last_release D _ st (by decide)

theorem last_chip (D : Device σ) (st : Bus σ) :
    SPI_CMD_LAST_FLASH D CHIP_ERASE st = SPI_Master D CHIP_ERASE false st :=
  last_release D _ st (by decide)

theorem last_dummy (D : Device σ) (st : Bus σ) :
    SPI_CMD_LAST_FLASH D SEND_FF st = SPI_Master D SEND_FF false st :=
  last_release D _ st (by decide)

theorem last_reset (D : Device σ) (st : Bus σ) :
    SPI_CMD_LAST_FLASH D SOFTWARE_RESET st = SPI_Master D SOFTWARE_RESET false st :=
  last_release D _ st (by decide)

theorem read_busy_eq (D : Device σ) (st : Bus σ) :
    S25FL164K_Read_BUSY_Bit D st =
      (busy_at D st.dev, emit D [(READ_STATUS_REGISTER_1, true), (BUSY_BIT_MASK, false)] st) := by
  simp [S25FL164K_Read_BUSY_Bit, busy_at, emit, SPI_CMD_FLASH, last_status, SPI_Master]

theorem wait_idle (D : Device σ) (fuel : Nat) (st : Bus σ) (h : busy_at D st.dev = 0) :
    wait_while_busy D (fuel + 1) st =
      some (emit D [(READ_STATUS_REGISTER_1, true), (BUSY_BIT_MASK, false)] st) := by
  simp [wait_while_busy, read_busy_eq, h]

theorem emit_last_dev (D : Device σ) (l : List (Nat × Bool)) (b : Nat) (st : Bus σ) :
    ∃ s, (emit D (l ++ [(b, false)]) st).dev = (D s (b % 256) false).2 := by
  rw [emit_append]
  exact ⟨(emit D l st).dev, by simp [emit, SPI_Master]⟩

end BusLemmas

section CommandLemmas

variable {σ : Type}

theorem write_enable_idle (D : Device σ) (fuel : Nat) (st : Bus σ) (h : busy_at D st.dev = 0) :
    S25FL164K_Write_Enable D (fuel + 1) st =
      some (emit D [(READ_STATUS_REGISTER_1, true), (BUSY_BIT_MASK, false), (WRITE_ENABLE, false)] st) := by
  simp [S25FL164K_Write_Enable, wait_idle D fuel st h, emit, last_enable]

theorem enable_then_wait (D : Device σ) (fuel : Nat) (st : Bus σ) (h : NeverBusy D st.dev) :
    (S25FL164K_Write_Enable D (fuel + 1) st).bind (fun st => wait_while_busy D (fuel + 1) st) =
      some (emit D entry_cmds st) := by
  rw [write_enable_idle D fuel st h.1, Option.some_bind, wait_idle]
  · rw [← emit_append]; rfl
  · obtain ⟨s, hs⟩ := emit_last_dev D [(READ_STATUS_REGISTER_1, true), (BUSY_BIT_MASK, false)]
      WRITE_ENABLE st
    have := h.2 s (WRITE_ENABLE % 256)
    rw [← hs] at this
    exact this

theorem send_loop_eq (D : Device σ) (buff : Buf) (n : Nat) (hn : n < 65536) :
    ∀ (fuel i p : Nat) (st : Bus σ), i ≤ n → n - i < fuel →
      send_loop D fuel i n buff p st =
        some (p + (n - i), emit D ((List.range (n - i)).map fun k => (buff (p + k), true)) st) := by
  intro fuel
  induction fuel with
  | zero => intro i p st _ h; omega
  | succ fuel ih =>
    intro i p st hi hf
    rw [send_loop]
    by_cases hlt : i < n
    · rw [if_pos hlt, Nat.mod_eq_of_lt (by omega), ih (i + 1) (p + 1) _ (by omega) (by omega)]
      have e : n - i = (n - (i + 1)) + 1 := by omega
      rw [e, List.range_succ_eq_map]
      simp [emit, SPI_CMD_FLASH, Nat.add_assoc, Nat.add_comm 1, Function.comp_def]
    · rw [if_neg hlt]
      have e : n - i = 0 := by omega
      simp [e, emit]

theorem range_map_last (f : Nat → Nat) (n : Nat) (hn : 1 ≤ n) :
    (List.range n).map (fun k => (f k, decide (k + 1 < n))) =
      (List.range (n - 1)).map (fun k => (f k, true)) ++ [(f (n - 1), false)] := by
  obtain ⟨m, rfl⟩ : ∃ m, n = m + 1 := ⟨n - 1, by omega⟩
  rw [List.range_succ, List.map_append]
  simp only [Nat.add_sub_cancel, List.map_cons, List.map_nil, Nat.lt_irrefl, decide_False]
  congr 1
  apply List.map_congr_left
  intro k hk
  simp [List.mem_range] at hk
  simp [hk]

theorem page_program_idle (D : Device σ) (fuel address : Nat) (buff : Buf) (byte_count : Nat)
    (st : Bus σ) (h1 : 1 ≤ byte_count) (h2 : byte_count < 65536) (hf : byte_count ≤ fuel)
    (h : NeverBusy D st.dev) :
    S25FL164K_Page_Program D fuel address buff byte_count st =
      some (emit D (entry_cmds ++ [(PAGE_PROGRAM, true), (address >>> 16, true),
        (address >>> 8, true), (address, true)] ++
        (List.range byte_count).map fun k => (buff k, decide (k + 1 < byte_count))) st) := by
  obtain ⟨f, rfl⟩ : ∃ f, fuel = f + 1 := ⟨fuel - 1, by omega⟩
  unfold S25FL164K_Page_Program
  simp only []
  rw [← Option.bind_assoc, enable_then_wait D f st h, Option.some_bind, Nat.mod_eq_of_lt h2,
    send_loop_eq D buff byte_count h2 _ 1 0 _ h1 (by omega), Option.some_bind,
    range_map_last buff byte_count h1]
  simp [emit_append, emit, SPI_CMD_FLASH, last_byte]

end CommandLemmas

section CommandTheorems

variable {σ : Type}

theorem erase_sector_idle (D : Device σ) (fuel address : Nat) (st : Bus σ) (hf : 0 < fuel)
    (h : NeverBusy D st.dev) :
    S25FL164K_Erase_Sector D fuel address st =
      some (emit D (entry_cmds ++ [(SECTOR_ERASE, true),
        ((address &&& SECTOR_START_ADDR_MASK) >>> 16, true),
        ((address &&& SECTOR_START_ADDR_MASK) >>> 8, true),
        (address &&& SECTOR_START_ADDR_MASK, false)]) st) := by
  obtain ⟨f, rfl⟩ : ∃ f, fuel = f + 1 := ⟨fuel - 1, by omega⟩
  unfold S25FL164K_Erase_Sector
  rw [← Option.bind_assoc, enable_then_wait D f st h, Option.some_bind]
  simp [emit_append, emit, SPI_CMD_FLASH, last_sector]

theorem erase_block_idle (D : Device σ) (fuel address : Nat) (st : Bus σ) (hf : 0 < fuel)
    (h : NeverBusy D st.dev) :
    S25FL164K_Erase_Block D fuel address st =
      some (emit D (entry_cmds ++ [(BLOCK_ERASE, true),
        ((address &&& BLOCK_START_ADDR_MASK) >>> 16, true),
        ((address &&& BLOCK_START_ADDR_MASK) >>> 8, true),
        (address &&& BLOCK_START_ADDR_MASK, false)]) st) := by
  obtain ⟨f, rfl⟩ : ∃ f, fuel = f + 1 := ⟨fuel - 1, by omega⟩
  unfold S25FL164K_Erase_Block
  rw [← Option.bind_assoc, enable_then_wait D f st h, Option.some_bind]
  simp [emit_append, emit, SPI_CMD_FLASH, last_block]

theorem erase_chip_idle (D : Device σ) (fuel : Nat) (st : Bus σ) (hf : 0 < fuel)
    (h : NeverBusy D st.dev) :
    S25FL164K_Erase_Chip D fuel st = some (emit D (entry_cmds ++ [(CHIP_ERASE, false)]) st) := by
  obtain ⟨f, rfl⟩ : ∃ f, fuel = f + 1 := ⟨fuel - 1, by omega⟩
  unfold S25FL164K_Erase_Chip
  rw [← Option.bind_assoc, enable_then_wait D f st h, Option.some_bind]
  simp [emit_append, emit, last_chip]

theorem quiet_never_busy : NeverBusy quiet () := by
  constructor
  · decide
  · intro s b
    simp [busy_at, S25FL164K_Read_BUSY_Bit, SPI_CMD_FLASH, last_status, SPI_Master, quiet]

/-- C8. On a device reporting not-busy, `S25FL164K_Page_Program(address, buff, byte_count)`
with `1 <= byte_count <= PAGE_SIZE` returns, and the transactions it adds to the bus are:
status poll, write enable, status poll, then opcode `0x02`, the address bytes
bits 23..16, 15..8, 7..0 in that order, then the `byte_count` bytes
`buff[0 .. byte_count)` in order; chip-select is held on every byte of the command
except the last data byte. -/
theorem page_program_frame (D : Device σ) (fuel address : Nat) (buff : Buf) (byte_count : Nat)
    (st : Bus σ) (h1 : 1 ≤ byte_count) (h2 : byte_count ≤ PAGE_SIZE) (hf : byte_count ≤ fuel)
    (h : NeverBusy D st.dev) :
    ∃ st' seg, S25FL164K_Page_Program D fuel address buff byte_count st = some st' ∧
      st'.trace = st.trace ++ seg ∧
      seg.map Xfer.wire =
        [(0x05, true), (0x01, false), (0x06, false), (0x05, true), (0x01, false),
         (0x02, true), (address / 2 ^ 16 % 256, true), (address / 2 ^ 8 % 256, true),
         (address % 256, true)] ++
        (List.range byte_count).map fun k => (buff k % 256, decide (k + 1 < byte_count)) := by
  have hlt : byte_count < 65536 := by
    have : PAGE_SIZE = 256 := rfl
    omega
  obtain ⟨seg, hs1, hs2⟩ := emit_trace D (entry_cmds ++ [(PAGE_PROGRAM, true), (address >>> 16, true),
        (address >>> 8, true), (address, true)] ++
        (List.range byte_count).map fun k => (buff k, decide (k + 1 < byte_count))) st
  refine ⟨_, seg, page_program_idle D fuel address buff byte_count st h1 hlt hf h, hs1, ?_⟩
  rw [hs2]
  simp [entry_cmds, Nat.shiftRight_eq_div_pow, Function.comp_def, READ_STATUS_REGISTER_1,
    WRITE_ENABLE, PAGE_PROGRAM, BUSY_BIT_MASK]

theorem page_program_frame_witness :
    ∃ st' seg, S25FL164K_Page_Program quiet 2 0x123456 (bufOf [0xAA, 0xBB]) 2 ⟨(), []⟩ = some st' ∧
      st'.trace = [] ++ seg ∧
      seg.map Xfer.wire =
        [(0x05, true), (0x01, false), (0x06, false), (0x05, true), (0x01, false),
         (0x02, true), (0x123456 / 2 ^ 16 % 256, true), (0x123456 / 2 ^ 8 % 256, true),
         (0x123456 % 256, true)] ++
        (List.range 2).map fun k => (bufOf [0xAA, 0xBB] k % 256, decide (k + 1 < 2)) :=
  page_program_frame quiet 2 0x123456 (bufOf [0xAA, 0xBB]) 2 ⟨(), []⟩ (by decide) (by decide)
    (by decide) quiet_never_busy

/-- C10. On a device reporting not-busy and for an address below `2^24`, the erase
commands return and add exactly these transactions to the bus: status poll, `0x06`
released, status poll, and then for `S25FL164K_Erase_Sector` the opcode `0x20` and
the three bytes of `address & 0xFFF000`, most significant first, only the last one
releasing chip-select; for `S25FL164K_Erase_Block` the same with `0xD8` and
`address & 0xFF0000`; for `S25FL164K_Erase_Chip` the single released byte `0xC7`. -/
theorem erase_frames (D : Device σ) (fuel address : Nat) (st : Bus σ) (hf : 0 < fuel)
    (h : NeverBusy D st.dev) :
    (∃ st' seg, S25FL164K_Erase_Sector D fuel address st = some st' ∧
      st'.trace = st.trace ++ seg ∧
      seg.map Xfer.wire =
        [(0x05, true), (0x01, false), (0x06, false), (0x05, true), (0x01, false),
         (0x20, true), ((address &&& 0xFFF000) / 2 ^ 16 % 256, true),
         ((address &&& 0xFFF000) / 2 ^ 8 % 256, true), ((address &&& 0xFFF000) % 256, false)]) ∧
    (∃ st' seg, S25FL164K_Erase_Block D fuel address st = some st' ∧
      st'.trace = st.trace ++ seg ∧
      seg.map Xfer.wire =
        [(0x05, true), (0x01, false), (0x06, false), (0x05, true), (0x01, false),
         (0xD8, true), ((address &&& 0xFF0000) / 2 ^ 16 % 256, true),
         ((address &&& 0xFF0000) / 2 ^ 8 % 256, true), ((address &&& 0xFF0000) % 256, false)]) ∧
    (∃ st' seg, S25FL164K_Erase_Chip D fuel st = some st' ∧
      st'.trace = st.trace ++ seg ∧
      seg.map Xfer.wire =
        [(0x05, true), (0x01, false), (0x06, false), (0x05, true), (0x01, false),
         (0xC7, false)]) := by
  refine ⟨?_, ?_, ?_⟩
  · obtain ⟨seg, hs1, hs2⟩ := emit_trace D (entry_cmds ++ [(SECTOR_ERASE, true),
        ((address &&& SECTOR_START_ADDR_MASK) >>> 16, true),
        ((address &&& SECTOR_START_ADDR_MASK) >>> 8, true),
        (address &&& SECTOR_START_ADDR_MASK, false)]) st
    refine ⟨_, seg, erase_sector_idle D fuel address st hf h, hs1, ?_⟩
    rw [hs2]
    simp [entry_cmds, Nat.shiftRight_eq_div_pow, READ_STATUS_REGISTER_1, WRITE_ENABLE,
      SECTOR_ERASE, BLOCK_ERASE, BUSY_BIT_MASK, SECTOR_START_ADDR_MASK, BLOCK_START_ADDR_MASK]
  · obtain ⟨seg, hs1, hs2⟩ := emit_trace D (entry_cmds ++ [(BLOCK_ERASE, true),
        ((address &&& BLOCK_START_ADDR_MASK) >>> 16, true),
        ((address &&& BLOCK_START_ADDR_MASK) >>> 8, true),
        (address &&& BLOCK_START_ADDR_MASK, false)]) st
    refine ⟨_, seg, erase_block_idle D fuel address st hf h, hs1, ?_⟩
    rw [hs2]
    simp [entry_cmds, Nat.shiftRight_eq_div_pow, READ_STATUS_REGISTER_1, WRITE_ENABLE,
      SECTOR_ERASE, BLOCK_ERASE, BUSY_BIT_MASK, SECTOR_START_ADDR_MASK, BLOCK_START_ADDR_MASK]
  · obtain ⟨seg, hs1, hs2⟩ := emit_trace D (entry_cmds ++ [(CHIP_ERASE, false)]) st
    refine ⟨_, seg, erase_chip_idle D fuel st hf h, hs1, ?_⟩
    rw [hs2]
    simp [entry_cmds, READ_STATUS_REGISTER_1, WRITE_ENABLE, CHIP_ERASE, BUSY_BIT_MASK]

theorem erase_frames_witness :
    (∃ st' seg, S25FL164K_Erase_Sector quiet 1 0x123456 ⟨(), []⟩ = some st' ∧
      st'.trace = [] ++ seg ∧
      seg.map Xfer.wire =
        [(0x05, true), (0x01, false), (0x06, false), (0x05, true), (0x01, false),
         (0x20, true), ((0x123456 &&& 0xFFF000) / 2 ^ 16 % 256, true),
         ((0x123456 &&& 0xFFF000) / 2 ^ 8 % 256, true), ((0x123456 &&& 0xFFF000) % 256, false)]) ∧
    (∃ st' seg, S25FL164K_Erase_Block quiet 1 0x123456 ⟨(), []⟩ = some st' ∧
      st'.trace = [] ++ seg ∧
      seg.map Xfer.wire =
        [(0x05, true), (0x01, false), (0x06, false), (0x05, true), (0x01, false),
         (0xD8, true), ((0x123456 &&& 0xFF0000) / 2 ^ 16 % 256, true),
         ((0x123456 &&& 0xFF0000) / 2 ^ 8 % 256, true), ((0x123456 &&& 0xFF0000) % 256, false)]) ∧
    (∃ st' seg, S25FL164K_Erase_Chip quiet 1 ⟨(), []⟩ = some st' ∧
      st'.trace = [] ++ seg ∧
      seg.map Xfer.wire =
        [(0x05, true), (0x01, false), (0x06, false), (0x05, true), (0x01, false),
         (0xC7, false)]) :=
  erase_frames quiet 1 0x123456 ⟨(), []⟩ (by decide) quiet_never_busy

end CommandTheorems

section WriteDataCalls

theorem partial_page_size_eq (a : Nat) :
    (PAGE_SIZE - (a &&& (PAGE_SIZE - 1))) % 65536 = 256 - a % 256 := by
  have h : a &&& (PAGE_SIZE - 1) = a % 256 := Nat.and_pow_two_sub_one_eq_mod a 8
  rw [h]
  have : PAGE_SIZE = 256 := rfl
  omega

theorem tr_size_eq (count : Int) (r : Nat) (hc : 0 < count) (hr : r ≤ 256) :
    ((if count > (r : Int) then (r : Int) else count) % 65536).toNat = min count.toNat r := by
  split <;> omega

theorem toInt32_of_lt (n : Nat) (h : n < 2 ^ 31) : toInt32 n = (n : Int) := by
  unfold toInt32
  have : n % 2 ^ 32 = n := Nat.mod_eq_of_lt (by omega)
  rw [this, if_pos h]

theorem loop_record_log (fuel a : Nat) (b : Buf) (c : Int) (log : List ProgramCall) :
    Write_Data_loop record_call fuel a b c log =
      (Write_Data_loop record_call fuel a b c []).map (log ++ ·) := by
  induction fuel generalizing a c log with
  | zero => simp [Write_Data_loop]
  | succ fuel ih =>
    rw [Write_Data_loop, Write_Data_loop]
    by_cases hc : c > 0
    · simp only [hc, if_true, record_call, Option.some_bind, List.nil_append]
      rw [ih _ _ (log ++ _), ih _ _ [_], Option.map_map]
      congr 1
      funext l
      simp
    · simp [hc]

theorem loop_record_succ (fuel a : Nat) (b : Buf) (c : Int) :
    Write_Data_loop record_call (fuel + 1) a b c [] =
      if 0 < c then
        (Write_Data_loop record_call fuel ((a + (256 - a % 256)) % 2 ^ 32) b
          (c - ((256 - a % 256 : Nat) : Int)) []).map
          (⟨a, b, min c.toNat (256 - a % 256)⟩ :: ·)
      else some [] := by
  rw [Write_Data_loop]
  by_cases hc : 0 < c
  · have hc' : c > 0 := hc
    simp only [hc', hc, if_true, record_call, Option.some_bind, List.nil_append, partial_page_size_eq]
    rw [tr_size_eq c _ hc (by omega), loop_record_log]
    rfl
  · have hc' : ¬ c > 0 := hc
    simp [hc, hc']

theorem loop_record_total (b : Buf) :
    ∀ (fuel a : Nat) (c : Int), c.toNat < fuel →
      (Write_Data_loop record_call fuel a b c []).isSome := by
  intro fuel
  induction fuel with
  | zero => intro a c h; omega
  | succ fuel ih =>
    intro a c h
    rw [loop_record_succ]
    split
    · rw [Option.isSome_map']
      apply ih
      omega
    · rfl

theorem loop_record_within_page (b : Buf) :
    ∀ (fuel a : Nat) (c : Int) (calls : List ProgramCall),
      Write_Data_loop record_call fuel a b c [] = some calls →
      ∀ x ∈ calls, 1 ≤ x.byte_count ∧ x.byte_count ≤ PAGE_SIZE ∧
        x.address % PAGE_SIZE + x.byte_count ≤ PAGE_SIZE ∧ x.buff = b := by
  intro fuel
  induction fuel with
  | zero => intro a c calls h; simp [Write_Data_loop] at h
  | succ fuel ih =>
    intro a c calls h x hx
    rw [loop_record_succ] at h
    split at h
    · rename_i hc
      rw [Option.map_eq_some'] at h
      obtain ⟨rest, hrest, rfl⟩ := h
      rcases List.mem_cons.mp hx with rfl | hx
      · have : PAGE_SIZE = 256 := rfl
        refine ⟨?_, ?_, ?_, rfl⟩ <;> simp only [this] <;> omega
      · exact ih _ _ _ hrest x hx
    · cases h
      simp at hx

end WriteDataCalls

section WriteDataTheorems

theorem loop_record_partition (b : Buf) :
    ∀ (fuel a n : Nat), 0 < n → a + n ≤ 2 ^ 32 → n < fuel →
      ∃ calls, Write_Data_loop record_call fuel a b (n : Int) [] = some calls ∧
        calls.head?.map (·.address) = some a ∧
        List.Chain' (fun c d : ProgramCall =>
          d.address = c.address + c.byte_count ∧ d.address % PAGE_SIZE = 0) calls ∧
        (calls.map (·.byte_count)).sum = n := by
  intro fuel
  induction fuel with
  | zero => intro a n _ _ h; omega
  | succ fuel ih =>
    intro a n hn ha hf
    rw [loop_record_succ, if_pos (by omega)]
    by_cases hle : n ≤ 256 - a % 256
    · obtain ⟨f, rfl⟩ : ∃ f, fuel = f + 1 := ⟨fuel - 1, by omega⟩
      rw [loop_record_succ, if_neg (by omega)]
      refine ⟨_, rfl, rfl, ?_, ?_⟩
      · simp
      · simp
        omega
    · have hmod : (a + (256 - a % 256)) % 2 ^ 32 = a + (256 - a % 256) :=
        Nat.mod_eq_of_lt (by omega)
      have hcast : ((n : Int) - ((256 - a % 256 : Nat) : Int)) = ((n - (256 - a % 256) : Nat) : Int) := by
        omega
      rw [hmod, hcast]
      obtain ⟨rest, h1, h2, h3, h4⟩ := ih (a + (256 - a % 256)) (n - (256 - a % 256))
        (by omega) (by omega) (by omega)
      rw [h1]
      refine ⟨_, rfl, rfl, ?_, ?_⟩
      · rw [List.chain'_cons']
        refine ⟨?_, h3⟩
        intro y hy
        have hy' : y.address = a + (256 - a % 256) := by
          cases rest with
          | nil => simp at hy
          | cons z zs =>
            simp at hy h2
            rw [← hy, h2]
        have : PAGE_SIZE = 256 := rfl
        simp only [hy', this]
        constructor <;> omega
      · simp [h4]
        omega

/-- C1 (as the code behaves). `S25FL164K_Write_Data(0x0FFE, [0xAA,0xBB,0xCC,0xDD], 4)`
issues `Page_Program(0x0FFE, ., 2)` and `Page_Program(0x1000, ., 2)`, and both calls
are handed the bytes `[0xAA, 0xBB]`: the second call gets the start of the caller's
buffer again, not `[0xCC, 0xDD]`. -/
theorem write_data_0FFE_calls :
    (Write_Data_calls 3 0x0FFE (bufOf [0xAA, 0xBB, 0xCC, 0xDD]) 4).map
      (fun calls => calls.map fun c => (c.address, c.bytes, c.byte_count)) =
    some [(0x0FFE, [0xAA, 0xBB], 2), (0x1000, [0xAA, 0xBB], 2)] := by
  decide

/-- Every `Page_Program` call of a write is handed the pointer `buff` the caller
passed, whatever the chip address of the call. -/
theorem write_data_calls_same_buff (fuel address byte_count : Nat) (buff : Buf)
    (calls : List ProgramCall)
    (h : Write_Data_calls fuel address buff byte_count = some calls) :
    ∀ c ∈ calls, c.buff = buff := fun c hc =>
  (loop_record_within_page buff fuel address _ calls h c hc).2.2.2

/-- C4. Whatever the address and the byte count, `S25FL164K_Write_Data` gets through
its loop (within `count` rounds) and every `Page_Program` call it issues has a
length `n` with `1 <= n <= PAGE_SIZE` and `(a mod PAGE_SIZE) + n <= PAGE_SIZE` for its
address `a`: no call crosses a page boundary. -/
theorem write_data_calls_within_page (fuel address byte_count : Nat) (buff : Buf)
    (hf : (toInt32 byte_count).toNat < fuel) :
    ∃ calls, Write_Data_calls fuel address buff byte_count = some calls ∧
      ∀ c ∈ calls, 1 ≤ c.byte_count ∧ c.byte_count ≤ PAGE_SIZE ∧
        c.address % PAGE_SIZE + c.byte_count ≤ PAGE_SIZE := by
  obtain ⟨calls, hc⟩ := Option.isSome_iff_exists.mp (loop_record_total buff fuel address _ hf)
  refine ⟨calls, hc, fun c hcm => ?_⟩
  obtain ⟨h1, h2, h3, _⟩ := loop_record_within_page buff fuel address _ calls hc c hcm
  exact ⟨h1, h2, h3⟩

theorem write_data_calls_within_page_witness :
    ∃ calls, Write_Data_calls 5 0x0FFE (bufOf [0xAA, 0xBB, 0xCC, 0xDD]) 4 = some calls ∧
      ∀ c ∈ calls, 1 ≤ c.byte_count ∧ c.byte_count ≤ PAGE_SIZE ∧
        c.address % PAGE_SIZE + c.byte_count ≤ PAGE_SIZE :=
  write_data_calls_within_page 5 0x0FFE 4 (bufOf [0xAA, 0xBB, 0xCC, 0xDD]) (by decide)

/-- C5. For `0 < byte_count < 2^31` and `address + byte_count <= 2^32` the
`Page_Program` calls of `S25FL164K_Write_Data` are, in issue order: the first at
`address`; each next one where the previous one ended, which is a page boundary;
lengths summing to `byte_count`; every call at least one byte and inside one page. -/
theorem write_data_calls_partition (fuel address byte_count : Nat) (buff : Buf)
    (h0 : 0 < byte_count) (h1 : byte_count < 2 ^ 31) (h2 : address + byte_count ≤ 2 ^ 32)
    (hf : byte_count < fuel) :
    ∃ calls, Write_Data_calls fuel address buff byte_count = some calls ∧
      calls.head?.map (·.address) = some address ∧
      List.Chain' (fun c d : ProgramCall =>
        d.address = c.address + c.byte_count ∧ d.address % PAGE_SIZE = 0) calls ∧
      (calls.map (·.byte_count)).sum = byte_count ∧
      ∀ c ∈ calls, 1 ≤ c.byte_count ∧ c.address % PAGE_SIZE + c.byte_count ≤ PAGE_SIZE := by
  obtain ⟨calls, hc, hh, hch, hs⟩ := loop_record_partition buff fuel address byte_count h0 h2 hf
  have hw : Write_Data_calls fuel address buff byte_count = some calls := by
    unfold Write_Data_calls S25FL164K_Write_Data_with
    rw [toInt32_of_lt byte_count h1]
    exact hc
  refine ⟨calls, hw, hh, hch, hs, fun c hcm => ?_⟩
  obtain ⟨q1, _, q3, _⟩ := loop_record_within_page buff fuel address _ calls hw c hcm
  exact ⟨q1, q3⟩

theorem write_data_calls_partition_witness :
    ∃ calls, Write_Data_calls 5 0x0FFE (bufOf [0xAA, 0xBB, 0xCC, 0xDD]) 4 = some calls ∧
      calls.head?.map (·.address) = some 0x0FFE ∧
      List.Chain' (fun c d : ProgramCall =>
        d.address = c.address + c.byte_count ∧ d.address % PAGE_SIZE = 0) calls ∧
      (calls.map (·.byte_count)).sum = 4 ∧
      ∀ c ∈ calls, 1 ≤ c.byte_count ∧ c.address % PAGE_SIZE + c.byte_count ≤ PAGE_SIZE :=
  write_data_calls_partition 5 0x0FFE 4 (bufOf [0xAA, 0xBB, 0xCC, 0xDD]) (by decide) (by decide)
    (by decide) (by decide)

/-- C6. A write of exactly `PAGE_SIZE` bytes at an address that is not page-aligned
issues exactly two `Page_Program` calls: the first at `address` with
`PAGE_SIZE - (address mod PAGE_SIZE)` bytes, up to the next page boundary, the second
at that boundary (a `uint32_t`, hence modulo `2^32`) with `address mod PAGE_SIZE` bytes. -/
theorem write_data_page_size_unaligned (fuel address : Nat) (buff : Buf)
    (ha : address % PAGE_SIZE ≠ 0) (hf : 3 ≤ fuel) :
    Write_Data_calls fuel address buff PAGE_SIZE =
      some [⟨address, buff, PAGE_SIZE - address % PAGE_SIZE⟩,
            ⟨(address + (PAGE_SIZE - address % PAGE_SIZE)) % 2 ^ 32, buff, address % PAGE_SIZE⟩] := by
  obtain ⟨f, rfl⟩ : ∃ f, fuel = f + 3 := ⟨fuel - 3, by omega⟩
  have hp : PAGE_SIZE = 256 := rfl
  rw [hp] at ha ⊢
  unfold Write_Data_calls S25FL164K_Write_Data_with
  rw [toInt32_of_lt 256 (by norm_num)]
  rw [loop_record_succ, if_pos (by norm_num), loop_record_succ, if_pos (by omega),
    loop_record_succ, if_neg (by omega)]
  simp only [Option.map_some']
  have e1 : min ((256 : Nat) : Int).toNat (256 - address % 256) = 256 - address % 256 := by
    omega
  have e2 : ((address + (256 - address % 256)) % 2 ^ 32) % 256 = 0 := by omega
  have e3 : min (((256 : Nat) : Int) - ((256 - address % 256 : Nat) : Int)).toNat
      (256 - (address + (256 - address % 256)) % 2 ^ 32 % 256) = address % 256 := by
    rw [e2]; omega
  rw [e1, e3]

theorem write_data_page_size_unaligned_witness :
    Write_Data_calls 3 0x0FFE (bufOf []) PAGE_SIZE =
      some [⟨0x0FFE, bufOf [], PAGE_SIZE - 0x0FFE % PAGE_SIZE⟩,
            ⟨(0x0FFE + (PAGE_SIZE - 0x0FFE % PAGE_SIZE)) % 2 ^ 32, bufOf [], 0x0FFE % PAGE_SIZE⟩] :=
  write_data_page_size_unaligned 3 0x0FFE (bufOf []) (by decide) (by decide)

end WriteDataTheorems

section GateSound

theorem opcode_at_append (t : List Xfer) (x : Xfer) (i : Nat) (hi : i ≤ t.length) :
    opcode_at (t ++ [x]) i ↔ opcode_at t i := by
  unfold opcode_at
  rcases Nat.eq_zero_or_pos i with h0 | h0
  · simp [h0]
  · rw [List.getElem?_append_left (by omega)]

theorem gate_run_snoc (g : Gate) (t : List Xfer) (x : Xfer) :
    g.run (t ++ [x]) = (g.run t).step x := by
  simp [Gate.run]

theorem gate_run_append (g : Gate) (t u : List Xfer) :
    g.run (t ++ u) = (g.run t).run u := by
  simp [Gate.run]

theorem gate_step_broken (g : Gate) (x : Xfer) (h : g.step x ≠ .broken) : g ≠ .broken := by
  intro hg
  subst hg
  exact h rfl

theorem gate_step_free (g : Gate) (x : Xfer) (h : g.step x ≠ .broken) :
    (g.step x).free ↔ x.cont = false := by
  have h5 : ¬ mutating READ_STATUS_REGISTER_1 := by decide
  by_cases hb : x.byte = READ_STATUS_REGISTER_1
  · by_cases hc : x.cont = true <;> by_cases hr : x.resp % 2 = 0 <;>
      cases g <;> simp [Gate.step, Gate.free, hc, hr, hb, h5] at h ⊢
  · by_cases hc : x.cont = true <;> by_cases hm : mutating x.byte <;>
      by_cases hr : x.resp % 2 = 0 <;>
      cases g <;> simp [Gate.step, Gate.free, hc, hm, hr, hb] at h ⊢

theorem gate_step_ready (g : Gate) (x : Xfer) (h : g.step x = .ready) :
    g = .polling ∧ x.cont = false ∧ x.resp % 2 = 0 := by
  have h5 : ¬ mutating READ_STATUS_REGISTER_1 := by decide
  by_cases hb : x.byte = READ_STATUS_REGISTER_1
  · by_cases hc : x.cont = true <;> by_cases hr : x.resp % 2 = 0 <;>
      cases g <;> simp [Gate.step, Gate.free, hc, hr, hb, h5] at h ⊢
  · by_cases hc : x.cont = true <;> by_cases hm : mutating x.byte <;>
      by_cases hr : x.resp % 2 = 0 <;>
      cases g <;> simp [Gate.step, Gate.free, hc, hm, hr, hb] at h ⊢

theorem gate_step_polling (g : Gate) (x : Xfer) (h : g.step x = .polling) :
    g.free ∧ x.cont = true ∧ x.byte = READ_STATUS_REGISTER_1 := by
  have h5 : ¬ mutating READ_STATUS_REGISTER_1 := by decide
  by_cases hb : x.byte = READ_STATUS_REGISTER_1
  · by_cases hc : x.cont = true <;> by_cases hr : x.resp % 2 = 0 <;>
      cases g <;> simp [Gate.step, Gate.free, hc, hr, hb, h5] at h ⊢
  · by_cases hc : x.cont = true <;> by_cases hm : mutating x.byte <;>
      by_cases hr : x.resp % 2 = 0 <;>
      cases g <;> simp [Gate.step, Gate.free, hc, hm, hr, hb] at h ⊢

theorem gate_step_idle_mutating (x : Xfer) (hm : mutating x.byte) :
    Gate.step .idle x = .broken := by
  simp [Gate.step, hm]

/-- What the monitor state says about the trace read so far. -/
theorem gate_sound (t : List Xfer) (h : Gate.run .idle t ≠ .broken) :
    BusyGated t ∧
    ((Gate.run .idle t).free ↔ opcode_at t t.length) ∧
    (Gate.run .idle t = .ready → 2 ≤ t.length ∧ opcode_at t (t.length - 2) ∧
      ∃ p q, t[t.length - 2]? = some p ∧ t[t.length - 1]? = some q ∧
        p.byte = READ_STATUS_REGISTER_1 ∧ p.cont = true ∧ q.cont = false ∧ q.resp % 2 = 0) ∧
    (Gate.run .idle t = .polling → 1 ≤ t.length ∧ opcode_at t (t.length - 1) ∧
      ∃ p, t[t.length - 1]? = some p ∧ p.byte = READ_STATUS_REGISTER_1 ∧ p.cont = true) := by
  induction t using List.reverseRecOn with
  | nil =>
    refine ⟨?_, ?_, ?_, ?_⟩
    · intro i x hx; simp at hx
    · simp [Gate.run, Gate.free, opcode_at]
    · simp [Gate.run]
    · simp [Gate.run]
  | append_singleton t x ih =>
    rw [gate_run_snoc] at h ⊢
    obtain ⟨ihg, ihf, ihr, ihp⟩ := ih (gate_step_broken _ _ h)
    have hlen : (t ++ [x]).length = t.length + 1 := by simp
    have hlast : (t ++ [x])[t.length]? = some x := List.getElem?_concat_length t x
    -- the new transaction as an opcode position
    have hop : opcode_at (t ++ [x]) (t.length + 1) ↔ x.cont = false := by
      unfold opcode_at
      simp [hlast]
    refine ⟨?_, ?_, ?_, ?_⟩
    · intro i y hy hopc hmut
      rcases Nat.lt_or_ge i t.length with hi | hi
      · rw [List.getElem?_append_left hi] at hy
        rw [opcode_at_append t x i (by omega)] at hopc
        obtain ⟨h2, ho, p, q, hp, hq, hrest⟩ := ihg i y hy hopc hmut
        refine ⟨h2, (opcode_at_append t x _ (by omega)).mpr ho, p, q, ?_, ?_, hrest⟩
        · rw [List.getElem?_append_left (by omega)]; exact hp
        · rw [List.getElem?_append_left (by omega)]; exact hq
      · have hi' : i = t.length := by
          have := (List.getElem?_eq_some_iff.mp hy).1
          omega
        subst hi'
        rw [hlast] at hy
        cases hy
        rw [opcode_at_append t x _ (Nat.le_refl _)] at hopc
        have hfree := ihf.mpr hopc
        have hready : Gate.run .idle t = .ready := by
          rcases hfree with hg | hg
          · exfalso
            apply h
            rw [hg]
            exact gate_step_idle_mutating x hmut
          · exact hg
        obtain ⟨h2, ho, p, q, hp, hq, hrest⟩ := ihr hready
        refine ⟨h2, (opcode_at_append t x _ (by omega)).mpr ho, p, q, ?_, ?_, hrest⟩
        · rw [List.getElem?_append_left (by omega)]; exact hp
        · rw [List.getElem?_append_left (by omega)]; exact hq
    · rw [hlen, hop]
      exact gate_step_free _ x h
    · intro hr
      rw [hlen]
      obtain ⟨hg, hc, hresp⟩ := gate_step_ready _ x hr
      obtain ⟨h1, ho, p, hp, hb, hpc⟩ := ihp hg
      refine ⟨by omega, ?_, p, x, ?_, ?_, hb, hpc, hc, hresp⟩
      · have : t.length + 1 - 2 = t.length - 1 := by omega
        rw [this]
        exact (opcode_at_append t x _ (by omega)).mpr ho
      · have : t.length + 1 - 2 = t.length - 1 := by omega
        rw [this, List.getElem?_append_left (by omega)]
        exact hp
      · simp
    · intro hr
      rw [hlen]
      obtain ⟨hfree, hc, hb⟩ := gate_step_polling _ x hr
      refine ⟨by omega, ?_, x, by simp, hb, hc⟩
      simp only [Nat.add_sub_cancel]
      exact (opcode_at_append t x _ (Nat.le_refl _)).mpr (ihf.mp hfree)

end GateSound

section GateDriver

variable {σ : Type}

theorem passes_append {s1 s2 : List Xfer} (h1 : Passes s1) (h2 : Passes s2) :
    Passes (s1 ++ s2) := by
  intro g hg
  rw [gate_run_append]
  exact h2 _ (h1 g hg)

theorem passes_nil : Passes [] := fun _ hg => hg

theorem passes_arms_closes {s1 s2 s3 : List Xfer} (h1 : Passes s1) (h2 : Arms s2)
    (h3 : Closes s3) : Passes (s1 ++ s2 ++ s3) := by
  intro g hg
  rw [gate_run_append, gate_run_append, h2 _ (h1 g hg), h3]
  exact Or.inl rfl

theorem arms_closes {s2 s3 : List Xfer} (h2 : Arms s2) (h3 : Closes s3) :
    Passes (s2 ++ s3) := by
  intro g hg
  rw [gate_run_append, h2 _ hg, h3]
  exact Or.inl rfl

theorem busy_bit_zero (r : Nat) (h : r % 256 &&& BUSY_BIT_MASK = 0) : r % 2 = 0 := by
  have : r % 256 &&& 1 = r % 256 % 2 := Nat.and_one_is_mod _
  have h' : r % 256 &&& 1 = 0 := h
  omega

theorem inside_held (seg : List Xfer) (h : ∀ x ∈ seg, x.cont = true) :
    Gate.run .inside seg = .inside := by
  induction seg with
  | nil => rfl
  | cons x seg ih =>
    have hx : x.cont = true := h x (List.mem_cons_self _ _)
    have : Gate.run .inside (x :: seg) = Gate.run (Gate.step .inside x) seg := rfl
    rw [this]
    simp only [Gate.step, hx, if_true]
    exact ih fun y hy => h y (List.mem_cons_of_mem _ hy)

theorem read_busy_trace (D : Device σ) (st : Bus σ) :
    ∃ a r, (S25FL164K_Read_BUSY_Bit D st).2.trace =
        st.trace ++ [⟨READ_STATUS_REGISTER_1, true, a⟩, ⟨BUSY_BIT_MASK, false, r⟩] ∧
      (S25FL164K_Read_BUSY_Bit D st).1 = r % 256 &&& BUSY_BIT_MASK :=
  ⟨(D st.dev READ_STATUS_REGISTER_1 true).1,
    (D (D st.dev READ_STATUS_REGISTER_1 true).2 BUSY_BIT_MASK false).1,
    by simp [S25FL164K_Read_BUSY_Bit, SPI_CMD_FLASH, last_status, SPI_Master,
      READ_STATUS_REGISTER_1, BUSY_BIT_MASK], rfl⟩

theorem poll_run (g : Gate) (hg : g.free) (a r : Nat) :
    g.run [⟨READ_STATUS_REGISTER_1, true, a⟩, ⟨BUSY_BIT_MASK, false, r⟩] =
      if r % 2 = 0 then .ready else .idle := by
  have h5 : ¬ mutating READ_STATUS_REGISTER_1 := by decide
  rcases hg with rfl | rfl <;> simp [Gate.run, Gate.step, h5]

theorem wait_arms (D : Device σ) :
    ∀ (fuel : Nat) (st st' : Bus σ), wait_while_busy D fuel st = some st' →
      ∃ seg, st'.trace = st.trace ++ seg ∧ Arms seg := by
  intro fuel
  induction fuel with
  | zero => intro st st' h; simp [wait_while_busy] at h
  | succ fuel ih =>
    intro st st' h
    rw [wait_while_busy] at h
    obtain ⟨a, r, ht, hv⟩ := read_busy_trace D st
    by_cases hb : (S25FL164K_Read_BUSY_Bit D st).1 ≠ 0
    · rw [if_pos hb] at h
      obtain ⟨seg, hs, ha⟩ := ih _ _ h
      refine ⟨[⟨READ_STATUS_REGISTER_1, true, a⟩, ⟨BUSY_BIT_MASK, false, r⟩] ++ seg, ?_, ?_⟩
      · rw [hs, ht, List.append_assoc]
      · intro g hg
        rw [gate_run_append, poll_run g hg]
        apply ha
        split
        · exact Or.inr rfl
        · exact Or.inl rfl
    · rw [if_neg hb] at h
      cases h
      refine ⟨_, ht, ?_⟩
      intro g hg
      have hz : (S25FL164K_Read_BUSY_Bit D st).1 = 0 := by
        by_contra hne; exact hb hne
      rw [hv] at hz
      rw [poll_run g hg, if_pos (busy_bit_zero r hz)]

end GateDriver

section GateCommands

variable {σ : Type}

theorem closes_single (x : Xfer) (hx : x.cont = false) : Closes [x] := by
  simp [Closes, Gate.run, Gate.step, hx]

theorem closes_frame (x : Xfer) (mid : List Xfer) (y : Xfer) (hx : x.cont = true)
    (hb : x.byte ≠ READ_STATUS_REGISTER_1) (hmid : ∀ z ∈ mid, z.cont = true)
    (hy : y.cont = false) : Closes (x :: (mid ++ [y])) := by
  have e : Gate.run .ready (x :: (mid ++ [y])) = ((Gate.run (Gate.step .ready x) mid).step y) := by
    simp [Gate.run]
  have e1 : Gate.step .ready x = .inside := by simp [Gate.step, hx, hb]
  rw [Closes, e, e1, inside_held mid hmid]
  simp [Gate.step, hy]

theorem passes_frame (x : Xfer) (mid : List Xfer) (y : Xfer) (hx : x.cont = true)
    (hb : x.byte ≠ READ_STATUS_REGISTER_1) (hm : ¬ mutating x.byte)
    (hmid : ∀ z ∈ mid, z.cont = true) (hy : y.cont = false) : Passes (x :: (mid ++ [y])) := by
  intro g hg
  have e : g.run (x :: (mid ++ [y])) = ((Gate.run (g.step x) mid).step y) := by
    simp [Gate.run]
  have e1 : g.step x = .inside := by
    rcases hg with rfl | rfl <;> simp [Gate.step, hx, hb, hm]
  rw [e, e1, inside_held mid hmid]
  simp [Gate.step, hy, Gate.free]

theorem spi_hold (D : Device σ) (b : Nat) (st : Bus σ) :
    ∃ x, (SPI_CMD_FLASH D b st).2.trace = st.trace ++ [x] ∧ x.byte = b % 256 ∧ x.cont = true :=
  ⟨_, rfl, rfl, rfl⟩

theorem spi_release (D : Device σ) (b : Nat) (st : Bus σ) (hb : b % 2 ^ 32 < 2 ^ 31) :
    ∃ x, (SPI_CMD_LAST_FLASH D b st).2.trace = st.trace ++ [x] ∧ x.byte = b % 256 ∧
      x.cont = false := by
  rw [last_release D b st hb]
  exact ⟨_, rfl, rfl, rfl⟩

theorem spi_last (D : Device σ) (b : Nat) (st : Bus σ) :
    ∃ x, (SPI_CMD_LAST_FLASH D b st).2.trace = st.trace ++ [x] ∧ x.byte = b % 256 :=
  ⟨_, rfl, rfl⟩

theorem send_loop_held (D : Device σ) (n : Nat) (buff : Buf) :
    ∀ (fuel i p : Nat) (st : Bus σ) (r : Nat × Bus σ), send_loop D fuel i n buff p st = some r →
      ∃ seg, r.2.trace = st.trace ++ seg ∧ ∀ x ∈ seg, x.cont = true := by
  intro fuel
  induction fuel with
  | zero => intro i p st r h; simp [send_loop] at h
  | succ fuel ih =>
    intro i p st r h
    rw [send_loop] at h
    split at h
    · obtain ⟨seg, hs, hh⟩ := ih _ _ _ _ h
      obtain ⟨y, hy, _, hyc⟩ := spi_hold D (buff p) st
      refine ⟨y :: seg, ?_, ?_⟩
      · rw [hs, hy, List.append_assoc, List.singleton_append]
      · intro x hx
        rcases List.mem_cons.mp hx with rfl | hx
        · exact hyc
        · exact hh x hx
    · cases h
      exact ⟨[], by simp, by simp⟩

theorem recv_loop_held (D : Device σ) (n : Nat) :
    ∀ (fuel i p : Nat) (buff : Buf) (st : Bus σ) (r : Buf × Nat × Bus σ),
      recv_loop D fuel i n buff p st = some r →
      ∃ seg, r.2.2.trace = st.trace ++ seg ∧ ∀ x ∈ seg, x.cont = true := by
  intro fuel
  induction fuel with
  | zero => intro i p buff st r h; simp [recv_loop] at h
  | succ fuel ih =>
    intro i p buff st r h
    rw [recv_loop] at h
    split at h
    · obtain ⟨seg, hs, hh⟩ := ih _ _ _ _ _ h
      obtain ⟨y, hy, _, hyc⟩ := spi_hold D SEND_FF st
      refine ⟨y :: seg, ?_, ?_⟩
      · rw [hs, hy, List.append_assoc, List.singleton_append]
      · intro x hx
        rcases List.mem_cons.mp hx with rfl | hx
        · exact hyc
        · exact hh x hx
    · cases h
      exact ⟨[], by simp, by simp⟩

/-- A command of the form write enable, busy wait, body passes the monitor when the
body is one command issued on a fresh not-busy observation. -/
theorem gated_command (D : Device σ) (fuel : Nat) (body : Bus σ → Option (Bus σ))
    (hbody : ∀ st st', body st = some st' → ∃ seg, st'.trace = st.trace ++ seg ∧ Closes seg)
    (st st' : Bus σ)
    (h : ((S25FL164K_Write_Enable D fuel st).bind fun st =>
      (wait_while_busy D fuel st).bind body) = some st') :
    ∃ seg, st'.trace = st.trace ++ seg ∧ Passes seg := by
  simp only [S25FL164K_Write_Enable, Option.bind_eq_some] at h
  obtain ⟨st2, ⟨st1, hw1, hst2⟩, st3, hw2, hb⟩ := h
  cases hst2
  obtain ⟨s1, e1, a1⟩ := wait_arms D fuel st st1 hw1
  obtain ⟨s2, e2, a2⟩ := wait_arms D fuel _ st3 hw2
  obtain ⟨s3, e3, c3⟩ := hbody st3 st' hb
  obtain ⟨y, hy, _, hyc⟩ := spi_release D WRITE_ENABLE st1 (by decide)
  refine ⟨(s1 ++ [y]) ++ s2 ++ s3, ?_, ?_⟩
  · rw [e3, e2, hy, e1]
    simp only [List.append_assoc]
  · exact passes_arms_closes (arms_closes a1 (closes_single _ hyc)) a2 c3

theorem write_enable_passes (D : Device σ) (fuel : Nat) (st st' : Bus σ)
    (h : S25FL164K_Write_Enable D fuel st = some st') :
    ∃ seg, st'.trace = st.trace ++ seg ∧ Passes seg := by
  simp only [S25FL164K_Write_Enable, Option.bind_eq_some] at h
  obtain ⟨st1, hw1, hst2⟩ := h
  cases hst2
  obtain ⟨s1, e1, a1⟩ := wait_arms D fuel st st1 hw1
  obtain ⟨y, hy, _, hyc⟩ := spi_release D WRITE_ENABLE st1 (by decide)
  exact ⟨s1 ++ [y], by rw [hy, e1, List.append_assoc], arms_closes a1 (closes_single _ hyc)⟩

theorem write_disable_passes (D : Device σ) (fuel : Nat) (st st' : Bus σ)
    (h : S25FL164K_Write_Disable D fuel st = some st') :
    ∃ seg, st'.trace = st.trace ++ seg ∧ Passes seg := by
  simp only [S25FL164K_Write_Disable, Option.bind_eq_some] at h
  obtain ⟨st1, hw1, hst2⟩ := h
  cases hst2
  obtain ⟨s1, e1, a1⟩ := wait_arms D fuel st st1 hw1
  obtain ⟨y, hy, _, hyc⟩ := spi_release D WRITE_DISABLE st1 (by decide)
  exact ⟨s1 ++ [y], by rw [hy, e1, List.append_assoc], arms_closes a1 (closes_single _ hyc)⟩

/-- Opcode and three address bytes, all holding chip-select. -/
theorem header_held (D : Device σ) (op a2 a1 a0 : Nat) (st : Bus σ) :
    ∃ x mid, (SPI_CMD_FLASH D a0 (SPI_CMD_FLASH D a1 (SPI_CMD_FLASH D a2
        (SPI_CMD_FLASH D op st).2).2).2).2.trace = st.trace ++ x :: mid ∧
      x.byte = op % 256 ∧ x.cont = true ∧ ∀ z ∈ mid, z.cont = true := by
  obtain ⟨x, hx, hxb, hxc⟩ := spi_hold D op st
  obtain ⟨y2, hy2, _, hc2⟩ := spi_hold D a2 (SPI_CMD_FLASH D op st).2
  obtain ⟨y1, hy1, _, hc1⟩ := spi_hold D a1 (SPI_CMD_FLASH D a2 (SPI_CMD_FLASH D op st).2).2
  obtain ⟨y0, hy0, _, hc0⟩ := spi_hold D a0
    (SPI_CMD_FLASH D a1 (SPI_CMD_FLASH D a2 (SPI_CMD_FLASH D op st).2).2).2
  refine ⟨x, [y2, y1, y0], ?_, hxb, hxc, ?_⟩
  · rw [hy0, hy1, hy2, hx]
    simp
  · intro z hz
    simp only [List.mem_cons, List.mem_singleton, List.not_mem_nil, or_false] at hz
    rcases hz with rfl | rfl | rfl
    · exact hc2
    · exact hc1
    · exact hc0

/-- Opcode, three address bytes, the last one releasing chip-select. -/
theorem address_command_closes (D : Device σ) (op a2 a1 a0 : Nat)
    (hop : op % 256 ≠ READ_STATUS_REGISTER_1) (h0 : a0 % 2 ^ 32 < 2 ^ 31) (st : Bus σ) :
    ∃ seg, (SPI_CMD_LAST_FLASH D a0 (SPI_CMD_FLASH D a1 (SPI_CMD_FLASH D a2
        (SPI_CMD_FLASH D op st).2).2).2).2.trace = st.trace ++ seg ∧ Closes seg := by
  obtain ⟨x, hx, hxb, hxc⟩ := spi_hold D op st
  obtain ⟨y2, hy2, _, hc2⟩ := spi_hold D a2 (SPI_CMD_FLASH D op st).2
  obtain ⟨y1, hy1, _, hc1⟩ := spi_hold D a1 (SPI_CMD_FLASH D a2 (SPI_CMD_FLASH D op st).2).2
  obtain ⟨y0, hy0, _, hc0⟩ := spi_release D a0
    (SPI_CMD_FLASH D a1 (SPI_CMD_FLASH D a2 (SPI_CMD_FLASH D op st).2).2).2 h0
  refine ⟨x :: ([y2, y1] ++ [y0]), ?_, closes_frame _ _ _ hxc (by rw [hxb]; exact hop) ?_ hc0⟩
  · rw [hy0, hy1, hy2, hx]
    simp
  · intro z hz
    simp only [List.mem_cons, List.mem_singleton, List.not_mem_nil, or_false] at hz
    rcases hz with rfl | rfl
    · exact hc2
    · exact hc1

/-- Opcode, three address bytes, the data loop and the last data byte. -/
theorem data_command_closes (D : Device σ) (fuel op a2 a1 a0 n : Nat) (buff : Buf)
    (hop : op % 256 ≠ READ_STATUS_REGISTER_1) (st st' : Bus σ)
    (h : ((send_loop D fuel 1 n buff 0 (SPI_CMD_FLASH D a0 (SPI_CMD_FLASH D a1 (SPI_CMD_FLASH D a2
        (SPI_CMD_FLASH D op st).2).2).2).2).bind fun r =>
      some (SPI_CMD_LAST_FLASH D (buff r.1 % 256) r.2).2) = some st') :
    ∃ seg, st'.trace = st.trace ++ seg ∧ Closes seg := by
  simp only [Option.bind_eq_some] at h
  obtain ⟨r, hr, hst⟩ := h
  cases hst
  obtain ⟨s, hs, hh⟩ := send_loop_held D n buff _ _ _ _ _ hr
  obtain ⟨x, mid, hm, hxb, hxc, hmid⟩ := header_held D op a2 a1 a0 st
  obtain ⟨y, hy, _, hyc⟩ := spi_release D (buff r.1 % 256) r.2 (by omega)
  refine ⟨x :: ((mid ++ s) ++ [y]), ?_, closes_frame _ _ _ hxc (by rw [hxb]; exact hop) ?_ hyc⟩
  · rw [hy, hs, hm]
    simp
  · intro z hz
    rcases List.mem_append.mp hz with hz | hz
    · exact hmid z hz
    · exact hh z hz

/-- Opcode, three address bytes, optional dummy bytes, the receive loop and the last
received byte, for an opcode that does not change device state. -/
theorem read_command_passes (D : Device σ) (fuel op a2 a1 a0 n : Nat) (buff : Buf)
    (hop : op % 256 ≠ READ_STATUS_REGISTER_1) (hm : ¬ mutating (op % 256)) (st : Bus σ)
    (r : Buf × Nat × Bus σ)
    (h : recv_loop D fuel 1 n buff 0 (SPI_CMD_FLASH D a0 (SPI_CMD_FLASH D a1 (SPI_CMD_FLASH D a2
        (SPI_CMD_FLASH D op st).2).2).2).2 = some r) :
    ∃ seg, (SPI_CMD_LAST_FLASH D SEND_FF r.2.2).2.trace = st.trace ++ seg ∧ Passes seg := by
  obtain ⟨s, hs, hh⟩ := recv_loop_held D n _ _ _ _ _ _ h
  obtain ⟨x, mid, hmd, hxb, hxc, hmid⟩ := header_held D op a2 a1 a0 st
  obtain ⟨y, hy, _, hyc⟩ := spi_release D SEND_FF r.2.2 (by decide)
  refine ⟨x :: ((mid ++ s) ++ [y]), ?_,
    passes_frame _ _ _ hxc (by rw [hxb]; exact hop) (by rw [hxb]; exact hm) ?_ hyc⟩
  · rw [hy, hs, hmd]
    simp
  · intro z hz
    rcases List.mem_append.mp hz with hz | hz
    · exact hmid z hz
    · exact hh z hz

end GateCommands

section GateTheorem

variable {σ : Type}

theorem page_program_passes (D : Device σ) (fuel address : Nat) (buff : Buf) (byte_count : Nat)
    (st st' : Bus σ) (h : S25FL164K_Page_Program D fuel address buff byte_count st = some st') :
    ∃ seg, st'.trace = st.trace ++ seg ∧ Passes seg :=
  gated_command D fuel _
    (fun s s' hs => data_command_closes D fuel PAGE_PROGRAM _ _ _ _ buff (by decide) s s' hs)
    st st' h

theorem write_sec_reg_passes (D : Device σ) (fuel address : Nat) (buff : Buf) (byte_count : Nat)
    (st st' : Bus σ) (h : S25FL164K_Write_Sec_Reg D fuel address buff byte_count st = some st') :
    ∃ seg, st'.trace = st.trace ++ seg ∧ Passes seg :=
  gated_command D fuel _
    (fun s s' hs => data_command_closes D fuel PROGRAM_SEC_REG _ _ _ _ buff (by decide) s s' hs)
    st st' h

theorem erase_sector_passes (D : Device σ) (fuel address : Nat) (st st' : Bus σ)
    (h : S25FL164K_Erase_Sector D fuel address st = some st') :
    ∃ seg, st'.trace = st.trace ++ seg ∧ Passes seg :=
  gated_command D fuel _
    (fun s s' hs => by
      cases hs
      exact address_command_closes D SECTOR_ERASE _ _ _ (by decide) (sector_mask_small _) s)
    st st' h

theorem erase_block_passes (D : Device σ) (fuel address : Nat) (st st' : Bus σ)
    (h : S25FL164K_Erase_Block D fuel address st = some st') :
    ∃ seg, st'.trace = st.trace ++ seg ∧ Passes seg :=
  gated_command D fuel _
    (fun s s' hs => by
      cases hs
      exact address_command_closes D BLOCK_ERASE _ _ _ (by decide) (block_mask_small _) s)
    st st' h

theorem erase_sec_reg_passes (D : Device σ) (fuel address : Nat) (st st' : Bus σ)
    (ha : address % 2 ^ 32 < 2 ^ 31)
    (h : S25FL164K_Erase_Sec_Reg D fuel address st = some st') :
    ∃ seg, st'.trace = st.trace ++ seg ∧ Passes seg :=
  gated_command D fuel _
    (fun s s' hs => by
      cases hs
      exact address_command_closes D ERASE_SEC_REG _ _ _ (by decide) ha s)
    st st' h

/-- Opcode and three address bytes, whatever the chip-select flag of the last one:
issued on a fresh not-busy observation the command does not fail the monitor. -/
theorem address_command_safe (D : Device σ) (op a2 a1 a0 : Nat)
    (hop : op % 256 ≠ READ_STATUS_REGISTER_1) (st : Bus σ) :
    ∃ seg, (SPI_CMD_LAST_FLASH D a0 (SPI_CMD_FLASH D a1 (SPI_CMD_FLASH D a2
        (SPI_CMD_FLASH D op st).2).2).2).2.trace = st.trace ++ seg ∧
      Gate.run .ready seg ≠ .broken := by
  obtain ⟨x, hx, hxb, hxc⟩ := spi_hold D op st
  obtain ⟨y2, hy2, _, hc2⟩ := spi_hold D a2 (SPI_CMD_FLASH D op st).2
  obtain ⟨y1, hy1, _, hc1⟩ := spi_hold D a1 (SPI_CMD_FLASH D a2 (SPI_CMD_FLASH D op st).2).2
  obtain ⟨y0, hy0, _⟩ := spi_last D a0
    (SPI_CMD_FLASH D a1 (SPI_CMD_FLASH D a2 (SPI_CMD_FLASH D op st).2).2).2
  refine ⟨[x, y2, y1, y0], ?_, ?_⟩
  · rw [hy0, hy1, hy2, hx]
    simp
  · have hb : x.byte ≠ READ_STATUS_REGISTER_1 := by rw [hxb]; exact hop
    cases hy : y0.cont <;> simp [Gate.run, Gate.step, hxc, hc2, hc1, hb, hy]

theorem erase_sec_reg_safe (D : Device σ) (fuel address : Nat) (st st' : Bus σ)
    (h : S25FL164K_Erase_Sec_Reg D fuel address st = some st') :
    ∃ seg, st'.trace = st.trace ++ seg ∧ Gate.run .idle seg ≠ .broken := by
  simp only [S25FL164K_Erase_Sec_Reg, S25FL164K_Write_Enable, Option.bind_eq_some] at h
  obtain ⟨st2, ⟨st1, hw1, hst2⟩, st3, hw2, hb⟩ := h
  cases hst2
  cases hb
  obtain ⟨s1, e1, a1⟩ := wait_arms D fuel st st1 hw1
  obtain ⟨s2, e2, a2⟩ := wait_arms D fuel _ st3 hw2
  obtain ⟨s3, e3, c3⟩ := address_command_safe D ERASE_SEC_REG (address >>> 16) (address >>> 8)
    address (by decide) st3
  obtain ⟨y, hy, _, hyc⟩ := spi_release D WRITE_ENABLE st1 (by decide)
  refine ⟨(s1 ++ [y]) ++ s2 ++ s3, ?_, ?_⟩
  · rw [e3, e2, hy, e1]
    simp only [List.append_assoc]
  · have hp : Passes (s1 ++ [y]) := arms_closes a1 (closes_single _ hyc)
    rw [gate_run_append, gate_run_append, a2 _ (hp .idle (Or.inl rfl))]
    exact c3

theorem erase_chip_passes (D : Device σ) (fuel : Nat) (st st' : Bus σ)
    (h : S25FL164K_Erase_Chip D fuel st = some st') :
    ∃ seg, st'.trace = st.trace ++ seg ∧ Passes seg :=
  gated_command D fuel _
    (fun s s' hs => by
      cases hs
      obtain ⟨y, hy, _, hyc⟩ := spi_release D CHIP_ERASE s (by decide)
      exact ⟨[y], hy, closes_single y hyc⟩)
    st st' h

theorem write_data_loop_passes {S : Type} (tr : S → List Xfer)
    (PP : Nat → Buf → Nat → S → Option S)
    (hPP : ∀ a b n st st', PP a b n st = some st' → ∃ seg, tr st' = tr st ++ seg ∧ Passes seg) :
    ∀ (fuel a : Nat) (b : Buf) (c : Int) (st st' : S),
      Write_Data_loop PP fuel a b c st = some st' →
      ∃ seg, tr st' = tr st ++ seg ∧ Passes seg := by
  intro fuel
  induction fuel with
  | zero => intro a b c st st' h; simp [Write_Data_loop] at h
  | succ fuel ih =>
    intro a b c st st' h
    rw [Write_Data_loop] at h
    split at h
    · simp only [Option.bind_eq_some] at h
      obtain ⟨st1, h1, h2⟩ := h
      obtain ⟨s1, e1, p1⟩ := hPP _ _ _ _ _ h1
      obtain ⟨s2, e2, p2⟩ := ih _ _ _ _ _ h2
      exact ⟨s1 ++ s2, by rw [e2, e1, List.append_assoc], passes_append p1 p2⟩
    · cases h
      exact ⟨[], by simp, passes_nil⟩

theorem write_data_passes (D : Device σ) (fuel address : Nat) (buff : Buf) (byte_count : Nat)
    (st st' : Bus σ) (h : S25FL164K_Write_Data D fuel address buff byte_count st = some st') :
    ∃ seg, st'.trace = st.trace ++ seg ∧ Passes seg :=
  write_data_loop_passes (fun s : Bus σ => s.trace) _
    (fun a b n s s' hs => page_program_passes D fuel a b n s s' hs) fuel address buff _ st st' h

theorem read_data_passes (D : Device σ) (fuel address : Nat) (buff : Buf) (byte_count : Nat)
    (st : Bus σ) (r : Buf × Bus σ)
    (h : S25FL164K_Read_Data D fuel address buff byte_count st = some r) :
    ∃ seg, r.2.trace = st.trace ++ seg ∧ Passes seg := by
  simp only [S25FL164K_Read_Data, Option.bind_eq_some] at h
  obtain ⟨q, hq, hr⟩ := h
  cases hr
  exact read_command_passes D fuel READ_DATA _ _ _ _ buff (by decide) (by decide) st q hq

theorem modify_sector_data_passes (D : Device σ) (fuel : Nat) (mod_data : Buf) (address : Nat)
    (buff : Buf) (byte_count : Nat) (st : Bus σ) (r : Buf × Bus σ)
    (h : S25FL164K_Modify_Sector_Data D fuel mod_data address buff byte_count st = some r) :
    ∃ seg, r.2.trace = st.trace ++ seg ∧ Passes seg := by
  simp only [S25FL164K_Modify_Sector_Data, Option.bind_eq_some] at h
  obtain ⟨r1, h1, m, _, st2, h2, st3, h3, hr⟩ := h
  cases hr
  obtain ⟨s1, e1, p1⟩ := read_data_passes D fuel _ _ _ st r1 h1
  obtain ⟨s2, e2, p2⟩ := erase_sector_passes D fuel _ _ st2 h2
  obtain ⟨s3, e3, p3⟩ := write_data_passes D fuel _ _ _ _ st3 h3
  exact ⟨s1 ++ s2 ++ s3, by simp only [e3, e2, e1, List.append_assoc],
    passes_append (passes_append p1 p2) p3⟩

theorem passes_safe {seg : List Xfer} (hp : Passes seg) : Gate.run .idle seg ≠ .broken := by
  intro hb
  rcases hp .idle (Or.inl rfl) with h1 | h1 <;> rw [hb] at h1 <;> cases h1

theorem op_safe (D : Device σ) (fuel : Nat) (op : Op) (st st' : Bus σ)
    (h : op.run D fuel st = some st') :
    ∃ seg, st'.trace = st.trace ++ seg ∧ Gate.run .idle seg ≠ .broken := by
  have lift : (∃ seg, st'.trace = st.trace ++ seg ∧ Passes seg) →
      ∃ seg, st'.trace = st.trace ++ seg ∧ Gate.run .idle seg ≠ .broken :=
    fun ⟨seg, hs, hp⟩ => ⟨seg, hs, passes_safe hp⟩
  cases op with
  | Write_Enable => exact lift (write_enable_passes D fuel st st' h)
  | Write_Disable => exact lift (write_disable_passes D fuel st st' h)
  | Page_Program a b n => exact lift (page_program_passes D fuel a b n st st' h)
  | Erase_Sector a => exact lift (erase_sector_passes D fuel a st st' h)
  | Erase_Block a => exact lift (erase_block_passes D fuel a st st' h)
  | Erase_Chip => exact lift (erase_chip_passes D fuel st st' h)
  | Erase_Sec_Reg a => exact erase_sec_reg_safe D fuel a st st' h
  | Write_Sec_Reg a b n => exact lift (write_sec_reg_passes D fuel a b n st st' h)
  | Write_Data a b n => exact lift (write_data_passes D fuel a b n st st' h)
  | Modify_Sector_Data m a b n =>
    simp only [Op.run, Option.map_eq_some'] at h
    obtain ⟨r, hr, rfl⟩ := h
    exact lift (modify_sector_data_passes D fuel m a b n st r hr)

/-- C7. Busy gating. For every device, every fuel bound and every entry point among
`Write_Enable`, `Write_Disable`, `Page_Program`, `Erase_Sector`, `Erase_Block`,
`Erase_Chip`, `Erase_Sec_Reg`, `Write_Sec_Reg`, `Write_Data` and
`Modify_Sector_Data`: if the run returns, the transactions it added to the bus are
busy-gated, i.e. every state-changing opcode (`0x06`, `0x04`, `0x02`, `0x20`, `0xD8`,
`0xC7`, `0x42`, `0x44`) sent as the first byte of a command comes right after a
read-status command (`0x05` held, then one byte released) whose answer had bit 0
clear. -/
theorem busy_gating (D : Device σ) (fuel : Nat) (op : Op) (st st' : Bus σ)
    (h : op.run D fuel st = some st') :
    ∃ seg, st'.trace = st.trace ++ seg ∧ BusyGated seg := by
  obtain ⟨seg, hs, hp⟩ := op_safe D fuel op st st' h
  exact ⟨seg, hs, (gate_sound seg hp).1⟩

theorem busy_gating_witness :
    ∃ seg, (emit quiet (entry_cmds ++ [(PAGE_PROGRAM, true), (0, true), (0x0F, true),
        (0xFE, true), (0xAA, true), (0xBB, false)]) ⟨(), []⟩).trace = [] ++ seg ∧
      BusyGated seg :=
  busy_gating quiet 2 (.Write_Data 0x0FFE (bufOf [0xAA, 0xBB, 0xCC, 0xDD]) 2) ⟨(), []⟩ _
    rfl

end GateTheorem

section ReadData

variable {σ : Type}

/-- With a bound of `65536` or more the 16-bit counter stays below the bound for
ever: the receive loop does not end, whatever the fuel. -/
theorem recv_loop_never_ends (D : Device σ) (n : Nat) (hn : 65536 ≤ n) :
    ∀ (fuel i p : Nat) (buff : Buf) (st : Bus σ), i < 65536 →
      recv_loop D fuel i n buff p st = none := by
  intro fuel
  induction fuel with
  | zero => intro i p buff st _; rfl
  | succ fuel ih =>
    intro i p buff st hi
    rw [recv_loop, if_pos (by omega)]
    exact ih _ _ _ _ (Nat.mod_lt _ (by norm_num))

/-- C9 (as the code behaves). `S25FL164K_Read_Data(address, buff, 65536)` does not
return on any device, for any address, whatever the number of loop rounds allowed:
the loop counter `i` is a `uint16_t` and can never reach the 32-bit bound. -/
theorem read_data_65536_never_returns (D : Device σ) (fuel address : Nat) (buff : Buf)
    (st : Bus σ) : S25FL164K_Read_Data D fuel address buff 65536 st = none := by
  unfold S25FL164K_Read_Data
  simp only []
  rw [recv_loop_never_ends D _ (by norm_num) fuel 1 0 buff _ (by norm_num)]
  rfl

end ReadData

section FlashSteps

theorem flash_entry (m : Nat → Nat) (op addr : Nat) (t : List Xfer) :
    (emit flash entry_cmds ⟨⟨m, op, 0, addr⟩, t⟩).dev = ⟨m, READ_STATUS_REGISTER_1, 0, 0⟩ := by
  simp [emit, entry_cmds, SPI_Master, flash, Flash.receive, READ_STATUS_REGISTER_1, WRITE_ENABLE, BUSY_BIT_MASK, CHIP_ERASE, READ_DATA,
    PAGE_PROGRAM, SECTOR_ERASE, BLOCK_ERASE]

theorem flash_busy_at (s : Flash) (h : s.n = 0) : busy_at flash s = 0 := by
  simp [busy_at, S25FL164K_Read_BUSY_Bit, SPI_CMD_FLASH, SPI_CMD_LAST_FLASH, SPI_Master, flash,
    Flash.receive, h, READ_STATUS_REGISTER_1, WRITE_ENABLE, BUSY_BIT_MASK, CHIP_ERASE, READ_DATA,
    PAGE_PROGRAM, SECTOR_ERASE, BLOCK_ERASE]

theorem flash_never_busy (s : Flash) (h : s.n = 0) : NeverBusy flash s := by
  refine ⟨flash_busy_at s h, fun s' b => flash_busy_at _ ?_⟩
  simp [flash]

theorem flash_header (m : Nat → Nat) (op0 addr0 op a : Nat) (t : List Xfer)
    (hop : op = READ_DATA ∨ op = PAGE_PROGRAM) (ha : a < 2 ^ 24) :
    (emit flash [(op, true), (a >>> 16, true), (a >>> 8, true), (a, true)]
      ⟨⟨m, op0, 0, addr0⟩, t⟩).dev = ⟨m, op, 4, a⟩ := by
  have e : (a >>> 16 % 256 * 256 + a >>> 8 % 256) * 256 + a % 256 = a := by
    simp only [Nat.shiftRight_eq_div_pow]
    omega
  rcases hop with rfl | rfl <;>
    simp [emit, SPI_Master, flash, Flash.receive, e, READ_STATUS_REGISTER_1, WRITE_ENABLE, BUSY_BIT_MASK, CHIP_ERASE, READ_DATA,
    PAGE_PROGRAM, SECTOR_ERASE, BLOCK_ERASE]

end FlashSteps

section FlashProgram

variable {σ : Type}

theorem emit_dev_eq (D : Device σ) (l : List (Nat × Bool)) (st : Bus σ) :
    (emit D l st).dev = (emit D l ⟨st.dev, []⟩).dev := by
  induction l generalizing st with
  | nil => rfl
  | cons c l ih =>
    rw [emit, emit, ih, ih (SPI_Master D c.1 c.2 ⟨st.dev, []⟩).2]
    rfl

/-- The held data bytes of a program command: each is ANDed into its cell and the
address moves on, as long as the page end is not reached. -/
theorem flash_program_held (buff : Buf) :
    ∀ (k : Nat) (m : Nat → Nat) (A p : Nat) (t : List Xfer), A % 256 + k ≤ 255 →
      (emit flash ((List.range k).map fun j => (buff (p + j), true))
        ⟨⟨m, PAGE_PROGRAM, 4, A⟩, t⟩).dev =
      ⟨fun x => if A ≤ x ∧ x < A + k then m x &&& (buff (p + (x - A)) % 256) else m x,
        PAGE_PROGRAM, 4, A + k⟩ := by
  intro k
  induction k with
  | zero =>
    intro m A p t _
    simp [emit]
    funext x
    rw [if_neg (by omega)]
  | succ k ih =>
    intro m A p t h
    have hA : A / 256 * 256 + (A + 1) % 256 = A + 1 := by omega
    rw [List.range_succ_eq_map, List.map_cons, List.map_map, emit]
    have hstep : (SPI_Master flash (buff (p + 0), true).1 (buff (p + 0), true).2
        ⟨⟨m, PAGE_PROGRAM, 4, A⟩, t⟩).2 =
        ⟨⟨Function.update m A (m A &&& (buff p % 256)), PAGE_PROGRAM, 4, A + 1⟩,
          t ++ [⟨buff p % 256, true, 0⟩]⟩ := by
      simp [SPI_Master, flash, Flash.receive, PAGE_PROGRAM, READ_DATA, PAGE_SIZE, hA]
    rw [hstep]
    have hmap : ((fun j => (buff (p + j), true)) ∘ Nat.succ) =
        fun j => (buff (p + 1 + j), true) := by
      funext j
      simp [Nat.add_assoc, Nat.add_comm 1 j]
    rw [hmap, ih _ (A + 1) (p + 1) _ (by omega)]
    have hk : A + 1 + k = A + (k + 1) := by omega
    rw [hk]
    congr 1
    funext x
    by_cases hx : x = A
    · subst hx
      simp
    · by_cases hr : A ≤ x ∧ x < A + (k + 1)
      · have hr' : A + 1 ≤ x ∧ x < A + (k + 1) := by omega
        have e : p + 1 + (x - (A + 1)) = p + (x - A) := by omega
        rw [if_pos hr, if_pos hr', e, Function.update_noteq hx]
      · have hr' : ¬ (A + 1 ≤ x ∧ x < A + (k + 1)) := by omega
        rw [if_neg hr, if_neg hr', Function.update_noteq hx]

/-- The function `S25FL164K_Page_Program` on the flash model, for a range inside one page: the
call returns, leaves no command in progress, and every addressed cell holds its old
content ANDed with the byte sent for it. -/
theorem flash_page_program (fuel a n : Nat) (buff : Buf) (m : Nat → Nat) (op0 addr0 : Nat)
    (t : List Xfer) (h1 : 1 ≤ n) (ha : a < 2 ^ 24) (hpage : a % 256 + n ≤ 256) (hf : n ≤ fuel) :
    ∃ st', S25FL164K_Page_Program flash fuel a buff n ⟨⟨m, op0, 0, addr0⟩, t⟩ = some st' ∧
      st'.dev.n = 0 ∧
      st'.dev.mem = fun x => if a ≤ x ∧ x < a + n then m x &&& (buff (x - a) % 256) else m x := by
  refine ⟨_, page_program_idle flash fuel a buff n _ h1 (by omega) hf
    (flash_never_busy _ rfl), ?_⟩
  rw [range_map_last buff n h1, emit_append, emit_append, emit_append, emit_dev_eq,
    emit_dev_eq _ _ (emit flash _ (emit flash _ _)), emit_dev_eq _ _ (emit flash _ _),
    flash_entry, flash_header _ _ _ _ _ _ (Or.inr rfl) ha]
  have := flash_program_held buff (n - 1) m a 0 [] (by omega)
  simp only [Nat.zero_add] at this
  rw [this]
  simp only [emit, SPI_Master, flash, Flash.receive]
  refine ⟨rfl, ?_⟩
  simp [PAGE_PROGRAM, READ_DATA]
  funext x
  by_cases hx : x = a + (n - 1)
  · subst hx
    have e : a + (n - 1) - a = n - 1 := by omega
    have hn0 : 0 < n := h1
    simp [e, hn0]
  · rw [Function.update_noteq hx]
    by_cases hr : a ≤ x ∧ x < a + n
    · rw [if_pos hr, if_pos (by omega)]
    · rw [if_neg hr, if_neg (by omega)]

end FlashProgram

section FlashSector

theorem sector_mask_eq (a : Nat) (ha : a < 2 ^ 24) :
    a &&& SECTOR_START_ADDR_MASK = a - a % 4096 := by
  have hm : SECTOR_START_ADDR_MASK = (2 ^ 12 - 1) <<< 12 := by decide
  have hr : a - a % 4096 = (a >>> 12) <<< 12 := by
    rw [Nat.shiftLeft_eq, Nat.shiftRight_eq_div_pow]
    omega
  rw [hm, hr]
  apply Nat.eq_of_testBit_eq
  intro i
  rw [Nat.testBit_and, Nat.testBit_shiftLeft, Nat.testBit_shiftLeft, Nat.testBit_shiftRight,
    Nat.testBit_two_pow_sub_one]
  by_cases h12 : 12 ≤ i
  · have e : 12 + (i - 12) = i := by omega
    rw [e]
    by_cases h24 : i < 24
    · have : i - 12 < 12 := by omega
      simp [h12, this]
    · have hlt : a < 2 ^ i :=
        Nat.lt_of_lt_of_le ha (Nat.pow_le_pow_right (by norm_num) (by omega))
      rw [Nat.testBit_lt_two_pow hlt]
      simp
  · simp [h12]

theorem patch_loop_eq (buff : Buf) (n : Nat) (hn : n < 2 ^ 32) :
    ∀ (fuel i off : Nat) (md : Buf), i ≤ n → n - i < fuel → off + (n - i) ≤ 4096 →
      patch_loop fuel i n md off buff =
        some (fun x => if off ≤ x ∧ x < off + (n - i) then buff (i + (x - off)) else md x,
          off + (n - i)) := by
  intro fuel
  induction fuel with
  | zero => intro i off md _ h; omega
  | succ fuel ih =>
    intro i off md hi hf ho
    rw [patch_loop]
    by_cases hlt : i < n
    · have hoff : off < SECTOR_SIZE := by
        show off < 4 * 1024
        omega
      rw [if_pos hlt, if_pos hoff, Nat.mod_eq_of_lt (a := i + 1) (by omega),
        Nat.mod_eq_of_lt (a := off + 1) (by omega), ih _ _ _ (by omega) (by omega) (by omega)]
      have e : off + 1 + (n - (i + 1)) = off + (n - i) := by omega
      rw [e]
      congr 2
      funext x
      by_cases hx : x = off
      · subst hx
        rw [if_neg (by omega), if_pos (by omega)]
        simp
      · by_cases hr : off ≤ x ∧ x < off + (n - i)
        · have e2 : i + 1 + (x - (off + 1)) = i + (x - off) := by omega
          rw [if_pos hr, if_pos (by omega), e2]
        · rw [if_neg hr, if_neg (by omega), Function.update_noteq hx]
    · rw [if_neg hlt]
      have e : n - i = 0 := by omega
      simp only [e, Nat.add_zero]
      congr 2
      funext x
      rw [if_neg (by omega)]

/-- The function `S25FL164K_Erase_Sector` on the flash model: the call returns, leaves no command
in progress, and the 4 KiB sector of the address reads `0xFF`, the rest unchanged. -/
theorem flash_erase_sector (fuel a : Nat) (m : Nat → Nat) (op0 addr0 : Nat) (t : List Xfer)
    (ha : a < 2 ^ 24) (hf : 0 < fuel) :
    ∃ st', S25FL164K_Erase_Sector flash fuel a ⟨⟨m, op0, 0, addr0⟩, t⟩ = some st' ∧
      st'.dev.n = 0 ∧
      st'.dev.mem = fun x => if x / 4096 = a / 4096 then 0xFF else m x := by
  refine ⟨_, erase_sector_idle flash fuel a _ hf (flash_never_busy _ rfl), ?_⟩
  rw [emit_append, emit_dev_eq, flash_entry, sector_mask_eq a ha]
  have e : ((a - a % 4096) >>> 16 % 256 * 256 + (a - a % 4096) >>> 8 % 256) * 256 +
      (a - a % 4096) % 256 = a - a % 4096 := by
    simp only [Nat.shiftRight_eq_div_pow]
    omega
  have e2 : (a - a % 4096) / 4096 = a / 4096 := by omega
  simp [emit, SPI_Master, flash, Flash.receive, e, e2, READ_STATUS_REGISTER_1, CHIP_ERASE,
    READ_DATA, PAGE_PROGRAM, SECTOR_ERASE, BLOCK_ERASE, SECTOR_SIZE]

end FlashSector

section FlashRead

theorem flash_recv_loop (m : Nat → Nat) (n : Nat) (hn : n < 65536) :
    ∀ (fuel i p A : Nat) (buff : Buf) (t : List Xfer), i ≤ n → n - i < fuel →
      A + (n - i) < MAIN_FLASH_SIZE →
      ∃ t', recv_loop flash fuel i n buff p ⟨⟨m, READ_DATA, 4, A⟩, t⟩ =
        some (fun x => if p ≤ x ∧ x < p + (n - i) then m (A + (x - p)) % 256 else buff x,
          p + (n - i), ⟨⟨m, READ_DATA, 4, A + (n - i)⟩, t'⟩) := by
  intro fuel
  induction fuel with
  | zero => intro i p A buff t _ h; omega
  | succ fuel ih =>
    intro i p A buff t hi hf hA
    rw [recv_loop]
    by_cases hlt : i < n
    · rw [if_pos hlt, Nat.mod_eq_of_lt (a := i + 1) (by omega)]
      have hstep : SPI_CMD_FLASH flash SEND_FF ⟨⟨m, READ_DATA, 4, A⟩, t⟩ =
          (m A, ⟨⟨m, READ_DATA, 4, A + 1⟩, t ++ [⟨SEND_FF, true, m A⟩]⟩) := by
        have hw : (A + 1) % MAIN_FLASH_SIZE = A + 1 := Nat.mod_eq_of_lt (by omega)
        simp [SPI_CMD_FLASH, SPI_Master, flash, Flash.receive, READ_DATA, hw]
      simp only [hstep]
      obtain ⟨t', ht'⟩ := ih (i + 1) (p + 1) (A + 1) (Function.update buff p (m A % 256))
        (t ++ [⟨SEND_FF, true, m A⟩]) (by omega) (by omega) (by omega)
      refine ⟨t', ?_⟩
      rw [ht']
      have e1 : p + 1 + (n - (i + 1)) = p + (n - i) := by omega
      have e2 : A + 1 + (n - (i + 1)) = A + (n - i) := by omega
      rw [e1, e2]
      congr 2
      funext x
      by_cases hx : x = p
      · subst hx
        rw [if_neg (by omega), if_pos (by omega)]
        simp
      · by_cases hr : p ≤ x ∧ x < p + (n - i)
        · have e3 : A + 1 + (x - (p + 1)) = A + (x - p) := by omega
          rw [if_pos hr, if_pos (by omega), e3]
        · rw [if_neg hr, if_neg (by omega), Function.update_noteq hx]
    · rw [if_neg hlt]
      have e : n - i = 0 := by omega
      refine ⟨t, ?_⟩
      simp only [e, Nat.add_zero]
      congr 2
      funext x
      rw [if_neg (by omega)]

/-- The function `S25FL164K_Read_Data` on the flash model, for `1 <= byte_count <= 65535` bytes
inside the array: the call returns, the buffer holds the array contents from
`address` on, the array is unchanged and no command is in progress. -/
theorem flash_read_data (fuel a n : Nat) (buff : Buf) (m : Nat → Nat) (op0 addr0 : Nat)
    (t : List Xfer) (h1 : 1 ≤ n) (hn : n < 65536) (ha : a + n ≤ MAIN_FLASH_SIZE) (hf : n ≤ fuel) :
    ∃ r, S25FL164K_Read_Data flash fuel a buff n ⟨⟨m, op0, 0, addr0⟩, t⟩ = some r ∧
      r.1 = (fun x => if x < n then m (a + x) % 256 else buff x) ∧
      r.2.dev.n = 0 ∧ r.2.dev.mem = m := by
  have hM : MAIN_FLASH_SIZE = 8388608 := rfl
  have hhead : ∃ t1, (SPI_CMD_FLASH flash a (SPI_CMD_FLASH flash (a >>> 8)
      (SPI_CMD_FLASH flash (a >>> 16) (SPI_CMD_FLASH flash READ_DATA
        ⟨⟨m, op0, 0, addr0⟩, t⟩).2).2).2).2 = ⟨⟨m, READ_DATA, 4, a⟩, t1⟩ := by
    have hd := flash_header m op0 addr0 READ_DATA a t (Or.inl rfl) (by omega)
    refine ⟨(emit flash [(READ_DATA, true), (a >>> 16, true), (a >>> 8, true), (a, true)]
      ⟨⟨m, op0, 0, addr0⟩, t⟩).trace, ?_⟩
    rw [← hd]
    rfl
  obtain ⟨t1, ht1⟩ := hhead
  obtain ⟨t2, ht2⟩ := flash_recv_loop m n hn fuel 1 0 a buff t1 h1 (by omega) (by omega)
  unfold S25FL164K_Read_Data
  simp only []
  rw [Nat.mod_eq_of_lt (a := n) (by omega), ht1, ht2, Option.some_bind]
  refine ⟨_, rfl, ?_, ?_, ?_⟩
  · funext x
    simp only [last_dummy, SPI_Master, flash, Flash.receive, Nat.zero_add]
    by_cases hx : x = n - 1
    · subst hx
      have hn0 : 0 < n := h1
      simp [READ_DATA, hn0]
      rw [Nat.zero_add, Function.update_same]
    · rw [Function.update_noteq (by omega)]
      by_cases hr : x < n
      · rw [if_pos hr, if_pos (by omega)]
        simp
      · rw [if_neg hr, if_neg (by omega)]
  · simp [last_dummy, SPI_Master, flash]
  · simp [last_dummy, SPI_Master, flash, Flash.receive, READ_DATA]

end FlashRead

section FlashWrite

/-- A write is the sequence of its `Page_Program` calls: running the loop with any
callee is running that callee over the recorded calls, in order. -/
theorem write_data_loop_eq_fold {S : Type} (PP : Nat → Buf → Nat → S → Option S) :
    ∀ (fuel a : Nat) (b : Buf) (c : Int) (st : S),
      Write_Data_loop PP fuel a b c st =
        (Write_Data_loop record_call fuel a b c []).bind fun calls =>
          calls.foldlM (fun s x => PP x.address x.buff x.byte_count s) st := by
  intro fuel
  induction fuel with
  | zero => intro a b c st; rfl
  | succ fuel ih =>
    intro a b c st
    rw [loop_record_succ, Write_Data_loop]
    by_cases hc : 0 < c
    · have hc' : c > 0 := hc
      simp only [hc, hc', if_true, partial_page_size_eq]
      rw [tr_size_eq c _ hc (by omega)]
      simp only [ih]
      cases h1 : PP a b (min c.toNat (256 - a % 256)) st <;>
        cases h2 : Write_Data_loop record_call fuel ((a + (256 - a % 256)) % 2 ^ 32) b
          (c - ((256 - a % 256 : Nat) : Int)) [] <;>
        simp [h1]
    · have hc' : ¬ c > 0 := hc
      simp [hc, hc']

theorem loop_record_aligned (b : Buf) :
    ∀ (k fuel a : Nat), a % 256 = 0 → a + 256 * k ≤ 2 ^ 32 → k < fuel →
      Write_Data_loop record_call fuel a b ((256 * k : Nat) : Int) [] =
        some ((List.range k).map fun j => ⟨a + 256 * j, b, 256⟩) := by
  intro k
  induction k with
  | zero =>
    intro fuel a _ _ hf
    obtain ⟨f, rfl⟩ : ∃ f, fuel = f + 1 := ⟨fuel - 1, by omega⟩
    rw [loop_record_succ, if_neg (by omega)]
    rfl
  | succ k ih =>
    intro fuel a ha hle hf
    obtain ⟨f, rfl⟩ : ∃ f, fuel = f + 1 := ⟨fuel - 1, by omega⟩
    rw [loop_record_succ, if_pos (by omega)]
    have e1 : ((256 * (k + 1) : Nat) : Int) - ((256 - a % 256 : Nat) : Int) = ((256 * k : Nat) : Int) := by
      omega
    have e2 : min ((256 * (k + 1) : Nat) : Int).toNat (256 - a % 256) = 256 := by omega
    rw [e1, e2, ih f _ (by omega) (by omega) (by omega), Option.map_some',
      List.range_succ_eq_map, List.map_cons, List.map_map]
    congr 2
    rcases Nat.eq_zero_or_pos k with hk | hk
    · subst hk
      rfl
    · have e3 : (a + (256 - a % 256)) % 2 ^ 32 = a + 256 := by omega
      rw [e3]
      apply List.map_congr_left
      intro j _
      simp only [Function.comp, Nat.succ_eq_add_one]
      congr 1
      omega

theorem sector_write_calls (fuel s : Nat) (b : Buf) (hs : s % 256 = 0) (hle : s + 4096 ≤ 2 ^ 32)
    (hf : 16 < fuel) :
    Write_Data_calls fuel s b SECTOR_SIZE =
      some ((List.range 16).map fun j => ⟨s + 256 * j, b, 256⟩) := by
  unfold Write_Data_calls S25FL164K_Write_Data_with
  rw [toInt32_of_lt SECTOR_SIZE (by decide)]
  exact loop_record_aligned b 16 fuel s hs (by omega) hf

theorem flash_program_pages (fuel : Nat) (b : Buf) (hf : 256 ≤ fuel) :
    ∀ (k s : Nat) (m : Nat → Nat) (op0 addr0 : Nat) (t : List Xfer), s % 256 = 0 →
      s + 256 * k ≤ 2 ^ 24 →
      ∃ st', ((List.range k).map fun j => (⟨s + 256 * j, b, 256⟩ : ProgramCall)).foldlM
          (fun st c => S25FL164K_Page_Program flash fuel c.address c.buff c.byte_count st)
          ⟨⟨m, op0, 0, addr0⟩, t⟩ = some st' ∧
        st'.dev.n = 0 ∧
        st'.dev.mem = fun x =>
          if s ≤ x ∧ x < s + 256 * k then m x &&& (b ((x - s) % 256) % 256) else m x := by
  intro k
  induction k with
  | zero =>
    intro s m op0 addr0 t _ _
    refine ⟨_, rfl, rfl, ?_⟩
    funext x
    rw [if_neg (by omega)]
  | succ k ih =>
    intro s m op0 addr0 t hs hle
    obtain ⟨st1, h1, hn1, hm1⟩ := ih s m op0 addr0 t hs (by omega)
    obtain ⟨⟨m1, op1, n1, addr1⟩, t1⟩ := st1
    simp only at hn1 hm1
    subst hn1
    obtain ⟨st2, h2, hn2, hm2⟩ := flash_page_program fuel (s + 256 * k) 256 b m1 op1 addr1 t1
      (by norm_num) (by omega) (by omega) hf
    refine ⟨st2, ?_, hn2, ?_⟩
    · rw [List.range_succ, List.map_append, List.foldlM_append, h1]
      simpa using h2
    · rw [hm2, hm1]
      funext x
      beta_reduce
      by_cases hx : s + 256 * k ≤ x ∧ x < s + 256 * k + 256
      · have e : (x - s) % 256 = x - (s + 256 * k) := by omega
        have h3 : ¬ (s ≤ x ∧ x < s + 256 * k) := by omega
        have h4 : s ≤ x ∧ x < s + 256 * (k + 1) := by omega
        rw [if_pos hx, if_neg h3, if_pos h4, e]
      · rw [if_neg hx]
        by_cases hr : s ≤ x ∧ x < s + 256 * k
        · have h4 : s ≤ x ∧ x < s + 256 * (k + 1) := by omega
          rw [if_pos hr, if_pos h4]
        · have h4 : ¬ (s ≤ x ∧ x < s + 256 * (k + 1)) := by omega
          rw [if_neg hr, if_neg h4]

end FlashWrite

section FlashModify

/-- The function `S25FL164K_Modify_Sector_Data` on the flash model, for a patch inside one sector
of the array: the call returns, bytes outside the sector are unchanged, and byte `j`
of the sector ends up holding byte `j mod 256` of the patched sector image: all
sixteen pages of the sector receive the first page of the image. -/
theorem flash_modify_sector (fuel : Nat) (mod_data buff : Buf) (m : Nat → Nat) (op0 addr0 : Nat)
    (t : List Xfer) (address byte_count : Nat) (ha : address < MAIN_FLASH_SIZE)
    (hin : address % SECTOR_SIZE + byte_count ≤ SECTOR_SIZE) (hf : SECTOR_SIZE < fuel) :
    ∃ r, S25FL164K_Modify_Sector_Data flash fuel mod_data address buff byte_count
        ⟨⟨m, op0, 0, addr0⟩, t⟩ = some r ∧
      (∀ j, j < SECTOR_SIZE →
        r.2.dev.mem (address - address % SECTOR_SIZE + j) =
          patched_image m address buff byte_count (j % 256) % 256) ∧
      (∀ x, x / SECTOR_SIZE ≠ address / SECTOR_SIZE → r.2.dev.mem x = m x) := by
  have hM : MAIN_FLASH_SIZE = 8388608 := rfl
  have hS : SECTOR_SIZE = 4096 := rfl
  rw [hS] at hin hf ⊢
  rw [hM] at ha
  have hmask : address &&& SECTOR_START_ADDR_MASK = address - address % 4096 :=
    sector_mask_eq address (by omega)
  obtain ⟨r1, hr1, hbuf, hn1, hm1⟩ := flash_read_data fuel (address - address % 4096) 4096 mod_data
    m op0 addr0 t (by norm_num) (by norm_num) (by omega) (by omega)
  obtain ⟨b1, ⟨⟨m1, op1, n1, addr1⟩, t1⟩⟩ := r1
  simp only at hbuf hn1 hm1
  subst hn1 hm1 hbuf
  have hpatch := patch_loop_eq buff byte_count (by omega) fuel 0
    (address - (address - address % 4096))
    (fun x => if x < 4096 then m1 (address - address % 4096 + x) % 256 else mod_data x)
    (Nat.zero_le _) (by omega) (by omega)
  obtain ⟨md, hmd⟩ : ∃ md : Buf, md = fun x =>
      if address - (address - address % 4096) ≤ x ∧
        x < address - (address - address % 4096) + (byte_count - 0) then
        buff (0 + (x - (address - (address - address % 4096))))
      else (fun x => if x < 4096 then m1 (address - address % 4096 + x) % 256 else mod_data x) x :=
    ⟨_, rfl⟩
  rw [← hmd] at hpatch
  obtain ⟨st2, hst2, hn2, hm2⟩ := flash_erase_sector fuel (address - address % 4096) m1 op1 addr1 t1
    (by omega) (by omega)
  obtain ⟨⟨m2, op2, n2, addr2⟩, t2⟩ := st2
  simp only at hn2 hm2
  subst hn2
  obtain ⟨st3, hst3, _, hm3⟩ := flash_program_pages fuel
    md
    (by omega) 16 (address - address % 4096) m2 op2 addr2 t2 (by omega) (by omega)
  have hwrite : S25FL164K_Write_Data flash fuel (address - address % 4096)
      md
      SECTOR_SIZE ⟨⟨m2, op2, 0, addr2⟩, t2⟩ = some st3 := by
    have hc := sector_write_calls fuel (address - address % 4096)
      md
      (by omega) (by omega) (by omega)
    unfold Write_Data_calls S25FL164K_Write_Data_with at hc
    unfold S25FL164K_Write_Data S25FL164K_Write_Data_with
    simp only [] at hc ⊢
    rw [write_data_loop_eq_fold, hc, Option.some_bind]
    exact hst3
  refine ⟨(md, st3), ?_, ?_, ?_⟩
  · unfold S25FL164K_Modify_Sector_Data
    simp only []
    rw [hmask, hr1, Option.some_bind]
    simp only []
    rw [Nat.mod_eq_of_lt (a := byte_count) (by omega), hpatch, Option.some_bind, hst2,
      Option.some_bind]
    simp only []
    rw [hwrite, Option.some_bind]
  · intro j hj
    simp only [hm3, hm2]
    have h1 : address - address % 4096 ≤ address - address % 4096 + j ∧
        address - address % 4096 + j < address - address % 4096 + 256 * 16 := by omega
    have h2 : (address - address % 4096 + j) / 4096 = (address - address % 4096) / 4096 := by
      omega
    have h3 : (address - address % 4096 + j - (address - address % 4096)) % 256 = j % 256 := by
      omega
    have h4 : j % 256 < 4096 := by omega
    have h5 : address - (address - address % 4096) = address % 4096 := by omega
    rw [if_pos h1, if_pos h2, h3, hmd]
    beta_reduce
    rw [if_pos h4, h5]
    have h255 : ∀ v : Nat, 255 &&& (v % 256) = v % 256 := by
      intro v
      rw [Nat.and_comm]
      have := Nat.and_pow_two_sub_one_eq_mod (v % 256) 8
      simpa using this
    rw [h255]
    unfold patched_image
    rw [hS]
    simp only [Nat.sub_zero, Nat.zero_add]
  · intro x hx
    simp only [hm3, hm2]
    have h1 : ¬ (address - address % 4096 ≤ x ∧ x < address - address % 4096 + 256 * 16) := by
      omega
    have h2 : ¬ (x / 4096 = (address - address % 4096) / 4096) := by omega
    rw [if_neg h1, if_neg h2]

end FlashModify

section FlashScenarios

/-- C2 (as the code behaves). On the flash model erased to `0xFF` everywhere,
`S25FL164K_Write_Data(0x0FFE, [0xAA,0xBB,0xCC,0xDD], 4)` followed by
`S25FL164K_Read_Data(0x0FFE, out, 4)` returns and leaves `out = [0xAA,0xBB,0xAA,0xBB]`,
not the data written. -/
theorem write_then_read_0FFE :
    ((S25FL164K_Write_Data flash 4 0x0FFE (bufOf [0xAA, 0xBB, 0xCC, 0xDD]) 4
        (Flash.holding fun _ => 0xFF)).bind fun st =>
      (S25FL164K_Read_Data flash 4 0x0FFE (fun _ => 0) 4 st).map fun r =>
        (List.range 4).map r.1) =
    some [0xAA, 0xBB, 0xAA, 0xBB] := by
  decide!

/-- C3 (as the code behaves). On the flash model holding `0x11` at `0x2100` and `0xFF`
elsewhere, `S25FL164K_Modify_Sector_Data(0x2001, [0x55], 1)` returns and leaves
`0x55` at `0x2001`, but also `0xFF` at `0x2100` (it was `0x11`) and `0x55` at `0x2101`
(it was `0xFF`): bytes of the sector outside the patched range are not preserved. -/
theorem modify_sector_2001_clobbers :
    ∃ r, S25FL164K_Modify_Sector_Data flash 4097 (fun _ => 0) 0x2001 (bufOf [0x55]) 1
        (Flash.holding sample_contents) = some r ∧
      r.2.dev.mem 0x2001 = 0x55 ∧
      (sample_contents 0x2100 = 0x11 ∧ r.2.dev.mem 0x2100 = 0xFF) ∧
      (sample_contents 0x2101 = 0xFF ∧ r.2.dev.mem 0x2101 = 0x55) := by
  obtain ⟨r, hr, hin, _⟩ := flash_modify_sector 4097 (fun _ => 0) (bufOf [0x55]) sample_contents
    0 0 [] 0x2001 1 (by decide) (by decide) (by decide)
  refine ⟨r, hr, ?_, ⟨by decide, ?_⟩, ⟨by decide, ?_⟩⟩
  · have h := hin 0x001 (by decide)
    have e : patched_image sample_contents 0x2001 (bufOf [0x55]) 1 (0x001 % 256) % 256 = 0x55 := by
      decide
    rw [e] at h
    exact h
  · have h := hin 0x100 (by decide)
    have e : patched_image sample_contents 0x2001 (bufOf [0x55]) 1 (0x100 % 256) % 256 = 0xFF := by
      decide
    rw [e] at h
    exact h
  · have h := hin 0x101 (by decide)
    have e : patched_image sample_contents 0x2001 (bufOf [0x55]) 1 (0x101 % 256) % 256 = 0x55 := by
      decide
    rw [e] at h
    exact h

end FlashScenarios

section ExactTraces

variable {σ : Type}

theorem emit_trace_eq (D : Device σ) (l : List (Nat × Bool)) (st : Bus σ) :
    (emit D l st).trace = st.trace ++ emit_seg D l st.dev := by
  induction l generalizing st with
  | nil => simp [emit, emit_seg]
  | cons c l ih =>
    rw [emit, ih]
    simp [SPI_Master, emit_seg]

theorem emit_seg_wire (D : Device σ) (l : List (Nat × Bool)) (s : σ) :
    (emit_seg D l s).map Xfer.wire = l.map fun c => (c.1 % 256, c.2) := by
  induction l generalizing s with
  | nil => rfl
  | cons c l ih => simp [emit_seg, ih, Xfer.wire]

theorem emit_seg_length (D : Device σ) (l : List (Nat × Bool)) (s : σ) :
    (emit_seg D l s).length = l.length := by
  induction l generalizing s with
  | nil => rfl
  | cons c l ih => simp [emit_seg, ih]

theorem emit_seg_append (D : Device σ) (l1 l2 : List (Nat × Bool)) (s : σ) :
    emit_seg D (l1 ++ l2) s = emit_seg D l1 s ++ emit_seg D l2 (emit D l1 ⟨s, []⟩).dev := by
  induction l1 generalizing s with
  | nil => rfl
  | cons c l ih =>
    rw [List.cons_append, emit_seg, ih, emit, emit_dev_eq D l (SPI_Master D c.1 c.2 ⟨s, []⟩).2]
    rfl

theorem stores_append (buff : Buf) (w1 w2 : List (Nat × Nat)) :
    stores buff (w1 ++ w2) = stores (stores buff w1) w2 := by
  simp [stores]

theorem stores_enumFrom (vals : List Nat) :
    ∀ (buff : Buf) (p x : Nat),
      stores buff (List.enumFrom p vals) x =
        if p ≤ x ∧ x < p + vals.length then vals.getD (x - p) 0 else buff x := by
  induction vals with
  | nil =>
    intro buff p x
    rw [if_neg (by simp)]
    rfl
  | cons v vs ih =>
    intro buff p x
    have e : stores buff (List.enumFrom p (v :: vs)) =
        stores (Function.update buff p v) (List.enumFrom (p + 1) vs) := rfl
    rw [e, ih]
    by_cases hx : x = p
    · subst hx
      have h1 : ¬ (x + 1 ≤ x ∧ x < x + 1 + vs.length) := by omega
      have h2 : x ≤ x ∧ x < x + (v :: vs).length := by simp
      rw [if_neg h1, if_pos h2]
      simp
    · by_cases hr : p ≤ x ∧ x < p + (v :: vs).length
      · have hl : (v :: vs).length = vs.length + 1 := rfl
        have h1 : p + 1 ≤ x ∧ x < p + 1 + vs.length := by omega
        have e2 : x - p = (x - (p + 1)) + 1 := by omega
        rw [if_pos hr, if_pos h1, e2]
        rfl
      · have hl : (v :: vs).length = vs.length + 1 := rfl
        have h1 : ¬ (p + 1 ≤ x ∧ x < p + 1 + vs.length) := by omega
        rw [if_neg hr, if_neg h1, Function.update_noteq hx]

/-- The hold loop of the program commands, for any 16-bit bound: it returns and has
sent `buff[p ..]` one byte per round, all holding chip-select. -/
theorem send_loop_any (D : Device σ) (buff : Buf) (n : Nat) (hn : n < 65536) :
    ∀ (fuel i p : Nat) (st : Bus σ), n - i < fuel →
      send_loop D fuel i n buff p st =
        some (p + (n - i), emit D ((List.range (n - i)).map fun k => (buff (p + k), true)) st) := by
  intro fuel i p st hf
  by_cases hi : i ≤ n
  · exact send_loop_eq D buff n hn fuel i p st hi hf
  · obtain ⟨f, rfl⟩ : ∃ f, fuel = f + 1 := ⟨fuel - 1, by omega⟩
    have e : n - i = 0 := by omega
    rw [send_loop, if_neg (by omega), e]
    rfl

/-- The hold loop of the read commands, for any bound below `2^16`: it returns, has
sent `n - i` dummy bytes holding chip-select and has stored each answer, reduced to
a byte, through the moving pointer. -/
theorem recv_loop_any (D : Device σ) (n : Nat) (hn : n < 65536) :
    ∀ (fuel i p : Nat) (buff : Buf) (st : Bus σ), n - i < fuel →
      recv_loop D fuel i n buff p st =
        some (stores buff (List.enumFrom p
            ((emit_seg D (List.replicate (n - i) (SEND_FF, true)) st.dev).map
              fun x => x.resp % 256)),
          p + (n - i), emit D (List.replicate (n - i) (SEND_FF, true)) st) := by
  intro fuel
  induction fuel with
  | zero => intro i p buff st h; omega
  | succ fuel ih =>
    intro i p buff st hf
    rw [recv_loop]
    by_cases hlt : i < n
    · rw [if_pos hlt, Nat.mod_eq_of_lt (a := i + 1) (by omega)]
      simp only []
      rw [ih (i + 1) (p + 1) _ _ (by omega)]
      have e : n - i = (n - (i + 1)) + 1 := by omega
      have hp : p + 1 + (n - (i + 1)) = p + ((n - (i + 1)) + 1) := by omega
      rw [e, List.replicate_succ, hp]
      rfl
    · rw [if_neg hlt]
      have e : n - i = 0 := by omega
      rw [e]
      rfl

end ExactTraces
section CommandEquations

variable {σ : Type}

theorem data_cmds_last (data : Nat → Nat) (m : Nat) (hm : 1 ≤ m) :
    data_cmds data m = (List.range (m - 1)).map (fun k => (data k, true)) ++ [(data (m - 1), false)] :=
  range_map_last data m hm

theorem data_cmds_wire (data : Nat → Nat) (n : Nat) :
    (data_cmds data n).map (fun c => (c.1 % 256, c.2)) = wire_data data n := by
  simp [data_cmds, wire_data, Function.comp_def]

theorem header_cmds_wire (op a : Nat) (hop : op < 256) :
    (header_cmds op a).map (fun c => (c.1 % 256, c.2)) = (op, true) :: wire_address a true := by
  simp [header_cmds, wire_address, Nat.shiftRight_eq_div_pow, Nat.mod_eq_of_lt hop]

theorem entry_cmds_wire : entry_cmds.map (fun c => (c.1 % 256, c.2)) = wire_entry := by
  decide

theorem header_state (D : Device σ) (op a : Nat) (st : Bus σ) :
    (SPI_CMD_FLASH D a (SPI_CMD_FLASH D (a >>> 8) (SPI_CMD_FLASH D (a >>> 16)
      (SPI_CMD_FLASH D op st).2).2).2).2 = emit D (header_cmds op a) st := rfl

/-- Data loop and last data byte of the program commands, after the header. -/
theorem send_body_eq (D : Device σ) (fuel n : Nat) (buff : Buf) (st : Bus σ) (hn : n < 65536)
    (hf : max 1 n ≤ fuel) :
    ((send_loop D fuel 1 n buff 0 st).bind fun r =>
      some (SPI_CMD_LAST_FLASH D (buff r.1 % 256) r.2).2) =
      some (emit D (data_cmds buff (max 1 n)) st) := by
  rw [send_loop_any D buff n hn fuel 1 0 st (by omega), Option.some_bind,
    data_cmds_last buff (max 1 n) (by omega), emit_append]
  have e : max 1 n - 1 = n - 1 := by omega
  simp only [Nat.zero_add, e]
  rw [last_byte]
  rfl

/-- Receive loop and last received byte of the read commands, after the header. -/
theorem recv_body_eq (D : Device σ) (fuel n : Nat) (buff : Buf) (st : Bus σ) (hn : n < 65536)
    (hf : max 1 n ≤ fuel) :
    ((recv_loop D fuel 1 n buff 0 st).bind fun r =>
      let l := SPI_CMD_LAST_FLASH D SEND_FF r.2.2
      some (Function.update r.1 r.2.1 (l.1 % 256), l.2)) =
      some (stores buff (List.enumFrom 0
          ((emit_seg D (data_cmds (fun _ => SEND_FF) (max 1 n)) st.dev).map fun x => x.resp % 256)),
        emit D (data_cmds (fun _ => SEND_FF) (max 1 n)) st) := by
  have hrep : (List.range (max 1 n - 1)).map (fun _ => (SEND_FF, true)) =
      List.replicate (n - 1) (SEND_FF, true) := by
    have e : max 1 n - 1 = n - 1 := by omega
    rw [e]
    apply List.ext_getElem
    · simp
    · intro k h1 h2
      simp
  rw [recv_loop_any D n hn fuel 1 0 buff st (by omega), Option.some_bind,
    data_cmds_last (fun _ => SEND_FF) (max 1 n) (by omega), hrep, emit_append, emit_seg_append,
    List.map_append, List.enumFrom_append, stores_append,
    ← emit_dev_eq D (List.replicate (n - 1) (SEND_FF, true)) st]
  simp only [List.length_map, emit_seg_length, List.length_replicate, Nat.zero_add]
  rfl

end CommandEquations
section CommandShapes

variable {σ : Type}

theorem enable_and_wait_idle (D : Device σ) (fuel : Nat) (st : Bus σ) (hf : 0 < fuel)
    (h : NeverBusy D st.dev) : enable_and_wait D fuel st = some (emit D entry_cmds st) := by
  obtain ⟨f, rfl⟩ : ∃ f, fuel = f + 1 := ⟨fuel - 1, by omega⟩
  exact enable_then_wait D f st h

theorem page_program_eq (D : Device σ) (fuel a n : Nat) (buff : Buf) (st : Bus σ)
    (hf : max 1 (n % 65536) ≤ fuel) :
    S25FL164K_Page_Program D fuel a buff n st =
      (enable_and_wait D fuel st).map
        (emit D (header_cmds PAGE_PROGRAM a ++ data_cmds buff (max 1 (n % 65536)))) := by
  unfold S25FL164K_Page_Program enable_and_wait
  simp only [header_state, send_body_eq D fuel (n % 65536) buff _ (Nat.mod_lt _ (by norm_num)) hf,
    ← emit_append]
  cases S25FL164K_Write_Enable D fuel st with
  | none => rfl
  | some s1 =>
    simp only [Option.some_bind]
    cases wait_while_busy D fuel s1 <;> rfl

theorem write_sec_reg_eq (D : Device σ) (fuel a n : Nat) (buff : Buf) (st : Bus σ)
    (hf : max 1 (n % 65536) ≤ fuel) :
    S25FL164K_Write_Sec_Reg D fuel a buff n st =
      (enable_and_wait D fuel st).map
        (emit D (header_cmds PROGRAM_SEC_REG a ++ data_cmds buff (max 1 (n % 65536)))) := by
  unfold S25FL164K_Write_Sec_Reg enable_and_wait
  simp only [header_state, send_body_eq D fuel (n % 65536) buff _ (Nat.mod_lt _ (by norm_num)) hf,
    ← emit_append]
  cases S25FL164K_Write_Enable D fuel st with
  | none => rfl
  | some s1 =>
    simp only [Option.some_bind]
    cases wait_while_busy D fuel s1 <;> rfl

theorem erase_sec_reg_eq (D : Device σ) (fuel a : Nat) (st : Bus σ) :
    S25FL164K_Erase_Sec_Reg D fuel a st =
      (enable_and_wait D fuel st).map
        (emit D [(ERASE_SEC_REG, true), (a >>> 16, true), (a >>> 8, true),
          (a, decide (2 ^ 31 ≤ a % 2 ^ 32))]) := by
  unfold S25FL164K_Erase_Sec_Reg enable_and_wait
  cases S25FL164K_Write_Enable D fuel st with
  | none => rfl
  | some s1 =>
    simp only [Option.some_bind]
    cases wait_while_busy D fuel s1 <;> rfl

theorem read_data_eq (D : Device σ) (fuel a n : Nat) (buff : Buf) (st : Bus σ)
    (hn : n % 2 ^ 32 < 65536) (hf : max 1 (n % 2 ^ 32) ≤ fuel) :
    S25FL164K_Read_Data D fuel a buff n st =
      some (stores buff (List.enumFrom 0
          ((emit_seg D (data_cmds (fun _ => SEND_FF) (max 1 (n % 2 ^ 32)))
            (emit D (header_cmds READ_DATA a) st).dev).map fun x => x.resp % 256)),
        emit D (header_cmds READ_DATA a ++ data_cmds (fun _ => SEND_FF) (max 1 (n % 2 ^ 32))) st) := by
  unfold S25FL164K_Read_Data
  simp only [header_state, recv_body_eq D fuel (n % 2 ^ 32) buff _ hn hf, ← emit_append]

theorem read_sec_reg_eq (D : Device σ) (fuel a n : Nat) (buff : Buf) (st : Bus σ)
    (hf : max 1 (n % 65536) ≤ fuel) :
    S25FL164K_Read_Sec_Reg D fuel a buff n st =
      some (stores buff (List.enumFrom 0
          ((emit_seg D (data_cmds (fun _ => SEND_FF) (max 1 (n % 65536)))
            (emit D (header_cmds READ_SEC_REG a ++ [(DUMMY_BYTE, true)]) st).dev).map
              fun x => x.resp % 256)),
        emit D ((header_cmds READ_SEC_REG a ++ [(DUMMY_BYTE, true)]) ++
          data_cmds (fun _ => SEND_FF) (max 1 (n % 65536))) st) := by
  have hs : (SPI_CMD_FLASH D DUMMY_BYTE (emit D (header_cmds READ_SEC_REG a) st)).2 =
      emit D (header_cmds READ_SEC_REG a ++ [(DUMMY_BYTE, true)]) st := by
    rw [emit_append]; rfl
  unfold S25FL164K_Read_Sec_Reg
  simp only [header_state, hs,
    recv_body_eq D fuel (n % 65536) buff _ (Nat.mod_lt _ (by norm_num)) hf, ← emit_append]

/-- What a read command leaves behind: the transactions of header and data, and a
buffer holding the answers to the data transactions, reduced to bytes, in order. -/
theorem read_frame_spec (D : Device σ) (hdr data : List (Nat × Bool)) (buff : Buf) (st : Bus σ) :
    ∃ seg, (emit D (hdr ++ data) st).trace = st.trace ++ seg ∧
      seg.map Xfer.wire = (hdr ++ data).map (fun c => (c.1 % 256, c.2)) ∧
      (∀ k, k < data.length → ∃ x, seg[hdr.length + k]? = some x ∧
        stores buff (List.enumFrom 0
          ((emit_seg D data (emit D hdr st).dev).map fun x => x.resp % 256)) k = x.resp % 256) ∧
      (∀ k, data.length ≤ k →
        stores buff (List.enumFrom 0
          ((emit_seg D data (emit D hdr st).dev).map fun x => x.resp % 256)) k = buff k) := by
  refine ⟨emit_seg D (hdr ++ data) st.dev, emit_trace_eq D _ st, emit_seg_wire D _ _, ?_, ?_⟩
  · intro k hk
    rw [emit_seg_append, ← emit_dev_eq D hdr st]
    have hlen : (emit_seg D data (emit D hdr st).dev).length = data.length := emit_seg_length _ _ _
    have hk' : k < (emit_seg D data (emit D hdr st).dev).length := by omega
    refine ⟨(emit_seg D data (emit D hdr st).dev)[k], ?_, ?_⟩
    · rw [List.getElem?_append_right (by rw [emit_seg_length]; omega), emit_seg_length,
        Nat.add_sub_cancel_left]
      exact List.getElem?_eq_getElem hk'
    · rw [stores_enumFrom, if_pos (by simp [hlen]; omega)]
      simp [List.getD_eq_getElem?_getD, List.getElem?_eq_getElem hk']
  · intro k hk
    rw [stores_enumFrom, if_neg (by simp [emit_seg_length]; omega)]

end CommandShapes

section SmallClaims

variable {σ : Type}

theorem block_mask_eq (a : Nat) (ha : a < 2 ^ 24) :
    a &&& BLOCK_START_ADDR_MASK = a - a % 65536 := by
  have hm : BLOCK_START_ADDR_MASK = (2 ^ 8 - 1) <<< 16 := by decide
  have hr : a - a % 65536 = (a >>> 16) <<< 16 := by
    rw [Nat.shiftLeft_eq, Nat.shiftRight_eq_div_pow]
    omega
  rw [hm, hr]
  apply Nat.eq_of_testBit_eq
  intro i
  rw [Nat.testBit_and, Nat.testBit_shiftLeft, Nat.testBit_shiftLeft, Nat.testBit_shiftRight,
    Nat.testBit_two_pow_sub_one]
  by_cases h16 : 16 ≤ i
  · have e : 16 + (i - 16) = i := by omega
    rw [e]
    by_cases h24 : i < 24
    · have : i - 16 < 8 := by omega
      simp [h16, this]
    · have hlt : a < 2 ^ i :=
        Nat.lt_of_lt_of_le ha (Nat.pow_le_pow_right (by norm_num) (by omega))
      rw [Nat.testBit_lt_two_pow hlt]
      simp
  · simp [h16]

/-- C11. `S25FL164K_Read_BUSY_Bit` performs exactly two transactions, opcode `0x05`
with chip-select held and then one more byte with chip-select released, and for the
status byte `s` the device answers to the second one it returns `s & 1`: `1` when
bit 0 of `s` is set and `0` when it is clear, whatever the other bits are. -/
theorem read_busy_bit_frame (D : Device σ) (st : Bus σ) :
    ∃ r0 s, (S25FL164K_Read_BUSY_Bit D st).2.trace =
        st.trace ++ [⟨0x05, true, r0⟩, ⟨0x01, false, s⟩] ∧
      s = (D (D st.dev 0x05 true).2 0x01 false).1 ∧
      (S25FL164K_Read_BUSY_Bit D st).1 = s % 256 &&& 1 ∧
      (S25FL164K_Read_BUSY_Bit D st).1 = s % 2 ∧
      ((S25FL164K_Read_BUSY_Bit D st).1 = 1 ↔ s.testBit 0 = true) ∧
      ((S25FL164K_Read_BUSY_Bit D st).1 = 0 ↔ s.testBit 0 = false) := by
  have hv : (S25FL164K_Read_BUSY_Bit D st).1 =
      (D (D st.dev 0x05 true).2 0x01 false).1 % 256 &&& 1 := rfl
  have hmod : ∀ r : Nat, r % 256 &&& 1 = r % 2 := by
    intro r
    rw [Nat.and_one_is_mod]
    omega
  have hv' := hv
  rw [hmod] at hv'
  refine ⟨(D st.dev 0x05 true).1, (D (D st.dev 0x05 true).2 0x01 false).1, ?_, rfl, hv, hv',
    ?_, ?_⟩
  · simp [S25FL164K_Read_BUSY_Bit, SPI_CMD_FLASH, SPI_CMD_LAST_FLASH, SPI_Master,
      READ_STATUS_REGISTER_1, BUSY_BIT_MASK]
  · rw [hv', Nat.testBit_zero]
    simp
  · rw [hv', Nat.testBit_zero]
    simp

/-- C16. For every address inside the array, masking with `SECTOR_START_ADDR_MASK`
(`BLOCK_START_ADDR_MASK`) gives `address - address mod SECTOR_SIZE`
(`address - address mod BLOCK_SIZE`); this is a multiple `s` of the size with
`s <= address < s + size`, it is the only one, and the offset of the address inside
its sector is below `SECTOR_SIZE`. -/
theorem mask_is_floor (address : Nat) (ha : address < MAIN_FLASH_SIZE) :
    address &&& SECTOR_START_ADDR_MASK = address - address % SECTOR_SIZE ∧
    address &&& BLOCK_START_ADDR_MASK = address - address % BLOCK_SIZE ∧
    ((address &&& SECTOR_START_ADDR_MASK) % SECTOR_SIZE = 0 ∧
      address &&& SECTOR_START_ADDR_MASK ≤ address ∧
      address < (address &&& SECTOR_START_ADDR_MASK) + SECTOR_SIZE) ∧
    (∀ s, s % SECTOR_SIZE = 0 → s ≤ address → address < s + SECTOR_SIZE →
      s = address &&& SECTOR_START_ADDR_MASK) ∧
    ((address &&& BLOCK_START_ADDR_MASK) % BLOCK_SIZE = 0 ∧
      address &&& BLOCK_START_ADDR_MASK ≤ address ∧
      address < (address &&& BLOCK_START_ADDR_MASK) + BLOCK_SIZE) ∧
    (∀ s, s % BLOCK_SIZE = 0 → s ≤ address → address < s + BLOCK_SIZE →
      s = address &&& BLOCK_START_ADDR_MASK) ∧
    address - (address &&& SECTOR_START_ADDR_MASK) < SECTOR_SIZE := by
  have hM : MAIN_FLASH_SIZE = 8388608 := rfl
  have hS : SECTOR_SIZE = 4096 := rfl
  have hB : BLOCK_SIZE = 65536 := rfl
  rw [hM] at ha
  rw [sector_mask_eq address (by omega), block_mask_eq address (by omega), hS, hB]
  refine ⟨rfl, rfl, ⟨?_, ?_, ?_⟩, ?_, ⟨?_, ?_, ?_⟩, ?_, ?_⟩ <;> omega

theorem mask_is_floor_witness :
    0x2001 &&& SECTOR_START_ADDR_MASK = 0x2001 - 0x2001 % SECTOR_SIZE ∧
    0x2001 &&& BLOCK_START_ADDR_MASK = 0x2001 - 0x2001 % BLOCK_SIZE ∧
    ((0x2001 &&& SECTOR_START_ADDR_MASK) % SECTOR_SIZE = 0 ∧
      0x2001 &&& SECTOR_START_ADDR_MASK ≤ 0x2001 ∧
      0x2001 < (0x2001 &&& SECTOR_START_ADDR_MASK) + SECTOR_SIZE) ∧
    (∀ s, s % SECTOR_SIZE = 0 → s ≤ 0x2001 → 0x2001 < s + SECTOR_SIZE →
      s = 0x2001 &&& SECTOR_START_ADDR_MASK) ∧
    ((0x2001 &&& BLOCK_START_ADDR_MASK) % BLOCK_SIZE = 0 ∧
      0x2001 &&& BLOCK_START_ADDR_MASK ≤ 0x2001 ∧
      0x2001 < (0x2001 &&& BLOCK_START_ADDR_MASK) + BLOCK_SIZE) ∧
    (∀ s, s % BLOCK_SIZE = 0 → s ≤ 0x2001 → 0x2001 < s + BLOCK_SIZE →
      s = 0x2001 &&& BLOCK_START_ADDR_MASK) ∧
    0x2001 - (0x2001 &&& SECTOR_START_ADDR_MASK) < SECTOR_SIZE :=
  mask_is_floor 0x2001 (by decide)

end SmallClaims

section DataFrames

variable {σ : Type}

theorem emit_frame (D : Device σ) (l : List (Nat × Bool)) (st : Bus σ) (w : List (Nat × Bool))
    (hw : l.map (fun c => (c.1 % 256, c.2)) = w) :
    ∃ seg, (emit D l st).trace = st.trace ++ seg ∧ seg.map Xfer.wire = w := by
  obtain ⟨seg, h1, h2⟩ := emit_trace D l st
  exact ⟨seg, h1, h2.trans hw⟩

theorem program_frame (D : Device σ) (fuel op a n : Nat) (buff : Buf) (st : Bus σ)
    (f : Nat → Buf → Nat → Bus σ → Option (Bus σ)) (hop : op < 256)
    (hf : max 1 (n % 65536) ≤ fuel)
    (heq : f a buff n st = (enable_and_wait D fuel st).map
        (emit D (header_cmds op a ++ data_cmds buff (max 1 (n % 65536)))))
    (h : NeverBusy D st.dev) :
    ∃ st' seg, f a buff n st = some st' ∧ st'.trace = st.trace ++ seg ∧
      seg.map Xfer.wire =
        wire_entry ++ (op, true) :: wire_address a true ++ wire_data buff (max 1 (n % 65536)) := by
  rw [heq, enable_and_wait_idle D fuel st (by omega) h, Option.map_some', ← emit_append]
  obtain ⟨seg, h1, h2⟩ := emit_frame D
    (entry_cmds ++ (header_cmds op a ++ data_cmds buff (max 1 (n % 65536)))) st
    (wire_entry ++ (op, true) :: wire_address a true ++ wire_data buff (max 1 (n % 65536)))
    (by rw [List.map_append, List.map_append, entry_cmds_wire, header_cmds_wire op a hop,
      data_cmds_wire]; rfl)
  exact ⟨_, seg, rfl, h1, h2⟩

theorem erase_frame (D : Device σ) (fuel op a : Nat) (st : Bus σ)
    (f : Bus σ → Option (Bus σ)) (hop : op < 256) (hf : 0 < fuel)
    (heq : f st = (enable_and_wait D fuel st).map
        (emit D [(op, true), (a >>> 16, true), (a >>> 8, true), (a, false)]))
    (h : NeverBusy D st.dev) :
    ∃ st' seg, f st = some st' ∧ st'.trace = st.trace ++ seg ∧
      seg.map Xfer.wire = wire_entry ++ (op, true) :: wire_address a false := by
  rw [heq, enable_and_wait_idle D fuel st hf h, Option.map_some', ← emit_append]
  obtain ⟨seg, h1, h2⟩ := emit_frame D
    (entry_cmds ++ [(op, true), (a >>> 16, true), (a >>> 8, true), (a, false)]) st
    (wire_entry ++ (op, true) :: wire_address a false)
    (by rw [List.map_append, entry_cmds_wire]
        simp [wire_address, Nat.shiftRight_eq_div_pow, Nat.mod_eq_of_lt hop])
  exact ⟨_, seg, rfl, h1, h2⟩

theorem erase_sector_eq (D : Device σ) (fuel a : Nat) (st : Bus σ) :
    S25FL164K_Erase_Sector D fuel a st =
      (enable_and_wait D fuel st).map
        (emit D [(SECTOR_ERASE, true), ((a &&& SECTOR_START_ADDR_MASK) >>> 16, true),
          ((a &&& SECTOR_START_ADDR_MASK) >>> 8, true), (a &&& SECTOR_START_ADDR_MASK, false)]) := by
  unfold S25FL164K_Erase_Sector enable_and_wait
  simp only [last_sector]
  cases S25FL164K_Write_Enable D fuel st with
  | none => rfl
  | some s1 =>
    simp only [Option.some_bind]
    cases wait_while_busy D fuel s1 <;> rfl

theorem read_frame (D : Device σ) (hdr : List (Nat × Bool)) (m : Nat) (buff : Buf) (st : Bus σ)
    (w : List (Nat × Bool)) (hw : hdr.map (fun c => (c.1 % 256, c.2)) = w) :
    ∃ seg, (emit D (hdr ++ data_cmds (fun _ => SEND_FF) m) st).trace = st.trace ++ seg ∧
      seg.map Xfer.wire = w ++ wire_data (fun _ => 0xFF) m ∧
      (∀ k, k < m → ∃ x, seg[hdr.length + k]? = some x ∧
        stores buff (List.enumFrom 0
          ((emit_seg D (data_cmds (fun _ => SEND_FF) m) (emit D hdr st).dev).map
            fun x => x.resp % 256)) k = x.resp % 256) ∧
      (∀ k, m ≤ k →
        stores buff (List.enumFrom 0
          ((emit_seg D (data_cmds (fun _ => SEND_FF) m) (emit D hdr st).dev).map
            fun x => x.resp % 256)) k = buff k) := by
  obtain ⟨seg, h1, h2, h3, h4⟩ := read_frame_spec D hdr (data_cmds (fun _ => SEND_FF) m) buff st
  have hl : (data_cmds (fun _ => SEND_FF) m).length = m := by simp [data_cmds]
  rw [hl] at h3 h4
  refine ⟨seg, h1, ?_, h3, h4⟩
  rw [h2, List.map_append, hw, data_cmds_wire]

end DataFrames

section Framing

variable {σ : Type}

theorem preamble_nil : Preamble [] := ⟨[], rfl, by simp⟩

theorem preamble_append {p q : List Xfer} (hp : Preamble p) (hq : Preamble q) :
    Preamble (p ++ q) := by
  obtain ⟨fs, rfl, h1⟩ := hp
  obtain ⟨gs, rfl, h2⟩ := hq
  refine ⟨fs ++ gs, by simp, ?_⟩
  intro f hf
  rcases List.mem_append.mp hf with h | h
  · exact h1 f h
  · exact h2 f h

theorem preamble_poll (a r : Nat) : Preamble [⟨0x05, true, a⟩, ⟨0x01, false, r⟩] :=
  ⟨[[⟨0x05, true, a⟩, ⟨0x01, false, r⟩]], by simp, by
    intro f hf
    simp only [List.mem_singleton] at hf
    exact Or.inl ⟨a, r, hf⟩⟩

theorem preamble_enable (r : Nat) : Preamble [⟨0x06, false, r⟩] :=
  ⟨[[⟨0x06, false, r⟩]], by simp, by
    intro f hf
    simp only [List.mem_singleton] at hf
    exact Or.inr ⟨r, hf⟩⟩

theorem wait_preamble (D : Device σ) :
    ∀ (fuel : Nat) (st st' : Bus σ), wait_while_busy D fuel st = some st' →
      ∃ pre, st'.trace = st.trace ++ pre ∧ Preamble pre := by
  intro fuel
  induction fuel with
  | zero => intro st st' h; simp [wait_while_busy] at h
  | succ fuel ih =>
    intro st st' h
    rw [wait_while_busy] at h
    obtain ⟨a, r, ht, _⟩ := read_busy_trace D st
    split at h
    · obtain ⟨pre, hs, hp⟩ := ih _ _ h
      exact ⟨_ ++ pre, by rw [hs, ht, List.append_assoc],
        preamble_append (preamble_poll a r) hp⟩
    · cases h
      exact ⟨_, ht, preamble_poll a r⟩

theorem enable_and_wait_preamble (D : Device σ) (fuel : Nat) (st st' : Bus σ)
    (h : enable_and_wait D fuel st = some st') :
    ∃ pre, st'.trace = st.trace ++ pre ∧ Preamble pre := by
  simp only [enable_and_wait, S25FL164K_Write_Enable, Option.bind_eq_some] at h
  obtain ⟨st2, ⟨st1, h1, h2⟩, h3⟩ := h
  cases h2
  obtain ⟨p1, e1, q1⟩ := wait_preamble D fuel st st1 h1
  obtain ⟨p3, e3, q3⟩ := wait_preamble D fuel _ st' h3
  refine ⟨(p1 ++ [⟨0x06, false, (D st1.dev 0x06 false).1⟩]) ++ p3, ?_,
    preamble_append (preamble_append q1 (preamble_enable _)) q3⟩
  rw [e3]
  simp only [last_enable, SPI_Master, e1, List.append_assoc]
  rfl

theorem framed_single (op : Nat) : Framed op 1 [(op, false)] := by
  refine ⟨rfl, rfl, ?_⟩
  intro i c h
  rcases i with _ | i
  · simp at h
    subst h
    simp
  · simp at h

theorem framed_pair (op b : Nat) : Framed op 2 [(op, true), (b, false)] := by
  refine ⟨rfl, rfl, ?_⟩
  intro i c h
  rcases i with _ | _ | i
  · simp at h; subst h; simp
  · simp at h; subst h; simp
  · simp at h

theorem framed_address (op a : Nat) : Framed op 4 ((op, true) :: wire_address a false) := by
  refine ⟨rfl, rfl, ?_⟩
  intro i c h
  rcases i with _ | _ | _ | _ | i
  · simp at h; subst h; simp
  · simp [wire_address] at h; subst h; simp
  · simp [wire_address] at h; subst h; simp
  · simp [wire_address] at h; subst h; simp
  · simp [wire_address] at h

theorem wire_data_get (data : Nat → Nat) (m k : Nat) (c : Nat × Bool)
    (h : (wire_data data m)[k]? = some c) : k < m ∧ (c.2 = true ↔ k + 1 < m) := by
  unfold wire_data at h
  rw [List.getElem?_map] at h
  have hk : k < m := by
    by_contra hk
    rw [List.getElem?_eq_none (by simp; omega)] at h
    simp at h
  rw [List.getElem?_range hk] at h
  simp at h
  subst h
  simp [hk]

/-- Opcode, `pad` further held bytes and `m >= 1` data transactions form one command. -/
theorem framed_data (op : Nat) (mid : List (Nat × Bool)) (data : Nat → Nat) (m : Nat)
    (hm : 1 ≤ m) (hmid : ∀ c ∈ mid, c.2 = true) :
    Framed op (1 + mid.length + m) ((op, true) :: mid ++ wire_data data m) := by
  refine ⟨by simp [wire_data]; omega, rfl, ?_⟩
  intro i c h
  rcases i with _ | i
  · simp at h
    subst h
    simp
    omega
  · rw [List.cons_append, List.getElem?_cons_succ] at h
    by_cases hi : i < mid.length
    · rw [List.getElem?_append_left hi] at h
      have := hmid c (List.getElem?_mem h)
      simp [this]
      omega
    · rw [List.getElem?_append_right (by omega)] at h
      obtain ⟨h1, h2⟩ := wire_data_get data m _ c h
      rw [h2]
      omega

theorem wire_address_held (a : Nat) : ∀ c ∈ wire_address a true, c.2 = true := by
  intro c hc
  simp [wire_address] at hc
  rcases hc with rfl | rfl | rfl <;> rfl

end Framing
section FramingTheorem

variable {σ : Type}

theorem send_loop_fuel (D : Device σ) (n : Nat) (buff : Buf) (hn : n < 65536) :
    ∀ (fuel i p : Nat) (st : Bus σ) (r : Nat × Bus σ),
      send_loop D fuel i n buff p st = some r → n - i < fuel := by
  intro fuel
  induction fuel with
  | zero => intro i p st r h; simp [send_loop] at h
  | succ fuel ih =>
    intro i p st r h
    rw [send_loop] at h
    split at h
    · have := ih _ _ _ _ h
      rw [Nat.mod_eq_of_lt (by omega)] at this
      omega
    · omega

theorem recv_loop_fuel (D : Device σ) (n : Nat) (hn : n < 65536) :
    ∀ (fuel i p : Nat) (buff : Buf) (st : Bus σ) (r : Buf × Nat × Bus σ),
      recv_loop D fuel i n buff p st = some r → n - i < fuel := by
  intro fuel
  induction fuel with
  | zero => intro i p buff st r h; simp [recv_loop] at h
  | succ fuel ih =>
    intro i p buff st r h
    rw [recv_loop] at h
    split at h
    · have := ih _ _ _ _ _ h
      rw [Nat.mod_eq_of_lt (by omega)] at this
      omega
    · omega

theorem framing_of_plain (D : Device σ) (frame : List (Nat × Bool)) (op len : Nat)
    (st : Bus σ) (hfr : Framed op len (frame.map fun c => (c.1 % 256, c.2))) :
    ∃ pre cmd, (emit D frame st).trace = st.trace ++ pre ++ cmd ∧ Preamble pre ∧ pre = [] ∧
      Framed op len (cmd.map Xfer.wire) := by
  refine ⟨[], emit_seg D frame st.dev, ?_, preamble_nil, rfl, ?_⟩
  · rw [emit_trace_eq, List.append_nil]
  · rw [emit_seg_wire]
    exact hfr

theorem framing_of_gated (D : Device σ) (fuel : Nat) (frame : List (Nat × Bool)) (op len : Nat)
    (st st' : Bus σ) (hfr : Framed op len (frame.map fun c => (c.1 % 256, c.2)))
    (h : (enable_and_wait D fuel st).map (emit D frame) = some st') :
    ∃ pre cmd, st'.trace = st.trace ++ pre ++ cmd ∧ Preamble pre ∧
      Framed op len (cmd.map Xfer.wire) := by
  rw [Option.map_eq_some'] at h
  obtain ⟨st2, h2, rfl⟩ := h
  obtain ⟨pre, hp, hq⟩ := enable_and_wait_preamble D fuel st st2 h2
  refine ⟨pre, emit_seg D frame st2.dev, ?_, hq, ?_⟩
  · rw [emit_trace_eq, hp]
  · rw [emit_seg_wire]
    exact hfr

theorem framing_of_wait (D : Device σ) (fuel op : Nat) (st st' : Bus σ) (hop : op < 256)
    (h : ((wait_while_busy D fuel st).bind fun st => some (SPI_CMD_LAST_FLASH D op st).2) =
      some st') :
    ∃ pre cmd, st'.trace = st.trace ++ pre ++ cmd ∧ Preamble pre ∧
      Framed op 1 (cmd.map Xfer.wire) := by
  simp only [Option.bind_eq_some] at h
  obtain ⟨st1, h1, h2⟩ := h
  cases h2
  obtain ⟨pre, hp, hq⟩ := wait_preamble D fuel st st1 h1
  refine ⟨pre, [⟨op % 256, false, (D st1.dev (op % 256) false).1⟩], ?_, hq, ?_⟩
  · simp only [last_release D op st1 (by omega), SPI_Master, hp]
  · simp only [List.map_cons, List.map_nil, Xfer.wire, Nat.mod_eq_of_lt hop]
    exact framed_single op

theorem erase_block_eq (D : Device σ) (fuel a : Nat) (st : Bus σ) :
    S25FL164K_Erase_Block D fuel a st =
      (enable_and_wait D fuel st).map
        (emit D [(BLOCK_ERASE, true), ((a &&& BLOCK_START_ADDR_MASK) >>> 16, true),
          ((a &&& BLOCK_START_ADDR_MASK) >>> 8, true), (a &&& BLOCK_START_ADDR_MASK, false)]) := by
  unfold S25FL164K_Erase_Block enable_and_wait
  simp only [last_block]
  cases S25FL164K_Write_Enable D fuel st with
  | none => rfl
  | some s1 =>
    simp only [Option.some_bind]
    cases wait_while_busy D fuel s1 <;> rfl

theorem erase_chip_eq (D : Device σ) (fuel : Nat) (st : Bus σ) :
    S25FL164K_Erase_Chip D fuel st =
      (enable_and_wait D fuel st).map (emit D [(CHIP_ERASE, false)]) := by
  unfold S25FL164K_Erase_Chip enable_and_wait
  simp only [last_chip]
  cases S25FL164K_Write_Enable D fuel st with
  | none => rfl
  | some s1 =>
    simp only [Option.some_bind]
    cases wait_while_busy D fuel s1 <;> rfl

theorem address_frame_wire (op a : Nat) (hop : op < 256) :
    ([(op, true), (a >>> 16, true), (a >>> 8, true), (a, false)] : List (Nat × Bool)).map
      (fun c => (c.1 % 256, c.2)) = (op, true) :: wire_address a false := by
  simp [wire_address, Nat.shiftRight_eq_div_pow, Nat.mod_eq_of_lt hop]

theorem data_frame_wire (op a m : Nat) (data : Nat → Nat) (hop : op < 256) :
    (header_cmds op a ++ data_cmds data m).map (fun c => (c.1 % 256, c.2)) =
      (op, true) :: wire_address a true ++ wire_data data m := by
  rw [List.map_append, header_cmds_wire op a hop, data_cmds_wire]

theorem framed_data_frame (op a m : Nat) (data : Nat → Nat) (hop : op < 256) (hm : 1 ≤ m) :
    Framed op (4 + m)
      ((header_cmds op a ++ data_cmds data m).map fun c => (c.1 % 256, c.2)) := by
  rw [data_frame_wire op a m data hop]
  exact framed_data op (wire_address a true) data m hm (wire_address_held a)

end FramingTheorem
section FramingMain

variable {σ : Type}

theorem command_framed (D : Device σ) (fuel : Nat) (c : Command) (st st' : Bus σ)
    (ha : ∀ a, c = .Erase_Sec_Reg a → a % 2 ^ 32 < 2 ^ 31)
    (h : c.run D fuel st = some st') :
    ∃ pre cmd, st'.trace = st.trace ++ pre ++ cmd ∧ Preamble pre ∧
      (c.waits = false → pre = []) ∧
      Framed c.opcode c.frame_length (cmd.map Xfer.wire) := by
  have gated : ∀ (frame : List (Nat × Bool)) (op len : Nat),
      Framed op len (frame.map fun c => (c.1 % 256, c.2)) →
      (enable_and_wait D fuel st).map (emit D frame) = some st' → c.waits = true →
      ∃ pre cmd, st'.trace = st.trace ++ pre ++ cmd ∧ Preamble pre ∧
        (c.waits = false → pre = []) ∧ Framed op len (cmd.map Xfer.wire) := by
    intro frame op len hfr he hw
    obtain ⟨pre, cmd, h1, h2, h3⟩ := framing_of_gated D fuel frame op len st st' hfr he
    exact ⟨pre, cmd, h1, h2, (fun hf => by rw [hw] at hf; cases hf), h3⟩
  have plain : ∀ (frame : List (Nat × Bool)) (op len : Nat),
      Framed op len (frame.map fun c => (c.1 % 256, c.2)) → st' = emit D frame st →
      ∃ pre cmd, st'.trace = st.trace ++ pre ++ cmd ∧ Preamble pre ∧
        (c.waits = false → pre = []) ∧ Framed op len (cmd.map Xfer.wire) := by
    intro frame op len hfr he
    obtain ⟨pre, cmd, h1, h2, h3, h4⟩ := framing_of_plain D frame op len st hfr
    exact ⟨pre, cmd, (by rw [he]; exact h1), h2, (fun _ => h3), h4⟩
  cases c with
  | Write_Enable =>
    obtain ⟨pre, cmd, h1, h2, h3⟩ := framing_of_wait D fuel WRITE_ENABLE st st' (by decide) h
    exact ⟨pre, cmd, h1, h2, (fun hf => absurd hf (by decide)), h3⟩
  | Write_Disable =>
    obtain ⟨pre, cmd, h1, h2, h3⟩ := framing_of_wait D fuel WRITE_DISABLE st st' (by decide) h
    exact ⟨pre, cmd, h1, h2, (fun hf => absurd hf (by decide)), h3⟩
  | Read_BUSY_Bit =>
    simp only [Command.run, Option.some.injEq] at h
    exact plain [(READ_STATUS_REGISTER_1, true), (BUSY_BIT_MASK, false)] _ _
      (framed_pair READ_STATUS_REGISTER_1 BUSY_BIT_MASK) (by rw [← h]; rfl)
  | Page_Program a b n =>
    have hfu : max 1 (n % 65536) ≤ fuel := by
      have h' := h
      simp only [Command.run, S25FL164K_Page_Program, Option.bind_eq_some] at h'
      obtain ⟨_, _, _, _, r, hr, _⟩ := h'
      have := send_loop_fuel D (n % 65536) b (Nat.mod_lt _ (by norm_num)) _ _ _ _ _ hr
      omega
    simp only [Command.run] at h
    rw [page_program_eq D fuel a n b st hfu] at h
    exact gated _ _ _ (framed_data_frame PAGE_PROGRAM a _ b (by decide) (by omega)) h rfl
  | Write_Sec_Reg a b n =>
    have hfu : max 1 (n % 65536) ≤ fuel := by
      have h' := h
      simp only [Command.run, S25FL164K_Write_Sec_Reg, Option.bind_eq_some] at h'
      obtain ⟨_, _, _, _, r, hr, _⟩ := h'
      have := send_loop_fuel D (n % 65536) b (Nat.mod_lt _ (by norm_num)) _ _ _ _ _ hr
      omega
    simp only [Command.run] at h
    rw [write_sec_reg_eq D fuel a n b st hfu] at h
    exact gated _ _ _ (framed_data_frame PROGRAM_SEC_REG a _ b (by decide) (by omega)) h rfl
  | Read_Data a b n =>
    simp only [Command.run, Option.map_eq_some'] at h
    obtain ⟨r, hr, rfl⟩ := h
    have hr' := hr
    simp only [S25FL164K_Read_Data, Option.bind_eq_some] at hr'
    obtain ⟨q, hq, _⟩ := hr'
    have hn : n % 2 ^ 32 < 65536 := by
      by_contra hge
      rw [recv_loop_never_ends D _ (by omega) fuel 1 0 b _ (by norm_num)] at hq
      cases hq
    have hfu : max 1 (n % 2 ^ 32) ≤ fuel := by
      have := recv_loop_fuel D (n % 2 ^ 32) hn _ _ _ _ _ _ hq
      omega
    rw [read_data_eq D fuel a n b st hn hfu] at hr
    cases hr
    exact plain _ _ _ (framed_data_frame READ_DATA a _ _ (by decide) (by omega)) rfl
  | Read_Sec_Reg a b n =>
    simp only [Command.run, Option.map_eq_some'] at h
    obtain ⟨r, hr, rfl⟩ := h
    have hr' := hr
    simp only [S25FL164K_Read_Sec_Reg, Option.bind_eq_some] at hr'
    obtain ⟨q, hq, _⟩ := hr'
    have hfu : max 1 (n % 65536) ≤ fuel := by
      have := recv_loop_fuel D (n % 65536) (Nat.mod_lt _ (by norm_num)) _ _ _ _ _ _ hq
      omega
    rw [read_sec_reg_eq D fuel a n b st hfu] at hr
    cases hr
    refine plain _ _ _ ?_ rfl
    rw [List.map_append, List.map_append, header_cmds_wire READ_SEC_REG a (by decide),
      data_cmds_wire]
    have := framed_data READ_SEC_REG (wire_address a true ++ [(0x00, true)]) (fun _ => SEND_FF)
      (max 1 (n % 65536)) (by omega) (by
        intro c hc
        rcases List.mem_append.mp hc with hc | hc
        · exact wire_address_held a c hc
        · simp at hc; subst hc; rfl)
    have hl : 1 + (wire_address a true ++ [((0x00 : Nat), true)]).length + max 1 (n % 65536) =
        5 + max 1 (n % 65536) := by
      simp [wire_address]
    rw [hl] at this
    simpa [Command.opcode, Command.frame_length] using this
  | Erase_Sector a =>
    simp only [Command.run] at h
    rw [erase_sector_eq] at h
    exact gated _ _ _ (by rw [address_frame_wire SECTOR_ERASE _ (by decide)]
                          exact framed_address _ _) h rfl
  | Erase_Block a =>
    simp only [Command.run] at h
    rw [erase_block_eq] at h
    exact gated _ _ _ (by rw [address_frame_wire BLOCK_ERASE _ (by decide)]
                          exact framed_address _ _) h rfl
  | Erase_Sec_Reg a =>
    simp only [Command.run] at h
    rw [erase_sec_reg_eq, decide_eq_false (by have := ha a rfl; omega)] at h
    exact gated _ _ _ (by rw [address_frame_wire ERASE_SEC_REG _ (by decide)]
                          exact framed_address _ _) h rfl
  | Erase_Chip =>
    simp only [Command.run] at h
    rw [erase_chip_eq] at h
    exact gated [(CHIP_ERASE, false)] _ _ (framed_single CHIP_ERASE) h rfl
  | Software_Reset =>
    simp only [Command.run, Option.some.injEq] at h
    exact plain [(SOFTWARE_RESET_ENABLE, true), (SOFTWARE_RESET, false)] _ _
      (framed_pair SOFTWARE_RESET_ENABLE SOFTWARE_RESET) (by rw [← h]; rfl)

end FramingMain
section FramingClaim

variable {σ : Type}

/-- A function of the form write enable, busy wait, one command, on any device: it
returns exactly when the waits return, and then has added a preamble of complete
read-status and write-enable commands followed by the command. -/
theorem gated_frame (D : Device σ) (fuel : Nat) (frame w : List (Nat × Bool)) (st : Bus σ)
    (f : Option (Bus σ)) (heq : f = (enable_and_wait D fuel st).map (emit D frame))
    (hw : frame.map (fun c => (c.1 % 256, c.2)) = w) :
    (f.isSome ↔ (enable_and_wait D fuel st).isSome) ∧
    ∀ st', f = some st' →
      ∃ pre cmd, st'.trace = st.trace ++ pre ++ cmd ∧ Preamble pre ∧ cmd.map Xfer.wire = w := by
  subst heq
  cases h : enable_and_wait D fuel st with
  | none => exact ⟨Iff.rfl, fun st' h' => by cases h'⟩
  | some st0 =>
    obtain ⟨pre, hp, hq⟩ := enable_and_wait_preamble D fuel st st0 h
    refine ⟨Iff.rfl, fun st' h' => ?_⟩
    cases h'
    exact ⟨pre, emit_seg D frame st0.dev, by rw [emit_trace_eq, hp], hq,
      by rw [emit_seg_wire]; exact hw⟩

/-- The command of a function of the form write enable, busy wait, one command,
from the bus state the waits leave. -/
theorem gated_frame_from (D : Device σ) (fuel : Nat) (frame w : List (Nat × Bool))
    (st st0 : Bus σ) (f : Option (Bus σ))
    (heq : f = (enable_and_wait D fuel st).map (emit D frame))
    (hw : frame.map (fun c => (c.1 % 256, c.2)) = w)
    (h0 : enable_and_wait D fuel st = some st0) :
    ∃ st' cmd, f = some st' ∧ st'.trace = st0.trace ++ cmd ∧ cmd.map Xfer.wire = w := by
  subst heq
  rw [h0]
  exact ⟨_, emit_seg D frame st0.dev, rfl, emit_trace_eq D frame st0,
    by rw [emit_seg_wire]; exact hw⟩

end FramingClaim

section ScratchBuffer

variable {σ : Type}

theorem patch_loop_stores (buff : Buf) (n : Nat) (hn : n < 2 ^ 32) :
    ∀ (fuel i off : Nat) (md : Buf), i ≤ n → n - i < fuel → off + (n - i) ≤ 4096 →
      patch_loop fuel i n md off buff =
        some (stores md ((List.range (n - i)).map fun k => (off + k, buff (i + k))),
          off + (n - i)) := by
  intro fuel
  induction fuel with
  | zero => intro i off md _ h; omega
  | succ fuel ih =>
    intro i off md hi hf ho
    rw [patch_loop]
    by_cases hlt : i < n
    · have hoff : off < SECTOR_SIZE := by
        show off < 4 * 1024
        omega
      rw [if_pos hlt, if_pos hoff, Nat.mod_eq_of_lt (a := i + 1) (by omega),
        Nat.mod_eq_of_lt (a := off + 1) (by omega), ih _ _ _ (by omega) (by omega) (by omega)]
      have e : n - i = (n - (i + 1)) + 1 := by omega
      have e2 : off + 1 + (n - (i + 1)) = off + ((n - (i + 1)) + 1) := by omega
      rw [e, e2, List.range_succ_eq_map, List.map_cons, List.map_map]
      have hmap : ((fun k => (off + k, buff (i + k))) ∘ Nat.succ) =
          fun k => (off + 1 + k, buff (i + 1 + k)) := by
        funext k
        simp only [Function.comp, Nat.succ_eq_add_one]
        rw [Nat.add_assoc off 1 k, Nat.add_comm 1 k, Nat.add_assoc i 1 k, Nat.add_comm 1 k]
      rw [hmap]
      rfl
    · rw [if_neg hlt]
      have e : n - i = 0 := by omega
      rw [e]
      rfl

/-- A patch that runs past the end of `mod_data` has no result, however many loop
rounds are allowed. -/
theorem patch_loop_overrun (buff : Buf) (n : Nat) :
    ∀ (fuel i off : Nat) (md : Buf), i < n → n < 2 ^ 32 → off ≤ 4096 → 4096 < off + (n - i) →
      patch_loop fuel i n md off buff = none := by
  intro fuel
  induction fuel with
  | zero => intro i off md _ _ _ _; rfl
  | succ fuel ih =>
    intro i off md hi hn ho hover
    rw [patch_loop, if_pos hi]
    by_cases hoff : off < SECTOR_SIZE
    · have hoff' : off < 4096 := hoff
      rw [if_pos hoff, Nat.mod_eq_of_lt (a := i + 1) (by omega),
        Nat.mod_eq_of_lt (a := off + 1) (by omega)]
      exact ih _ _ _ (by omega) hn (by omega) (by omega)
    · rw [if_neg hoff]

/-- C14. For an address inside the array and a patch that stays inside the sector
of the address: the stores `S25FL164K_Modify_Sector_Data` makes into `mod_data` are
those of the sector read, at indices `0 .. SECTOR_SIZE - 1`, and those of the patch
loop, at indices `off .. off + byte_count - 1` with `off` the offset of the address
in its sector, all below `SECTOR_SIZE`; after the patch loop `mod_data` is the
sector image just read with `[off, off + byte_count)` replaced by
`buff[0 .. byte_count)` and every other byte unchanged; this is the buffer the
function leaves behind. -/
theorem modify_patch_within_sector (D : Device σ) (fuel : Nat) (mod_data buff : Buf)
    (address byte_count : Nat) (st : Bus σ) (ha : address < MAIN_FLASH_SIZE)
    (hin : address % SECTOR_SIZE + byte_count ≤ SECTOR_SIZE) (hf : SECTOR_SIZE < fuel) :
    ∃ r1 vals,
      S25FL164K_Read_Data D fuel (address &&& SECTOR_START_ADDR_MASK) mod_data SECTOR_SIZE st =
        some r1 ∧
      r1.1 = stores mod_data (List.enumFrom 0 vals) ∧
      (∀ w ∈ List.enumFrom 0 vals, w.1 < SECTOR_SIZE) ∧
      patch_loop fuel 0 byte_count r1.1 (sector_offset address) buff =
        some (stores r1.1 (patch_stores (sector_offset address) buff byte_count),
          sector_offset address + byte_count) ∧
      (∀ w ∈ patch_stores (sector_offset address) buff byte_count, w.1 < SECTOR_SIZE) ∧
      (∀ x, stores r1.1 (patch_stores (sector_offset address) buff byte_count) x =
        if sector_offset address ≤ x ∧ x < sector_offset address + byte_count then
          buff (x - sector_offset address)
        else r1.1 x) ∧
      (∀ r, S25FL164K_Modify_Sector_Data D fuel mod_data address buff byte_count st = some r →
        r.1 = stores r1.1 (patch_stores (sector_offset address) buff byte_count)) := by
  have hM : MAIN_FLASH_SIZE = 8388608 := rfl
  have hS : SECTOR_SIZE = 4096 := rfl
  rw [hM] at ha
  rw [hS] at hin hf
  have hoff : sector_offset address = address % 4096 := by
    unfold sector_offset
    rw [sector_mask_eq address (by omega)]
    omega
  have hread := read_data_eq D fuel (address &&& SECTOR_START_ADDR_MASK) SECTOR_SIZE mod_data st
    (by decide) (by rw [hS]; simp; omega)
  have hlen : ((emit_seg D (data_cmds (fun _ => SEND_FF) (max 1 (SECTOR_SIZE % 2 ^ 32)))
      (emit D (header_cmds READ_DATA (address &&& SECTOR_START_ADDR_MASK)) st).dev).map
        fun x => x.resp % 256).length = 4096 := by
    simp [emit_seg_length, data_cmds, SECTOR_SIZE]
  generalize hvals : (emit_seg D (data_cmds (fun _ => SEND_FF) (max 1 (SECTOR_SIZE % 2 ^ 32)))
      (emit D (header_cmds READ_DATA (address &&& SECTOR_START_ADDR_MASK)) st).dev).map
        (fun x => x.resp % 256) = vals at hread hlen
  generalize hst1 : emit D (header_cmds READ_DATA (address &&& SECTOR_START_ADDR_MASK) ++
      data_cmds (fun _ => SEND_FF) (max 1 (SECTOR_SIZE % 2 ^ 32))) st = st1 at hread
  have hstores := patch_loop_stores buff byte_count (by omega) fuel 0 (sector_offset address)
    (stores mod_data (List.enumFrom 0 vals)) (Nat.zero_le _) (by omega) (by rw [hoff]; omega)
  have hpw := patch_loop_eq buff byte_count (by omega) fuel 0 (sector_offset address)
    (stores mod_data (List.enumFrom 0 vals)) (Nat.zero_le _) (by omega) (by rw [hoff]; omega)
  simp only [Nat.sub_zero, Nat.zero_add] at hstores hpw
  refine ⟨(stores mod_data (List.enumFrom 0 vals), st1), vals, hread, rfl, ?_, hstores, ?_, ?_, ?_⟩
  · intro w hw
    obtain ⟨i, hi⟩ := List.mem_iff_getElem?.mp hw
    rw [List.getElem?_enumFrom] at hi
    have hlt : i < 4096 := by
      by_contra hge
      rw [List.getElem?_eq_none (by rw [hlen]; omega)] at hi
      simp at hi
    rw [List.getElem?_eq_getElem (by rw [hlen]; exact hlt)] at hi
    simp at hi
    rw [← hi, hS]
    simpa using hlt
  · intro w hw
    simp only [patch_stores, List.mem_map, List.mem_range] at hw
    obtain ⟨i, hi, rfl⟩ := hw
    rw [hoff, hS]
    simp only
    omega
  · intro x
    rw [hstores] at hpw
    have := congrArg (fun o => o.map (fun p => p.1 x)) hpw
    simp only [Option.map_some', Option.some.injEq] at this
    exact this
  · intro r hr
    simp only [S25FL164K_Modify_Sector_Data, Option.bind_eq_some] at hr
    obtain ⟨q1, hq1, m, hm, _, _, _, _, hrr⟩ := hr
    rw [hread] at hq1
    cases hq1
    rw [Nat.mod_eq_of_lt (a := byte_count) (by omega)] at hm
    have hm' : patch_loop fuel 0 byte_count (stores mod_data (List.enumFrom 0 vals))
        (sector_offset address) buff = some m := hm
    rw [hstores] at hm'
    cases hm'
    cases hrr
    rfl

theorem modify_patch_within_sector_witness :
    ∃ r1 vals,
      S25FL164K_Read_Data quiet 4097 (0x2001 &&& SECTOR_START_ADDR_MASK) (fun _ => 0) SECTOR_SIZE
        ⟨(), []⟩ = some r1 ∧
      r1.1 = stores (fun _ => 0) (List.enumFrom 0 vals) ∧
      (∀ w ∈ List.enumFrom 0 vals, w.1 < SECTOR_SIZE) ∧
      patch_loop 4097 0 1 r1.1 (sector_offset 0x2001) (bufOf [0x55]) =
        some (stores r1.1 (patch_stores (sector_offset 0x2001) (bufOf [0x55]) 1),
          sector_offset 0x2001 + 1) ∧
      (∀ w ∈ patch_stores (sector_offset 0x2001) (bufOf [0x55]) 1, w.1 < SECTOR_SIZE) ∧
      (∀ x, stores r1.1 (patch_stores (sector_offset 0x2001) (bufOf [0x55]) 1) x =
        if sector_offset 0x2001 ≤ x ∧ x < sector_offset 0x2001 + 1 then
          bufOf [0x55] (x - sector_offset 0x2001)
        else r1.1 x) ∧
      (∀ r, S25FL164K_Modify_Sector_Data quiet 4097 (fun _ => 0) 0x2001 (bufOf [0x55]) 1
          ⟨(), []⟩ = some r →
        r.1 = stores r1.1 (patch_stores (sector_offset 0x2001) (bufOf [0x55]) 1)) :=
  modify_patch_within_sector quiet 4097 (fun _ => 0) (bufOf [0x55]) 0x2001 1 ⟨(), []⟩
    (by decide) (by decide) (by decide)

end ScratchBuffer

section CallSequences

variable {σ : Type}

theorem never_busy_emit (D : Device σ) (l : List (Nat × Bool)) (b : Nat) (st : Bus σ)
    (h : NeverBusy D st.dev) : NeverBusy D (emit D (l ++ [(b, false)]) st).dev := by
  obtain ⟨s, hs⟩ := emit_last_dev D l b st
  rw [hs]
  exact ⟨h.2 s _, h.2⟩

theorem call_cmds_wire (c : ProgramCall) :
    (call_cmds c).map (fun x => (x.1 % 256, x.2)) =
      wire_Page_Program c.address c.buff c.byte_count := by
  unfold call_cmds wire_Page_Program
  rw [List.map_append, List.map_append, entry_cmds_wire,
    header_cmds_wire PAGE_PROGRAM c.address (by decide), data_cmds_wire]

theorem program_call_idle (D : Device σ) (fuel : Nat) (c : ProgramCall) (st : Bus σ)
    (h : NeverBusy D st.dev) (h1 : 1 ≤ c.byte_count) (h2 : c.byte_count ≤ 256)
    (hf : 256 ≤ fuel) :
    S25FL164K_Page_Program D fuel c.address c.buff c.byte_count st =
        some (emit D (call_cmds c) st) ∧
      NeverBusy D (emit D (call_cmds c) st).dev := by
  refine ⟨page_program_idle D fuel c.address c.buff c.byte_count st h1 (by omega) (by omega) h,
    ?_⟩
  unfold call_cmds
  rw [data_cmds_last c.buff c.byte_count h1, ← List.append_assoc]
  exact never_busy_emit D _ _ st h

theorem calls_fold_idle (D : Device σ) (fuel : Nat) (hf : 256 ≤ fuel) :
    ∀ (calls : List ProgramCall) (st : Bus σ), NeverBusy D st.dev →
      (∀ c ∈ calls, 1 ≤ c.byte_count ∧ c.byte_count ≤ 256) →
      calls.foldlM (fun st c => S25FL164K_Page_Program D fuel c.address c.buff c.byte_count st)
          st = some (emit D (calls.flatMap call_cmds) st) ∧
        NeverBusy D (emit D (calls.flatMap call_cmds) st).dev := by
  intro calls
  induction calls with
  | nil => intro st h _; exact ⟨rfl, h⟩
  | cons c cs ih =>
    intro st h hall
    obtain ⟨hc1, hc2⟩ := hall c (List.mem_cons_self _ _)
    obtain ⟨e1, n1⟩ := program_call_idle D fuel c st h hc1 hc2 hf
    obtain ⟨e2, n2⟩ := ih (emit D (call_cmds c) st) n1
      (fun x hx => hall x (List.mem_cons_of_mem _ hx))
    rw [List.foldlM_cons, e1, List.flatMap_cons, emit_append]
    exact ⟨e2, n2⟩

/-- On a device reporting not-busy a write returns, having performed the
transactions of its `Page_Program` calls one call after the other. -/
theorem write_data_idle (D : Device σ) (fuel address byte_count : Nat) (buff : Buf)
    (st : Bus σ) (calls : List ProgramCall) (h : NeverBusy D st.dev) (hf : 256 ≤ fuel)
    (hc : Write_Data_calls fuel address buff byte_count = some calls) :
    S25FL164K_Write_Data D fuel address buff byte_count st =
        some (emit D (calls.flatMap call_cmds) st) ∧
      NeverBusy D (emit D (calls.flatMap call_cmds) st).dev := by
  have hall : ∀ c ∈ calls, 1 ≤ c.byte_count ∧ c.byte_count ≤ 256 := by
    intro c hcm
    obtain ⟨q1, q2, _, _⟩ := loop_record_within_page buff fuel address _ calls hc c hcm
    exact ⟨q1, q2⟩
  obtain ⟨e, n⟩ := calls_fold_idle D fuel hf calls st h hall
  refine ⟨?_, n⟩
  unfold Write_Data_calls S25FL164K_Write_Data_with at hc
  unfold S25FL164K_Write_Data S25FL164K_Write_Data_with
  simp only [] at hc ⊢
  rw [write_data_loop_eq_fold, hc, Option.some_bind]
  exact e

theorem wait_stuck (fuel : Nat) (st : Bus Unit) : wait_while_busy stuck fuel st = none := by
  induction fuel generalizing st with
  | zero => rfl
  | succ fuel ih =>
    rw [wait_while_busy]
    have hb : (S25FL164K_Read_BUSY_Bit stuck st).1 ≠ 0 := by
      simp [S25FL164K_Read_BUSY_Bit, SPI_CMD_FLASH, SPI_CMD_LAST_FLASH, SPI_Master, stuck,
        BUSY_BIT_MASK]
    rw [if_pos hb]
    exact ih _

theorem page_program_stuck (fuel a n : Nat) (buff : Buf) (st : Bus Unit) :
    S25FL164K_Page_Program stuck fuel a buff n st = none := by
  unfold S25FL164K_Page_Program S25FL164K_Write_Enable
  rw [wait_stuck]
  rfl

end CallSequences

section ModifyOrder

variable {σ : Type}

theorem read_data_idle (D : Device σ) (fuel a n : Nat) (buff : Buf) (st : Bus σ)
    (h : NeverBusy D st.dev) (hn1 : 1 ≤ n) (hn : n < 65536) (hf : n ≤ fuel) :
    ∃ r, S25FL164K_Read_Data D fuel a buff n st = some r ∧
      r.2 = emit D (header_cmds READ_DATA a ++ data_cmds (fun _ => SEND_FF) n) st ∧
      NeverBusy D r.2.dev := by
  have hm : n % 2 ^ 32 = n := Nat.mod_eq_of_lt (by omega)
  have hx : max 1 (n % 2 ^ 32) = n := by rw [hm]; omega
  have e := read_data_eq D fuel a n buff st (by omega) (by omega)
  rw [hx] at e
  refine ⟨_, e, rfl, ?_⟩
  simp only []
  rw [data_cmds_last _ n hn1, ← List.append_assoc]
  exact never_busy_emit D _ _ st h

theorem erase_sector_never_busy (D : Device σ) (fuel address : Nat) (st : Bus σ) (hf : 0 < fuel)
    (h : NeverBusy D st.dev) :
    ∃ st', S25FL164K_Erase_Sector D fuel address st = some st' ∧
      st' = emit D (entry_cmds ++ [(SECTOR_ERASE, true),
        ((address &&& SECTOR_START_ADDR_MASK) >>> 16, true),
        ((address &&& SECTOR_START_ADDR_MASK) >>> 8, true),
        (address &&& SECTOR_START_ADDR_MASK, false)]) st ∧
      NeverBusy D st'.dev := by
  refine ⟨_, erase_sector_idle D fuel address st hf h, rfl, ?_⟩
  exact never_busy_emit D (entry_cmds ++ [(SECTOR_ERASE, true),
        ((address &&& SECTOR_START_ADDR_MASK) >>> 16, true),
        ((address &&& SECTOR_START_ADDR_MASK) >>> 8, true)]) _ st h

theorem calls_wire (calls : List ProgramCall) :
    (calls.flatMap call_cmds).map (fun x => (x.1 % 256, x.2)) =
      calls.flatMap fun c => wire_Page_Program c.address c.buff c.byte_count := by
  induction calls with
  | nil => rfl
  | cons c cs ih => rw [List.flatMap_cons, List.flatMap_cons, List.map_append, ih, call_cmds_wire]

theorem flatMap_map_range {α β : Type} (g : Nat → α) (F : α → List β) (l : List Nat) :
    (l.map g).flatMap F = l.flatMap fun k => F (g k) := by
  induction l with
  | nil => rfl
  | cons x xs ih => rw [List.map_cons, List.flatMap_cons, List.flatMap_cons, ih]

/-- C13, the counterexample to the claim as stated. For address `0x2FFF` and a byte
count of 2 the patch loop stores at offsets 4095 and 4096 of `mod_data`; the second
store is outside the array of `SECTOR_SIZE` bytes, so the call has no defined
result, however many loop rounds are allowed. -/
theorem modify_sector_2FFF_overruns :
    (patch_stores (sector_offset 0x2FFF) (bufOf [0x55, 0x66]) 2).map Prod.fst = [4095, 4096] ∧
    ¬ ∃ fuel, (S25FL164K_Modify_Sector_Data quiet fuel (fun _ => 0) 0x2FFF (bufOf [0x55, 0x66]) 2
      ⟨(), []⟩).isSome := by
  refine ⟨by decide, ?_⟩
  rintro ⟨fuel, h⟩
  obtain ⟨r, hr⟩ := Option.isSome_iff_exists.mp h
  simp only [S25FL164K_Modify_Sector_Data, Option.bind_eq_some] at hr
  obtain ⟨r1, _, m, hm, _⟩ := hr
  rw [patch_loop_overrun (bufOf [0x55, 0x66]) (2 % 2 ^ 32) fuel 0 _ r1.1 (by decide) (by decide)
    (by decide) (by decide)] at hm
  cases hm

/-- The calls and the bus traffic of `S25FL164K_Modify_Sector_Data` for a patch
inside the sector, on a device reporting not-busy. -/
theorem modify_sector_in_range (D : Device σ) (fuel : Nat) (mod_data buff : Buf)
    (address byte_count : Nat) (st : Bus σ) (h : NeverBusy D st.dev) (ha : address < 2 ^ 24)
    (hin : address % SECTOR_SIZE + byte_count ≤ SECTOR_SIZE) (hf : SECTOR_SIZE < fuel) :
    ∃ (r1 : Buf × Bus σ) (st2 : Bus σ) (r : Buf × Bus σ) (seg : List Xfer),
      S25FL164K_Read_Data D fuel (address &&& SECTOR_START_ADDR_MASK) mod_data SECTOR_SIZE st =
        some r1 ∧
      S25FL164K_Erase_Sector D fuel (address &&& SECTOR_START_ADDR_MASK) r1.2 = some st2 ∧
      ((List.range 16).map fun k =>
          (⟨(address &&& SECTOR_START_ADDR_MASK) + 256 * k, r.1, 256⟩ : ProgramCall)).foldlM
        (fun st c => S25FL164K_Page_Program D fuel c.address c.buff c.byte_count st) st2 =
        some r.2 ∧
      S25FL164K_Modify_Sector_Data D fuel mod_data address buff byte_count st = some r ∧
      r.2.trace = st.trace ++ seg ∧
      seg.map Xfer.wire =
        wire_Read_Data (address &&& SECTOR_START_ADDR_MASK) SECTOR_SIZE ++
          wire_Erase_Sector (address &&& SECTOR_START_ADDR_MASK) ++
          (List.range 16).flatMap fun k =>
            wire_Page_Program ((address &&& SECTOR_START_ADDR_MASK) + 256 * k) r.1 256 := by
  have hS : SECTOR_SIZE = 4096 := rfl
  have hmask : address &&& SECTOR_START_ADDR_MASK = address - address % 4096 :=
    sector_mask_eq address ha
  obtain ⟨s, hs⟩ : ∃ s, s = address &&& SECTOR_START_ADDR_MASK := ⟨_, rfl⟩
  have hs256 : s % 256 = 0 := by rw [hs, hmask]; omega
  have hsle : s + 4096 ≤ 2 ^ 32 := by rw [hs, hmask]; omega
  rw [← hs]
  obtain ⟨n, hn⟩ : ∃ n, n = SECTOR_SIZE := ⟨_, rfl⟩
  obtain ⟨r1, hr1, hst1, hnb1⟩ := read_data_idle D fuel s n mod_data st h
    (by rw [hn, hS]; omega) (by rw [hn, hS]; omega) (by rw [hn]; omega)
  have hin' : address % 4096 + byte_count ≤ 4096 := hin
  have hf' : 4096 < fuel := hf
  have hb : byte_count % 2 ^ 32 = byte_count := Nat.mod_eq_of_lt (by omega)
  obtain ⟨m, hm⟩ : ∃ m, patch_loop fuel 0 (byte_count % 2 ^ 32) r1.1 (address - s) buff =
      some m := by
    rw [hb]
    exact ⟨_, patch_loop_stores buff byte_count (by omega) fuel 0 (address - s) r1.1
      (Nat.zero_le _) (by omega) (by rw [hs, hmask]; omega)⟩
  obtain ⟨st2, hst2, he2, hnb2⟩ := erase_sector_never_busy D fuel s r1.2 (by omega) hnb1
  have hc : Write_Data_calls fuel s m.1 SECTOR_SIZE =
      some ((List.range 16).map fun j => ⟨s + 256 * j, m.1, 256⟩) :=
    sector_write_calls fuel s m.1 hs256 hsle (by omega)
  obtain ⟨hw, _⟩ := write_data_idle D fuel s SECTOR_SIZE m.1 st2 _ hnb2 (by omega) hc
  have hall : ∀ c ∈ (List.range 16).map fun j => (⟨s + 256 * j, m.1, 256⟩ : ProgramCall),
      1 ≤ c.byte_count ∧ c.byte_count ≤ 256 := by
    intro c hcm
    obtain ⟨j, _, rfl⟩ := List.mem_map.mp hcm
    exact ⟨by show 1 ≤ 256; omega, by show 256 ≤ 256; omega⟩
  obtain ⟨hfold, _⟩ := calls_fold_idle D fuel (by omega) _ st2 hnb2 hall
  obtain ⟨st3, hst3⟩ : ∃ st3, st3 = emit D (((List.range 16).map fun j =>
      (⟨s + 256 * j, m.1, 256⟩ : ProgramCall)).flatMap call_cmds) st2 := ⟨_, rfl⟩
  rw [← hst3] at hfold hw
  have hmod : S25FL164K_Modify_Sector_Data D fuel mod_data address buff byte_count st =
      some (m.1, st3) := by
    unfold S25FL164K_Modify_Sector_Data
    simp only []
    rw [← hs, ← hn, hr1, Option.some_bind, hm, Option.some_bind, hst2, Option.some_bind, hn, hw,
      Option.some_bind]
  have htr : st3 =
      emit D ((header_cmds READ_DATA s ++ data_cmds (fun _ => SEND_FF) n) ++
        (entry_cmds ++ [(SECTOR_ERASE, true), ((s &&& SECTOR_START_ADDR_MASK) >>> 16, true),
          ((s &&& SECTOR_START_ADDR_MASK) >>> 8, true), (s &&& SECTOR_START_ADDR_MASK, false)]) ++
        (((List.range 16).map fun j =>
          (⟨s + 256 * j, m.1, 256⟩ : ProgramCall)).flatMap call_cmds)) st := by
    rw [emit_append, emit_append, ← hst1, ← he2, hst3]
  have hmap : ((header_cmds READ_DATA s ++ data_cmds (fun _ => SEND_FF) n) ++
        (entry_cmds ++ [(SECTOR_ERASE, true), ((s &&& SECTOR_START_ADDR_MASK) >>> 16, true),
          ((s &&& SECTOR_START_ADDR_MASK) >>> 8, true), (s &&& SECTOR_START_ADDR_MASK, false)]) ++
        (((List.range 16).map fun j =>
          (⟨s + 256 * j, m.1, 256⟩ : ProgramCall)).flatMap call_cmds)).map
        (fun c => (c.1 % 256, c.2)) =
      wire_Read_Data s n ++ wire_Erase_Sector s ++
        (List.range 16).flatMap fun k => wire_Page_Program (s + 256 * k) m.1 256 := by
    rw [List.map_append, List.map_append,
      data_frame_wire READ_DATA s n _ (by decide), List.map_append, entry_cmds_wire,
      address_frame_wire SECTOR_ERASE _ (by decide), calls_wire, flatMap_map_range]
    rfl
  obtain ⟨seg, hseg, hwire⟩ := emit_frame D _ st _ hmap
  rw [← htr] at hseg
  rw [← hn]
  exact ⟨r1, st2, (m.1, st3), seg, hr1, hst2, hfold, hmod, hseg, hwire⟩

/-- A patch that runs past the end of the sector: the patch loop stores outside
`mod_data` and the call has no result, on any device and for any number of loop
rounds. -/
theorem modify_sector_overrun (D : Device σ) (fuel : Nat) (mod_data buff : Buf)
    (address byte_count : Nat) (st : Bus σ) (ha : address < 2 ^ 24) (hb : byte_count < 2 ^ 32)
    (hover : SECTOR_SIZE < address % SECTOR_SIZE + byte_count) :
    S25FL164K_Modify_Sector_Data D fuel mod_data address buff byte_count st = none := by
  have hover' : 4096 < address % 4096 + byte_count := hover
  have hmask : address &&& SECTOR_START_ADDR_MASK = address - address % 4096 :=
    sector_mask_eq address ha
  have hbm : byte_count % 2 ^ 32 = byte_count := Nat.mod_eq_of_lt hb
  have hlt : address % 4096 < 4096 := Nat.mod_lt _ (by norm_num)
  have hp : ∀ md : Buf, patch_loop fuel 0 (byte_count % 2 ^ 32) md
      (address - (address &&& SECTOR_START_ADDR_MASK)) buff = none := by
    intro md
    rw [hbm, hmask]
    exact patch_loop_overrun buff byte_count fuel 0 _ md (by omega) hb (by omega) (by omega)
  unfold S25FL164K_Modify_Sector_Data
  simp only [hp, Option.none_bind]
  cases S25FL164K_Read_Data D fuel (address &&& SECTOR_START_ADDR_MASK) mod_data SECTOR_SIZE st <;>
    rfl

/-- C13, amended. On a device reporting not-busy, for every address below `2^24` and
every byte count that keeps the patch inside the sector of the address,
`S25FL164K_Modify_Sector_Data` returns, and it is made of these calls, each starting
from the bus state the previous one left: one `S25FL164K_Read_Data` of `SECTOR_SIZE`
bytes at `sector_start = address & 0xFFF000`, one `S25FL164K_Erase_Sector` at
`sector_start`, then the sixteen `S25FL164K_Page_Program` calls of 256 bytes at
`sector_start + 256 * k`, `k = 0..15` in ascending order, all handed the patched
array. The transactions added to the bus are, in this order and with nothing else:
the read frame (opcode `0x03`, address, `SECTOR_SIZE` dummy bytes), the erase
frames (status poll, write enable, status poll, opcode `0x20`, address), and the
sixteen program frames; so every erase or program transaction comes after the
whole read frame. For a byte count that runs past the end of the sector the patch
loop stores outside `mod_data` and the call has no result. -/
theorem modify_sector_order (D : Device σ) (fuel : Nat) (mod_data buff : Buf)
    (address byte_count : Nat) (st : Bus σ) (h : NeverBusy D st.dev) (ha : address < 2 ^ 24)
    (hb : byte_count < 2 ^ 32) (hf : SECTOR_SIZE < fuel) :
    (address % SECTOR_SIZE + byte_count ≤ SECTOR_SIZE →
      ∃ (r1 : Buf × Bus σ) (st2 : Bus σ) (r : Buf × Bus σ) (seg : List Xfer),
        S25FL164K_Read_Data D fuel (address &&& SECTOR_START_ADDR_MASK) mod_data SECTOR_SIZE st =
          some r1 ∧
        S25FL164K_Erase_Sector D fuel (address &&& SECTOR_START_ADDR_MASK) r1.2 = some st2 ∧
        ((List.range 16).map fun k =>
            (⟨(address &&& SECTOR_START_ADDR_MASK) + 256 * k, r.1, 256⟩ : ProgramCall)).foldlM
          (fun st c => S25FL164K_Page_Program D fuel c.address c.buff c.byte_count st) st2 =
          some r.2 ∧
        S25FL164K_Modify_Sector_Data D fuel mod_data address buff byte_count st = some r ∧
        r.2.trace = st.trace ++ seg ∧
        seg.map Xfer.wire =
          wire_Read_Data (address &&& SECTOR_START_ADDR_MASK) SECTOR_SIZE ++
            wire_Erase_Sector (address &&& SECTOR_START_ADDR_MASK) ++
            (List.range 16).flatMap fun k =>
              wire_Page_Program ((address &&& SECTOR_START_ADDR_MASK) + 256 * k) r.1 256) ∧
    (SECTOR_SIZE < address % SECTOR_SIZE + byte_count →
      S25FL164K_Modify_Sector_Data D fuel mod_data address buff byte_count st = none) :=
  ⟨fun hin => modify_sector_in_range D fuel mod_data buff address byte_count st h ha hin hf,
    fun hover => modify_sector_overrun D fuel mod_data buff address byte_count st ha hb hover⟩

theorem modify_sector_order_witness :
    (0x2001 % SECTOR_SIZE + 1 ≤ SECTOR_SIZE →
      ∃ (r1 : Buf × Bus Unit) (st2 : Bus Unit) (r : Buf × Bus Unit) (seg : List Xfer),
        S25FL164K_Read_Data quiet 4097 (0x2001 &&& SECTOR_START_ADDR_MASK) (fun _ => 0)
            SECTOR_SIZE ⟨(), []⟩ = some r1 ∧
        S25FL164K_Erase_Sector quiet 4097 (0x2001 &&& SECTOR_START_ADDR_MASK) r1.2 = some st2 ∧
        ((List.range 16).map fun k =>
            (⟨(0x2001 &&& SECTOR_START_ADDR_MASK) + 256 * k, r.1, 256⟩ : ProgramCall)).foldlM
          (fun st c => S25FL164K_Page_Program quiet 4097 c.address c.buff c.byte_count st) st2 =
          some r.2 ∧
        S25FL164K_Modify_Sector_Data quiet 4097 (fun _ => 0) 0x2001 (bufOf [0x55]) 1 ⟨(), []⟩ =
          some r ∧
        r.2.trace = [] ++ seg ∧
        seg.map Xfer.wire =
          wire_Read_Data (0x2001 &&& SECTOR_START_ADDR_MASK) SECTOR_SIZE ++
            wire_Erase_Sector (0x2001 &&& SECTOR_START_ADDR_MASK) ++
            (List.range 16).flatMap fun k =>
              wire_Page_Program ((0x2001 &&& SECTOR_START_ADDR_MASK) + 256 * k) r.1 256) ∧
    (SECTOR_SIZE < 0x2001 % SECTOR_SIZE + 1 →
      S25FL164K_Modify_Sector_Data quiet 4097 (fun _ => 0) 0x2001 (bufOf [0x55]) 1 ⟨(), []⟩ =
        none) :=
  modify_sector_order quiet 4097 (fun _ => 0) (bufOf [0x55]) 0x2001 1 ⟨(), []⟩
    quiet_never_busy (by decide) (by decide) (by decide)

end ModifyOrder

section WriteReturns

variable {σ : Type}

theorem toInt32_nonpos (n : Nat) (hn : n < 2 ^ 32) (h : n = 0 ∨ 2 ^ 31 ≤ n) :
    ¬ toInt32 n > 0 := by
  unfold toInt32
  rw [Nat.mod_eq_of_lt hn]
  split <;> omega

theorem toInt32_toNat (n : Nat) (hn : n < 2 ^ 32) (h : ¬ (n = 0 ∨ 2 ^ 31 ≤ n)) :
    toInt32 n = (n : Int) := toInt32_of_lt n (by omega)

theorem page_program_extends (D : Device σ) (fuel a n : Nat) (buff : Buf) (st st1 : Bus σ)
    (h : S25FL164K_Page_Program D fuel a buff n st = some st1) :
    ∃ pre cmd, st1.trace = st.trace ++ pre ++ cmd ∧ Preamble pre ∧
      Framed PAGE_PROGRAM (4 + max 1 (n % 65536)) (cmd.map Xfer.wire) := by
  obtain ⟨pre, cmd, h1, h2, _, h4⟩ := command_framed D fuel (.Page_Program a buff n) st st1
    (by intro x hx; cases hx) h
  exact ⟨pre, cmd, h1, h2, h4⟩

/-- C17, the counterexample to the claim as stated: on a device whose status
register always reads busy, `S25FL164K_Write_Data(0, buff, 1)` does not return,
however many loop rounds are allowed. -/
theorem write_data_stuck_never_returns :
    ¬ ∃ fuel, (S25FL164K_Write_Data stuck fuel 0 (bufOf [0]) 1 ⟨(), []⟩).isSome := by
  rintro ⟨fuel, h⟩
  cases fuel with
  | zero => simp [S25FL164K_Write_Data, S25FL164K_Write_Data_with, Write_Data_loop] at h
  | succ f =>
    unfold S25FL164K_Write_Data S25FL164K_Write_Data_with at h
    simp only [] at h
    rw [toInt32_of_lt 1 (by norm_num), Write_Data_loop] at h
    simp only [page_program_stuck] at h
    simp at h

/-- C17, amended. For every address and every 32-bit byte count, with the loop
allowed at least `PAGE_SIZE` rounds and more rounds than the count read as a signed
32-bit integer: on a device reporting not-busy `S25FL164K_Write_Data` returns,
having performed the transactions of its `S25FL164K_Page_Program` calls and nothing
else; when `byte_count = 0` or `byte_count >= 2^31` it returns on every device with
the bus untouched and makes no call; for every other byte count its first call is
`S25FL164K_Page_Program(address, buff, min(byte_count, 256 - address mod 256))`, and
whenever it returns that call has returned and the bus trace has grown by status polls
and write enables, the program frame with opcode `0x02`, and whatever followed. -/
theorem write_data_returns (D : Device σ) (fuel address byte_count : Nat) (buff : Buf)
    (st : Bus σ) (hn : byte_count < 2 ^ 32) (hf : PAGE_SIZE ≤ fuel)
    (hfn : (toInt32 byte_count).toNat < fuel) :
    (NeverBusy D st.dev →
      ∃ calls, Write_Data_calls fuel address buff byte_count = some calls ∧
        S25FL164K_Write_Data D fuel address buff byte_count st =
          some (emit D (calls.flatMap call_cmds) st)) ∧
    ((byte_count = 0 ∨ 2 ^ 31 ≤ byte_count) →
      Write_Data_calls fuel address buff byte_count = some [] ∧
        S25FL164K_Write_Data D fuel address buff byte_count st = some st) ∧
    (¬ (byte_count = 0 ∨ 2 ^ 31 ≤ byte_count) →
      (∃ calls, Write_Data_calls fuel address buff byte_count =
        some (⟨address, buff, min byte_count (256 - address % 256)⟩ :: calls)) ∧
      ∀ st', S25FL164K_Write_Data D fuel address buff byte_count st = some st' →
        ∃ st1 pre cmd rest,
          S25FL164K_Page_Program D fuel address buff (min byte_count (256 - address % 256)) st =
            some st1 ∧
          st1.trace = st.trace ++ pre ++ cmd ∧ st'.trace = st1.trace ++ rest ∧
          Preamble pre ∧
          Framed PAGE_PROGRAM (4 + min byte_count (256 - address % 256))
            (cmd.map Xfer.wire)) := by
  have hP : PAGE_SIZE = 256 := rfl
  obtain ⟨f, rfl⟩ : ∃ f, fuel = f + 1 := ⟨fuel - 1, by omega⟩
  refine ⟨?_, ?_, ?_⟩
  · intro h
    obtain ⟨calls, hc⟩ := Option.isSome_iff_exists.mp
      (loop_record_total buff (f + 1) address (toInt32 byte_count) hfn)
    exact ⟨calls, hc, (write_data_idle D (f + 1) address byte_count buff st calls h
      (by omega) hc).1⟩
  · intro h0
    have hc := toInt32_nonpos byte_count hn h0
    constructor
    · unfold Write_Data_calls S25FL164K_Write_Data_with
      simp only []
      rw [Write_Data_loop, if_neg hc]
    · unfold S25FL164K_Write_Data S25FL164K_Write_Data_with
      simp only []
      rw [Write_Data_loop, if_neg hc]
  · intro h0
    have hc : toInt32 byte_count = (byte_count : Int) := toInt32_toNat byte_count hn h0
    have hpos : (byte_count : Int) > 0 := by omega
    have htr : ((if (byte_count : Int) > ((256 - address % 256 : Nat) : Int) then
        ((256 - address % 256 : Nat) : Int) else (byte_count : Int)) % 65536).toNat =
        min byte_count (256 - address % 256) := by
      rw [tr_size_eq (byte_count : Int) (256 - address % 256) (by omega) (by omega)]
      simp
    constructor
    · obtain ⟨calls, hcalls⟩ := Option.isSome_iff_exists.mp
        (loop_record_total buff (f + 1) address (toInt32 byte_count) hfn)
      unfold Write_Data_calls S25FL164K_Write_Data_with
      simp only []
      rw [hc] at hcalls ⊢
      rw [loop_record_succ, if_pos (by omega)] at hcalls ⊢
      obtain ⟨tl, htl, -⟩ := Option.map_eq_some'.mp hcalls
      refine ⟨tl, ?_⟩
      rw [htl]
      simp
    · intro st' hst'
      unfold S25FL164K_Write_Data S25FL164K_Write_Data_with at hst'
      simp only [] at hst'
      rw [hc, Write_Data_loop, if_pos hpos] at hst'
      simp only [partial_page_size_eq, htr] at hst'
      obtain ⟨st1, h1, h2⟩ := Option.bind_eq_some.mp hst'
      obtain ⟨pre, cmd, e1, hp, hfr⟩ := page_program_extends D (f + 1) address _ buff st st1 h1
      obtain ⟨rest, e2, -⟩ := write_data_loop_passes (fun s : Bus σ => s.trace) _
        (fun a b n s s' hs => page_program_passes D (f + 1) a b n s s' hs) f _ buff _ st1 st' h2
      refine ⟨st1, pre, cmd, rest, h1, e1, e2, hp, ?_⟩
      have hm : max 1 (min byte_count (256 - address % 256) % 65536) =
          min byte_count (256 - address % 256) := by omega
      rw [hm] at hfr
      exact hfr

theorem write_data_returns_witness :
    (NeverBusy quiet (⟨(), []⟩ : Bus Unit).dev →
      ∃ calls, Write_Data_calls 256 0x0FFE (bufOf [1, 2, 3, 4]) 4 = some calls ∧
        S25FL164K_Write_Data quiet 256 0x0FFE (bufOf [1, 2, 3, 4]) 4 ⟨(), []⟩ =
          some (emit quiet (calls.flatMap call_cmds) ⟨(), []⟩)) ∧
    ((4 = 0 ∨ 2 ^ 31 ≤ 4) →
      Write_Data_calls 256 0x0FFE (bufOf [1, 2, 3, 4]) 4 = some [] ∧
        S25FL164K_Write_Data quiet 256 0x0FFE (bufOf [1, 2, 3, 4]) 4 ⟨(), []⟩ =
          some ⟨(), []⟩) ∧
    (¬ (4 = 0 ∨ 2 ^ 31 ≤ 4) →
      (∃ calls, Write_Data_calls 256 0x0FFE (bufOf [1, 2, 3, 4]) 4 =
        some (⟨0x0FFE, bufOf [1, 2, 3, 4], min 4 (256 - 0x0FFE % 256)⟩ :: calls)) ∧
      ∀ st', S25FL164K_Write_Data quiet 256 0x0FFE (bufOf [1, 2, 3, 4]) 4 ⟨(), []⟩ = some st' →
        ∃ st1 pre cmd rest,
          S25FL164K_Page_Program quiet 256 0x0FFE (bufOf [1, 2, 3, 4])
              (min 4 (256 - 0x0FFE % 256)) ⟨(), []⟩ = some st1 ∧
          st1.trace = (⟨(), []⟩ : Bus Unit).trace ++ pre ++ cmd ∧
          st'.trace = st1.trace ++ rest ∧
          Preamble pre ∧
          Framed PAGE_PROGRAM (4 + min 4 (256 - 0x0FFE % 256)) (cmd.map Xfer.wire)) :=
  write_data_returns quiet 256 0x0FFE 4 (bufOf [1, 2, 3, 4]) ⟨(), []⟩ (by decide) (by decide)
    (by decide)

end WriteReturns

section GatedFrames

variable {σ : Type}

theorem sector_mask_mod (a : Nat) :
    a &&& SECTOR_START_ADDR_MASK = a % 2 ^ 24 - a % 2 ^ 24 % 4096 := by
  have h1 : SECTOR_START_ADDR_MASK = (2 ^ 24 - 1) &&& SECTOR_START_ADDR_MASK := by decide
  rw [h1, ← Nat.and_assoc, Nat.and_pow_two_sub_one_eq_mod a 24]
  exact sector_mask_eq (a % 2 ^ 24) (Nat.mod_lt _ (by norm_num))

/-- The address bytes `S25FL164K_Erase_Sec_Reg` and `S25FL164K_Erase_Sector` put on
the wire agree exactly for a sector-aligned address with bit 31 clear. -/
theorem erase_frames_agree (a : Nat) :
    wire_address a (decide (2 ^ 31 ≤ a % 2 ^ 32)) =
        wire_address (a &&& SECTOR_START_ADDR_MASK) false ↔
      a % SECTOR_SIZE = 0 ∧ a % 2 ^ 32 < 2 ^ 31 := by
  have hS : SECTOR_SIZE = 4096 := rfl
  rw [sector_mask_mod, hS]
  simp only [wire_address, List.cons.injEq, Prod.mk.injEq, and_true, decide_eq_false_iff_not,
    Nat.not_le]
  omega

theorem page_program_busy_once :
    (S25FL164K_Page_Program busy_once 2 0x1000 (bufOf [0xAA]) 0 ⟨false, []⟩).map
        (fun st => st.trace.map Xfer.wire) =
      some [(0x05, true), (0x01, false), (0x05, true), (0x01, false), (0x06, false),
        (0x05, true), (0x01, false),
        (0x02, true), (0x00, true), (0x10, true), (0x00, true), (0xAA, false)] := by
  decide

end GatedFrames

section DataClaims

variable {σ : Type}

/-- C18. For every 16-bit `byte_count`, zero included, the data phase of a command
has `max(1, byte_count)` transactions. On every device `S25FL164K_Page_Program` and
`S25FL164K_Write_Sec_Reg` return exactly when the write enable and busy wait at
their start return, and then they have sent, after opcode and address, the bytes
`buff[0 .. max(1, byte_count))` (so `buff[0]` for a count of zero), only the last
one releasing chip-select; on a device reporting not-busy they do return, after
status poll, write enable, status poll. `S25FL164K_Read_Data`, whose loop ends
exactly for counts below `2^16`, and `S25FL164K_Read_Sec_Reg` return on every
device, having performed `max(1, byte_count)` dummy transactions and stored the
answer to the `k`-th in `buff[k]` (so one answer, in `buff[0]`, for a count of
zero); the rest of the buffer is untouched. -/
theorem data_phase_at_least_one (D : Device σ) (fuel a n : Nat) (buff : Buf) (st : Bus σ)
    (hn : n < 65536) (hf : max 1 n ≤ fuel) :
    (((S25FL164K_Page_Program D fuel a buff n st).isSome ↔
        (enable_and_wait D fuel st).isSome) ∧
      ∀ st', S25FL164K_Page_Program D fuel a buff n st = some st' →
        ∃ pre cmd, st'.trace = st.trace ++ pre ++ cmd ∧ Preamble pre ∧
          cmd.map Xfer.wire = (0x02, true) :: wire_address a true ++ wire_data buff (max 1 n)) ∧
    (((S25FL164K_Write_Sec_Reg D fuel a buff n st).isSome ↔
        (enable_and_wait D fuel st).isSome) ∧
      ∀ st', S25FL164K_Write_Sec_Reg D fuel a buff n st = some st' →
        ∃ pre cmd, st'.trace = st.trace ++ pre ++ cmd ∧ Preamble pre ∧
          cmd.map Xfer.wire = (0x42, true) :: wire_address a true ++ wire_data buff (max 1 n)) ∧
    (NeverBusy D st.dev →
      (∃ st' seg, S25FL164K_Page_Program D fuel a buff n st = some st' ∧
        st'.trace = st.trace ++ seg ∧
        seg.map Xfer.wire =
          wire_entry ++ (0x02, true) :: wire_address a true ++ wire_data buff (max 1 n)) ∧
      (∃ st' seg, S25FL164K_Write_Sec_Reg D fuel a buff n st = some st' ∧
        st'.trace = st.trace ++ seg ∧
        seg.map Xfer.wire =
          wire_entry ++ (0x42, true) :: wire_address a true ++ wire_data buff (max 1 n))) ∧
    (∃ r seg, S25FL164K_Read_Data D fuel a buff n st = some r ∧
      r.2.trace = st.trace ++ seg ∧
      seg.map Xfer.wire =
        (0x03, true) :: wire_address a true ++ wire_data (fun _ => 0xFF) (max 1 n) ∧
      (∀ k, k < max 1 n → ∃ x, seg[4 + k]? = some x ∧ r.1 k = x.resp % 256) ∧
      (∀ k, max 1 n ≤ k → r.1 k = buff k)) ∧
    (∃ r seg, S25FL164K_Read_Sec_Reg D fuel a buff n st = some r ∧
      r.2.trace = st.trace ++ seg ∧
      seg.map Xfer.wire =
        (0x48, true) :: wire_address a true ++ (0x00, true) :: wire_data (fun _ => 0xFF) (max 1 n) ∧
      (∀ k, k < max 1 n → ∃ x, seg[5 + k]? = some x ∧ r.1 k = x.resp % 256) ∧
      (∀ k, max 1 n ≤ k → r.1 k = buff k)) := by
  have h16 : n % 65536 = n := Nat.mod_eq_of_lt hn
  have h32 : n % 2 ^ 32 = n := Nat.mod_eq_of_lt (by omega)
  have hfm : max 1 (n % 65536) ≤ fuel := by rw [h16]; exact hf
  have hpp := page_program_eq D fuel a n buff st hfm
  have hws := write_sec_reg_eq D fuel a n buff st hfm
  rw [h16] at hpp hws
  refine ⟨?_, ?_, fun h => ⟨?_, ?_⟩, ?_, ?_⟩
  · exact gated_frame D fuel _ _ st _ hpp (data_frame_wire PAGE_PROGRAM a _ buff (by decide))
  · exact gated_frame D fuel _ _ st _ hws (data_frame_wire PROGRAM_SEC_REG a _ buff (by decide))
  · have := program_frame D fuel PAGE_PROGRAM a n buff st (S25FL164K_Page_Program D fuel)
      (by decide) hfm (page_program_eq D fuel a n buff st hfm) h
    rw [h16] at this
    exact this
  · have := program_frame D fuel PROGRAM_SEC_REG a n buff st (S25FL164K_Write_Sec_Reg D fuel)
      (by decide) hfm (write_sec_reg_eq D fuel a n buff st hfm) h
    rw [h16] at this
    exact this
  · have heq := read_data_eq D fuel a n buff st (by rw [h32]; exact hn) (by rw [h32]; exact hf)
    rw [h32] at heq
    obtain ⟨seg, h1, h2, h3, h4⟩ := read_frame D (header_cmds READ_DATA a) (max 1 n) buff st
      ((0x03, true) :: wire_address a true) (header_cmds_wire READ_DATA a (by decide))
    exact ⟨_, seg, heq, h1, h2, h3, h4⟩
  · have heq := read_sec_reg_eq D fuel a n buff st hfm
    rw [h16] at heq
    obtain ⟨seg, h1, h2, h3, h4⟩ := read_frame D (header_cmds READ_SEC_REG a ++ [(DUMMY_BYTE, true)])
      (max 1 n) buff st ((0x48, true) :: wire_address a true ++ [(0x00, true)])
      (by rw [List.map_append, header_cmds_wire READ_SEC_REG a (by decide)]; rfl)
    refine ⟨_, seg, heq, h1, ?_, h3, h4⟩
    rw [h2]
    simp

theorem data_phase_at_least_one_witness :
    (((S25FL164K_Page_Program busy_once 2 0x1000 (bufOf [0xAA]) 0 ⟨false, []⟩).isSome ↔
        (enable_and_wait busy_once 2 ⟨false, []⟩).isSome) ∧
      ∀ st', S25FL164K_Page_Program busy_once 2 0x1000 (bufOf [0xAA]) 0 ⟨false, []⟩ = some st' →
        ∃ pre cmd, st'.trace = [] ++ pre ++ cmd ∧ Preamble pre ∧
          cmd.map Xfer.wire =
            (0x02, true) :: wire_address 0x1000 true ++ wire_data (bufOf [0xAA]) (max 1 0)) ∧
    (((S25FL164K_Write_Sec_Reg busy_once 2 0x1000 (bufOf [0xAA]) 0 ⟨false, []⟩).isSome ↔
        (enable_and_wait busy_once 2 ⟨false, []⟩).isSome) ∧
      ∀ st', S25FL164K_Write_Sec_Reg busy_once 2 0x1000 (bufOf [0xAA]) 0 ⟨false, []⟩ = some st' →
        ∃ pre cmd, st'.trace = [] ++ pre ++ cmd ∧ Preamble pre ∧
          cmd.map Xfer.wire =
            (0x42, true) :: wire_address 0x1000 true ++ wire_data (bufOf [0xAA]) (max 1 0)) ∧
    (NeverBusy busy_once false →
      (∃ st' seg, S25FL164K_Page_Program busy_once 2 0x1000 (bufOf [0xAA]) 0 ⟨false, []⟩ =
          some st' ∧
        st'.trace = [] ++ seg ∧
        seg.map Xfer.wire =
          wire_entry ++ (0x02, true) :: wire_address 0x1000 true ++
            wire_data (bufOf [0xAA]) (max 1 0)) ∧
      (∃ st' seg, S25FL164K_Write_Sec_Reg busy_once 2 0x1000 (bufOf [0xAA]) 0 ⟨false, []⟩ =
          some st' ∧
        st'.trace = [] ++ seg ∧
        seg.map Xfer.wire =
          wire_entry ++ (0x42, true) :: wire_address 0x1000 true ++
            wire_data (bufOf [0xAA]) (max 1 0))) ∧
    (∃ r seg, S25FL164K_Read_Data busy_once 2 0x1000 (bufOf [0xAA]) 0 ⟨false, []⟩ = some r ∧
      r.2.trace = [] ++ seg ∧
      seg.map Xfer.wire =
        (0x03, true) :: wire_address 0x1000 true ++ wire_data (fun _ => 0xFF) (max 1 0) ∧
      (∀ k, k < max 1 0 → ∃ x, seg[4 + k]? = some x ∧ r.1 k = x.resp % 256) ∧
      (∀ k, max 1 0 ≤ k → r.1 k = bufOf [0xAA] k)) ∧
    (∃ r seg, S25FL164K_Read_Sec_Reg busy_once 2 0x1000 (bufOf [0xAA]) 0 ⟨false, []⟩ = some r ∧
      r.2.trace = [] ++ seg ∧
      seg.map Xfer.wire =
        (0x48, true) :: wire_address 0x1000 true ++
          (0x00, true) :: wire_data (fun _ => 0xFF) (max 1 0) ∧
      (∀ k, k < max 1 0 → ∃ x, seg[5 + k]? = some x ∧ r.1 k = x.resp % 256) ∧
      (∀ k, max 1 0 ≤ k → r.1 k = bufOf [0xAA] k)) :=
  data_phase_at_least_one busy_once 2 0x1000 0 (bufOf [0xAA]) ⟨false, []⟩ (by decide) (by decide)

/-- C12 as stated fails. At address `0x1234` on a device reporting not-busy,
`S25FL164K_Erase_Sec_Reg` sends `0x44` and the address bytes `0x00 0x12 0x34`, while
`S25FL164K_Erase_Sector` sends `0x20` and `0x00 0x10 0x00`: the frames differ in
more than the opcode. -/
theorem erase_sec_reg_1234_not_masked :
    (S25FL164K_Erase_Sec_Reg quiet 1 0x1234 ⟨(), []⟩).map (fun st => st.trace.map Xfer.wire) =
      some [(0x05, true), (0x01, false), (0x06, false), (0x05, true), (0x01, false),
        (0x44, true), (0x00, true), (0x12, true), (0x34, false)] ∧
    (S25FL164K_Erase_Sector quiet 1 0x1234 ⟨(), []⟩).map (fun st => st.trace.map Xfer.wire) =
      some [(0x05, true), (0x01, false), (0x06, false), (0x05, true), (0x01, false),
        (0x20, true), (0x00, true), (0x10, true), (0x00, false)] ∧
    (S25FL164K_Erase_Sec_Reg quiet 1 0x1234 ⟨(), []⟩).map
        (fun st => (st.trace.map Xfer.wire).drop 6) ≠
      (S25FL164K_Erase_Sector quiet 1 0x1234 ⟨(), []⟩).map
        (fun st => (st.trace.map Xfer.wire).drop 6) := by
  decide

/-- C12, amended. For `1 <= byte_count < 2^16` and every address, on every device.
`S25FL164K_Read_Sec_Reg` returns, having sent `0x48`, the three address bytes most
significant first, one dummy byte `0x00` and then `byte_count` dummy bytes `0xFF`,
all but the last holding chip-select, and having stored the answer to the `k`-th of
these in `buff[k]`. `S25FL164K_Write_Sec_Reg`, `S25FL164K_Page_Program`,
`S25FL164K_Erase_Sec_Reg` and `S25FL164K_Erase_Sector` start with the same write
enable and busy wait: none of them returns when it does not return, and when it
returns, having added complete read-status and write-enable commands (on a device
reporting not-busy: status poll, write enable, status poll), each of them returns
after one more command. That command is, for `S25FL164K_Write_Sec_Reg`, the one of
`S25FL164K_Page_Program` with opcode `0x42` for `0x02`: opcode, address bytes,
`byte_count` data bytes, no dummy byte. For `S25FL164K_Erase_Sec_Reg` it is opcode
`0x44` and the three low bytes of the address as passed, not masked, the last one
releasing chip-select unless bit 31 of the address is set; for
`S25FL164K_Erase_Sector` it is `0x20` and the bytes of `address & 0xFFF000`. The
two erase commands agree apart from the opcode exactly when the address is a
multiple of `SECTOR_SIZE` with bit 31 clear. -/
theorem sec_reg_frames (D : Device σ) (fuel a n : Nat) (buff : Buf) (st : Bus σ)
    (h1 : 1 ≤ n) (hn : n < 65536) (hf : n ≤ fuel) :
    (∃ r seg, S25FL164K_Read_Sec_Reg D fuel a buff n st = some r ∧
      r.2.trace = st.trace ++ seg ∧
      seg.map Xfer.wire =
        (0x48, true) :: wire_address a true ++ (0x00, true) :: wire_data (fun _ => 0xFF) n ∧
      (∀ k, k < n → ∃ x, seg[5 + k]? = some x ∧ r.1 k = x.resp % 256) ∧
      (∀ k, n ≤ k → r.1 k = buff k)) ∧
    (enable_and_wait D fuel st = none →
      S25FL164K_Write_Sec_Reg D fuel a buff n st = none ∧
      S25FL164K_Page_Program D fuel a buff n st = none ∧
      S25FL164K_Erase_Sec_Reg D fuel a st = none ∧
      S25FL164K_Erase_Sector D fuel a st = none) ∧
    (∀ st0, enable_and_wait D fuel st = some st0 →
      (∃ pre, st0.trace = st.trace ++ pre ∧ Preamble pre) ∧
      (∃ sw sp cw cp, S25FL164K_Write_Sec_Reg D fuel a buff n st = some sw ∧
        S25FL164K_Page_Program D fuel a buff n st = some sp ∧
        sw.trace = st0.trace ++ cw ∧ sp.trace = st0.trace ++ cp ∧
        cw.map Xfer.wire = (0x42, true) :: wire_address a true ++ wire_data buff n ∧
        cp.map Xfer.wire = (0x02, true) :: wire_address a true ++ wire_data buff n) ∧
      (∃ se ss ce cs, S25FL164K_Erase_Sec_Reg D fuel a st = some se ∧
        S25FL164K_Erase_Sector D fuel a st = some ss ∧
        se.trace = st0.trace ++ ce ∧ ss.trace = st0.trace ++ cs ∧
        ce.map Xfer.wire = (0x44, true) :: wire_address a (decide (2 ^ 31 ≤ a % 2 ^ 32)) ∧
        cs.map Xfer.wire =
          (0x20, true) :: wire_address (a &&& SECTOR_START_ADDR_MASK) false)) ∧
    (wire_address a (decide (2 ^ 31 ≤ a % 2 ^ 32)) =
        wire_address (a &&& SECTOR_START_ADDR_MASK) false ↔
      a % SECTOR_SIZE = 0 ∧ a % 2 ^ 32 < 2 ^ 31) ∧
    (NeverBusy D st.dev →
      ∃ st0 pre, enable_and_wait D fuel st = some st0 ∧ st0.trace = st.trace ++ pre ∧
        pre.map Xfer.wire = wire_entry) := by
  have hm : max 1 n = n := by omega
  have h16 : n % 65536 = n := Nat.mod_eq_of_lt hn
  have hfm : max 1 (n % 65536) ≤ fuel := by rw [h16, hm]; exact hf
  have hpp := page_program_eq D fuel a n buff st hfm
  have hws := write_sec_reg_eq D fuel a n buff st hfm
  have hes := erase_sector_eq D fuel a st
  have her := erase_sec_reg_eq D fuel a st
  rw [h16, hm] at hpp hws
  have wer : ([(ERASE_SEC_REG, true), (a >>> 16, true), (a >>> 8, true),
      (a, decide (2 ^ 31 ≤ a % 2 ^ 32))] : List (Nat × Bool)).map (fun c => (c.1 % 256, c.2)) =
      (0x44, true) :: wire_address a (decide (2 ^ 31 ≤ a % 2 ^ 32)) := by
    simp [wire_address, Nat.shiftRight_eq_div_pow, ERASE_SEC_REG]
  refine ⟨?_, ?_, ?_, erase_frames_agree a, ?_⟩
  · have heq := read_sec_reg_eq D fuel a n buff st hfm
    rw [h16, hm] at heq
    obtain ⟨seg, q1, q2, q3, q4⟩ := read_frame D (header_cmds READ_SEC_REG a ++ [(DUMMY_BYTE, true)])
      n buff st ((0x48, true) :: wire_address a true ++ [(0x00, true)])
      (by rw [List.map_append, header_cmds_wire READ_SEC_REG a (by decide)]; rfl)
    refine ⟨_, seg, heq, q1, ?_, q3, q4⟩
    rw [q2]
    simp
  · intro h0
    rw [hpp, hws, hes, her, h0]
    exact ⟨rfl, rfl, rfl, rfl⟩
  · intro st0 h0
    refine ⟨enable_and_wait_preamble D fuel st st0 h0, ?_, ?_⟩
    · obtain ⟨sw, cw, e1, e2, e3⟩ := gated_frame_from D fuel _ _ st st0 _ hws
        (data_frame_wire PROGRAM_SEC_REG a n buff (by decide)) h0
      obtain ⟨sp, cp, e4, e5, e6⟩ := gated_frame_from D fuel _ _ st st0 _ hpp
        (data_frame_wire PAGE_PROGRAM a n buff (by decide)) h0
      exact ⟨sw, sp, cw, cp, e1, e4, e2, e5, e3, e6⟩
    · obtain ⟨se, ce, e1, e2, e3⟩ := gated_frame_from D fuel _ _ st st0 _ her wer h0
      obtain ⟨ss, cs, e4, e5, e6⟩ := gated_frame_from D fuel _ _ st st0 _ hes
        (address_frame_wire SECTOR_ERASE (a &&& SECTOR_START_ADDR_MASK) (by decide)) h0
      exact ⟨se, ss, ce, cs, e1, e4, e2, e5, e3, e6⟩
  · intro h
    obtain ⟨pre, e1, e2⟩ := emit_frame D entry_cmds st wire_entry entry_cmds_wire
    exact ⟨_, pre, enable_and_wait_idle D fuel st (by omega) h, e1, e2⟩

theorem sec_reg_frames_witness :
    (∃ r seg, S25FL164K_Read_Sec_Reg quiet 2 0x1000 (bufOf [0xAA, 0xBB]) 2 ⟨(), []⟩ = some r ∧
      r.2.trace = [] ++ seg ∧
      seg.map Xfer.wire =
        (0x48, true) :: wire_address 0x1000 true ++ (0x00, true) :: wire_data (fun _ => 0xFF) 2 ∧
      (∀ k, k < 2 → ∃ x, seg[5 + k]? = some x ∧ r.1 k = x.resp % 256) ∧
      (∀ k, 2 ≤ k → r.1 k = bufOf [0xAA, 0xBB] k)) ∧
    (enable_and_wait quiet 2 ⟨(), []⟩ = none →
      S25FL164K_Write_Sec_Reg quiet 2 0x1000 (bufOf [0xAA, 0xBB]) 2 ⟨(), []⟩ = none ∧
      S25FL164K_Page_Program quiet 2 0x1000 (bufOf [0xAA, 0xBB]) 2 ⟨(), []⟩ = none ∧
      S25FL164K_Erase_Sec_Reg quiet 2 0x1000 ⟨(), []⟩ = none ∧
      S25FL164K_Erase_Sector quiet 2 0x1000 ⟨(), []⟩ = none) ∧
    (∀ st0, enable_and_wait quiet 2 ⟨(), []⟩ = some st0 →
      (∃ pre, st0.trace = [] ++ pre ∧ Preamble pre) ∧
      (∃ sw sp cw cp,
        S25FL164K_Write_Sec_Reg quiet 2 0x1000 (bufOf [0xAA, 0xBB]) 2 ⟨(), []⟩ = some sw ∧
        S25FL164K_Page_Program quiet 2 0x1000 (bufOf [0xAA, 0xBB]) 2 ⟨(), []⟩ = some sp ∧
        sw.trace = st0.trace ++ cw ∧ sp.trace = st0.trace ++ cp ∧
        cw.map Xfer.wire =
          (0x42, true) :: wire_address 0x1000 true ++ wire_data (bufOf [0xAA, 0xBB]) 2 ∧
        cp.map Xfer.wire =
          (0x02, true) :: wire_address 0x1000 true ++ wire_data (bufOf [0xAA, 0xBB]) 2) ∧
      (∃ se ss ce cs, S25FL164K_Erase_Sec_Reg quiet 2 0x1000 ⟨(), []⟩ = some se ∧
        S25FL164K_Erase_Sector quiet 2 0x1000 ⟨(), []⟩ = some ss ∧
        se.trace = st0.trace ++ ce ∧ ss.trace = st0.trace ++ cs ∧
        ce.map Xfer.wire = (0x44, true) :: wire_address 0x1000 (decide (2 ^ 31 ≤ 0x1000 % 2 ^ 32)) ∧
        cs.map Xfer.wire =
          (0x20, true) :: wire_address (0x1000 &&& SECTOR_START_ADDR_MASK) false)) ∧
    (wire_address 0x1000 (decide (2 ^ 31 ≤ 0x1000 % 2 ^ 32)) =
        wire_address (0x1000 &&& SECTOR_START_ADDR_MASK) false ↔
      0x1000 % SECTOR_SIZE = 0 ∧ 0x1000 % 2 ^ 32 < 2 ^ 31) ∧
    (NeverBusy quiet (⟨(), []⟩ : Bus Unit).dev →
      ∃ st0 pre, enable_and_wait quiet 2 ⟨(), []⟩ = some st0 ∧ st0.trace = [] ++ pre ∧
        pre.map Xfer.wire = wire_entry) :=
  sec_reg_frames quiet 2 0x1000 2 (bufOf [0xAA, 0xBB]) ⟨(), []⟩ (by decide) (by decide) (by decide)

end DataClaims

end S25FL164K
